import Mathlib

/-!
WAV codec (`src/head.h`, class `WavFile<T>`): embedding and checked properties.

The embedding follows `src/head.h` function by function.

* `uint8_t` is `Fin 256`; `int`, `int16_t`, `int32_t` are `Int` with an explicit
  two's-complement reduction (`toInt32`, `toInt16`) at every cast and at every
  `int` operation that can leave the range; `uint32_t` is `Nat` reduced modulo `2^32`,
  and `size_t` is 64 bits wide.
* The sample type `T` (a floating-point type in the source) is taken to be the exact
  rationals `ℚ`; a conversion of a floating-point value to an integer type truncates
  toward zero (`truncQ`). Floating-point products are exact here;
  `sampleToSixteenBitIntRounded` is the 16-bit encoder with the rounding of its product
  as a parameter.
* Reading a `vector` element past its end is undefined behaviour in the source; the
  readers return `none` there and the callers surface it as `Fault.outOfBounds`.
* File-system access (`ifstream`, `ofstream`) and console output are outside the
  embedding: `load` takes the file contents, `saveToWaveFile` stops at the byte
  vector handed to `writeDataToFile`, and `reportError` is the error tag carried by
  the result.
-/

/-- A `uint8_t`. -/
abbrev Byte := Fin 256

/-- Conversion of an integer to `uint8_t`. -/
def toUInt8 (x : Int) : Byte := ⟨(x % 256).toNat, by omega⟩

/-- Conversion of an integer to `uint32_t`. -/
def toUInt32 (x : Int) : Nat := (x % 4294967296).toNat

/-- Conversion of an integer to `int16_t` (two's complement). -/
def toInt16 (x : Int) : Int := (x + 32768) % 65536 - 32768

/-- Conversion of an integer to `int` / `int32_t` (two's complement). -/
def toInt32 (x : Int) : Int := (x + 2147483648) % 4294967296 - 2147483648

/-- Addition of two `int` values. -/
def addInt (a b : Int) : Int := toInt32 (a + b)

/-- Multiplication of two `int` values. -/
def mulInt (a b : Int) : Int := toInt32 (a * b)

/-- Multiplication of two `uint32_t` values. -/
def mulUInt32 (a b : Nat) : Nat := (a * b) % 4294967296

/-- Conversion of a sample-typed value to an integer type: truncation toward zero. -/
def truncQ (q : ℚ) : Int := if 0 ≤ q then ⌊q⌋ else ⌈q⌉

/-- The bytes of a string literal, each character cast to `uint8_t`. -/
def stringBytes (s : String) : List Byte := s.toList.map (fun c => toUInt8 c.toNat)

/-- Ways in which a run leaves the defined behaviour of the source. -/
inductive Fault
  | outOfBounds
  | assertFailed
deriving DecidableEq, Repr

/-- The counted loop `for (int i = start; i < start + count; i++) body`, threading the
loop state and stopping at the first fault. -/
def forLoop {σ : Type} (body : Nat → σ → Except Fault σ) : Nat → Nat → σ → Except Fault σ
  | _, 0, s => .ok s
  | i, count + 1, s =>
    match body i s with
    | .ok s' => forLoop body (i + 1) count s'
    | .error e => .error e

/-- The enum `WavFileFormat`. -/
inductive WavFileFormat
  | Error
  | NotLoaded
  | Wave
deriving DecidableEq, Repr

/-- The data members of `WavFile<T>`. -/
structure WavFile where
  samples : List (List ℚ)
  wavFileFormat : WavFileFormat
  sampleRate : Nat
  bitDepth : Int
deriving DecidableEq

/-- The messages passed to `reportError` by `load` and `decodeWaveFile`. -/
inductive LoadError
  | cannotLoadFile
  | audioFileTypeError
  | notValidWav
  | compressed
  | notMonoOrStereo
  | inconsistentHeader
  | unsupportedBitDepth
deriving DecidableEq, Repr

/-- Outcome of `load` / `decodeWaveFile`: `ok` is `return true`, `failed` is
`reportError` followed by `return false`; both carry the object's members after the call. -/
inductive Decoded
  | ok (w : WavFile)
  | failed (e : LoadError) (w : WavFile)
  | fault (f : Fault)
deriving DecidableEq

/-- Outcome of `saveToWaveFile`: `written` carries the `fileData` vector passed to
`writeDataToFile`; `sizeMismatch` is the `reportError` branch returning `false`. -/
inductive Saved
  | written (fileData : List Byte)
  | sizeMismatch
  | fault (f : Fault)
deriving DecidableEq

namespace WavFile

/-- The private enum `Endianness`. -/
inductive Endianness
  | LittleEndian
  | BigEndian
deriving DecidableEq, Repr

/-- The constructor `WavFile()`. -/
def new : WavFile :=
  { samples := [[]], wavFileFormat := WavFileFormat.NotLoaded, sampleRate := 44100, bitDepth := 16 }

/-- Member `getSampleRate`. -/
def getSampleRate (w : WavFile) : Nat := w.sampleRate

/-- Member `getNumChannels`: `(int) samples.size()`. -/
def getNumChannels (w : WavFile) : Int := toInt32 w.samples.length

/-- Member `getBitDepth`. -/
def getBitDepth (w : WavFile) : Int := w.bitDepth

/-- Member `getNumSamplesPerChannel`: `(int) samples[0].size()`, or 0 without channels. -/
def getNumSamplesPerChannel (w : WavFile) : Int :=
  match w.samples with
  | [] => 0
  | ch :: _ => toInt32 ch.length

/-- Member `clamp`. -/
def clamp (value minValue maxValue : ℚ) : ℚ := max (min value maxValue) minValue

/-- Member `sixteenBitIntToSample`. -/
def sixteenBitIntToSample (sample : Int) : ℚ := (sample : ℚ) / 32768

/-- Member `sampleToSixteenBitInt`, with the product `sample * 32767.` taken exactly. -/
def sampleToSixteenBitInt (sample : ℚ) : Int :=
  let sample := clamp sample (-1) 1
  toInt16 (truncQ (sample * 32767))

/-- Member `sampleToSingleByte`. -/
def sampleToSingleByte (sample : ℚ) : Byte :=
  let sample := clamp sample (-1) 1
  let sample := (sample + 1) / 2
  toUInt8 (truncQ (sample * 255))

/-- Member `singleByteToSample`: the byte is promoted to `int` before the subtraction. -/
def singleByteToSample (sample : Byte) : ℚ := (((sample.val : Int) - 128 : Int) : ℚ) / 128

/-- The expression `source[i]` for an `int` index: `none` when the index is outside
the vector (a negative `int` converts to a huge `size_t`). -/
def byteAt (source : List Byte) (i : Int) : Option Byte :=
  if 0 ≤ i then source[i.toNat]? else none

/-- The expression `string (v.begin() + start, v.begin() + start + len)`. -/
def readString (source : List Byte) (start : Int) (len : Nat) : Option (List Byte) :=
  if 0 ≤ start ∧ start + len ≤ source.length then
    some ((source.drop start.toNat).take len)
  else none

/-- Member `fourBytesToInt`. -/
def fourBytesToInt (source : List Byte) (startIndex : Int)
    (endianness : Endianness := Endianness.LittleEndian) : Option Int := do
  let s3 ← byteAt source (addInt startIndex 3)
  let s2 ← byteAt source (addInt startIndex 2)
  let s1 ← byteAt source (addInt startIndex 1)
  let s0 ← byteAt source startIndex
  match endianness with
  | Endianness.LittleEndian =>
    pure (toInt32 (((s3.val <<< 24) ||| (s2.val <<< 16) ||| (s1.val <<< 8) ||| s0.val : Nat)))
  | Endianness.BigEndian =>
    pure (toInt32 (((s0.val <<< 24) ||| (s1.val <<< 16) ||| (s2.val <<< 8) ||| s3.val : Nat)))

/-- Member `twoBytesToInt`. -/
def twoBytesToInt (source : List Byte) (startIndex : Int)
    (endianness : Endianness := Endianness.LittleEndian) : Option Int := do
  let s1 ← byteAt source (addInt startIndex 1)
  let s0 ← byteAt source startIndex
  match endianness with
  | Endianness.LittleEndian => pure (toInt16 (((s1.val <<< 8) ||| s0.val : Nat)))
  | Endianness.BigEndian => pure (toInt16 (((s0.val <<< 8) ||| s1.val : Nat)))

/-- Member `getIndexOfString`. The loop runs `i` over `0 .. source.size() - stringLength`
(exclusive) and stops at the first `i` whose section equals the string; the index is
cast to `int`. When the vector is shorter than the string the `size_t` bound wraps
around and the first section is read past the end. -/
def getIndexOfString (source : List Byte) (stringToSearchFor : List Byte) : Option Int :=
  let stringLength := stringToSearchFor.length
  if source.length < stringLength then none
  else
    match (List.range (source.length - stringLength)).find?
        (fun i => (source.drop i).take stringLength == stringToSearchFor) with
    | some i => some (toInt32 i)
    | none => some (-1)

/-- Member `addStringToFileData`. -/
def addStringToFileData (fileData : List Byte) (s : String) : List Byte :=
  fileData ++ stringBytes s

/-- Member `addInt32ToFileData`: `i >> k` is the arithmetic shift of a signed value and
`& 0xFF` the bitwise and. -/
def addInt32ToFileData (fileData : List Byte) (i : Int)
    (endianness : Endianness := Endianness.LittleEndian) : List Byte :=
  let b3 := toUInt8 (Int.land (i >>> (24 : Nat)) 255)
  let b2 := toUInt8 (Int.land (i >>> (16 : Nat)) 255)
  let b1 := toUInt8 (Int.land (i >>> (8 : Nat)) 255)
  let b0 := toUInt8 (Int.land i 255)
  match endianness with
  | Endianness.LittleEndian => fileData ++ [b0, b1, b2, b3]
  | Endianness.BigEndian => fileData ++ [b3, b2, b1, b0]

/-- Member `addInt16ToFileData`. -/
def addInt16ToFileData (fileData : List Byte) (i : Int)
    (endianness : Endianness := Endianness.LittleEndian) : List Byte :=
  let b1 := toUInt8 (Int.land (i >>> (8 : Nat)) 255)
  let b0 := toUInt8 (Int.land i 255)
  match endianness with
  | Endianness.LittleEndian => fileData ++ [b0, b1]
  | Endianness.BigEndian => fileData ++ [b1, b0]

/-- Member `clearWavBuffer`: every channel is cleared and then `samples.clear()` removes
the channels, which leaves the empty vector. -/
def clearWavBuffer (w : WavFile) : WavFile := { w with samples := [] }

/-- The call `samples.resize (n)` of a `vector`: the first `n` elements are kept, and
when there are fewer than `n`, empty channels are appended up to `n`. -/
def resizeSamples (samples : List (List ℚ)) (n : Nat) : List (List ℚ) :=
  samples.take n ++ List.replicate (n - samples.length) []

/-- The 24-bit branch of the sample loop of `decodeWaveFile`: the three bytes are
combined with shifts and ors, and when bit 23 is set the word is or-ed with
`~0xFFFFFF`, whose 32-bit pattern is `0xFF000000`. -/
def twentyFourBitSample (fileData : List Byte) (sampleIndex : Int) : Option ℚ := do
  let s2 ← byteAt fileData (addInt sampleIndex 2)
  let s1 ← byteAt fileData (addInt sampleIndex 1)
  let s0 ← byteAt fileData sampleIndex
  let sampleAsInt : Nat := (s2.val <<< 16) ||| (s1.val <<< 8) ||| s0.val
  let sampleAsInt : Nat :=
    if sampleAsInt &&& 0x800000 ≠ 0 then sampleAsInt ||| 0xFF000000 else sampleAsInt
  pure (((toInt32 sampleAsInt : Int) : ℚ) / 8388608)

/-- The body of the inner loop of `decodeWaveFile` up to the `push_back`: the sample
read at `sampleIndex` for the given bit depth. -/
def decodeSample (fileData : List Byte) (bitDepth sampleIndex : Int) : Except Fault ℚ :=
  if bitDepth = 8 then
    match byteAt fileData sampleIndex with
    | some b => .ok (singleByteToSample b)
    | none => .error Fault.outOfBounds
  else if bitDepth = 16 then
    match twoBytesToInt fileData sampleIndex with
    | some sampleAsInt => .ok (sixteenBitIntToSample sampleAsInt)
    | none => .error Fault.outOfBounds
  else if bitDepth = 24 then
    match twentyFourBitSample fileData sampleIndex with
    | some sample => .ok sample
    | none => .error Fault.outOfBounds
  else .error Fault.assertFailed

/-- The inner loop of `decodeWaveFile` for frame `i`: channels `0 .. numChannels`. -/
def decodeFrame (fileData : List Byte)
    (bitDepth numChannels samplesStartIndex numBytesPerBlock numBytesPerSample : Int)
    (i : Nat) (samples : List (List ℚ)) : Except Fault (List (List ℚ)) :=
  forLoop (fun (channel : Nat) samples =>
    let sampleIndex :=
      addInt (addInt samplesStartIndex (mulInt numBytesPerBlock i))
        (mulInt channel numBytesPerSample)
    match decodeSample fileData bitDepth sampleIndex with
    | .ok sample => .ok (samples.modify (fun ch => ch ++ [sample]) channel)
    | .error e => .error e) 0 numChannels.toNat samples

/-- The outer loop of `decodeWaveFile`: frames `0 .. numSamples`. -/
def decodeFrames (fileData : List Byte)
    (bitDepth numChannels numSamples samplesStartIndex numBytesPerBlock numBytesPerSample : Int)
    (samples : List (List ℚ)) : Except Fault (List (List ℚ)) :=
  forLoop (fun (i : Nat) samples =>
    decodeFrame fileData bitDepth numChannels samplesStartIndex numBytesPerBlock
      numBytesPerSample i samples) 0 numSamples.toNat samples

/-- The locals read from the format chunk in `decodeWaveFile` (lines 160-165). -/
structure FormatChunk where
  audioFormat : Int
  numChannels : Int
  sampleRate : Nat
  numBytesPerSecond : Int
  numBytesPerBlock : Int
  bitDepth : Int
deriving DecidableEq

/-- The reads of `decodeWaveFile` relative to the format-chunk index `f`. -/
def readFormatChunk (fileData : List Byte) (f : Int) : Option FormatChunk := do
  let _formatChunkID ← readString fileData f 4
  let audioFormat ← twoBytesToInt fileData (addInt f 8)
  let numChannels ← twoBytesToInt fileData (addInt f 10)
  let sampleRate ← fourBytesToInt fileData (addInt f 12)
  let numBytesPerSecond ← fourBytesToInt fileData (addInt f 16)
  let numBytesPerBlock ← twoBytesToInt fileData (addInt f 20)
  let bitDepth ← twoBytesToInt fileData (addInt f 22)
  pure { audioFormat := audioFormat, numChannels := numChannels,
         sampleRate := toUInt32 sampleRate, numBytesPerSecond := numBytesPerSecond,
         numBytesPerBlock := numBytesPerBlock, bitDepth := bitDepth }

/-- The header consistency test of `decodeWaveFile` (line 177), as the condition under
which the header is accepted. The first comparison is carried out in `uint32_t`
(because `sampleRate` is), the second in `int`. -/
def headerConsistent (c : FormatChunk) : Bool :=
  toUInt32 c.numBytesPerSecond
      = mulUInt32 (mulUInt32 (toUInt32 c.numChannels) c.sampleRate) (toUInt32 c.bitDepth) / 8
    ∧ c.numBytesPerBlock = mulInt c.numChannels (Int.tdiv c.bitDepth 8)

/-- The part of `decodeWaveFile` after the header checks (lines 187-232). -/
def decodeData (w : WavFile) (fileData : List Byte) (c : FormatChunk) (indexOfDataChunk : Int) :
    Decoded :=
  let d := indexOfDataChunk
  match readString fileData d 4, fourBytesToInt fileData (addInt d 4) with
  | some _dataChunkID, some dataChunkSize =>
    let numBytesPerSample := Int.tdiv c.bitDepth 8
    let numSamples := Int.tdiv dataChunkSize (Int.tdiv (mulInt c.numChannels c.bitDepth) 8)
    let samplesStartIndex := addInt indexOfDataChunk 8
    let w := clearWavBuffer w
    let w := { w with samples := resizeSamples w.samples c.numChannels.toNat }
    match decodeFrames fileData c.bitDepth c.numChannels numSamples samplesStartIndex
        c.numBytesPerBlock numBytesPerSample w.samples with
    | .ok samples => Decoded.ok { w with samples := samples }
    | .error e => Decoded.fault e
  | _, _ => Decoded.fault Fault.outOfBounds

/-- Member `decodeWaveFile`. The members `sampleRate` and `bitDepth` are assigned while
the format chunk is read, before the header checks. -/
def decodeWaveFile (w : WavFile) (fileData : List Byte) : Decoded :=
  match readString fileData 0 4, readString fileData 8 4,
      getIndexOfString fileData (stringBytes "data"),
      getIndexOfString fileData (stringBytes "fmt") with
  | some headerChunkID, some format, some indexOfDataChunk, some indexOfFormatChunk =>
    if indexOfDataChunk = -1 ∨ indexOfFormatChunk = -1 ∨ headerChunkID ≠ stringBytes "RIFF"
        ∨ format ≠ stringBytes "WAVE" then
      Decoded.failed LoadError.notValidWav w
    else
      match readFormatChunk fileData indexOfFormatChunk with
      | none => Decoded.fault Fault.outOfBounds
      | some c =>
        let w := { w with sampleRate := c.sampleRate, bitDepth := c.bitDepth }
        if c.audioFormat ≠ 1 then Decoded.failed LoadError.compressed w
        else if c.numChannels < 1 ∨ c.numChannels > 2 then
          Decoded.failed LoadError.notMonoOrStereo w
        else if ¬ headerConsistent c then Decoded.failed LoadError.inconsistentHeader w
        else if c.bitDepth ≠ 8 ∧ c.bitDepth ≠ 16 ∧ c.bitDepth ≠ 24 then
          Decoded.failed LoadError.unsupportedBitDepth w
        else decodeData w fileData c indexOfDataChunk
  | _, _, _, _ => Decoded.fault Fault.outOfBounds

/-- Member `load`, given the contents of the file (`none`: the stream is not good). -/
def load (w : WavFile) (file : Option (List Byte)) : Decoded :=
  match file with
  | none => Decoded.failed LoadError.cannotLoadFile w
  | some fileData =>
    match readString fileData 0 4 with
    | none => Decoded.fault Fault.outOfBounds
    | some header =>
      if header = stringBytes "RIFF" then decodeWaveFile w fileData
      else Decoded.failed LoadError.audioFileTypeError w

/-- The expression `samples[channel][i]`. -/
def sampleAt (w : WavFile) (channel i : Nat) : Option ℚ :=
  match w.samples[channel]? with
  | some ch => ch[i]?
  | none => none

/-- The 24-bit branch of the sample loop of `saveToWaveFile`: the three bytes pushed
for one sample. -/
def twentyFourBitBytes (sample : ℚ) : List Byte :=
  let sampleAsIntAgain := toInt32 (truncQ (sample * 8388608))
  let b2 := toUInt8 (Int.land (toUInt8 (sampleAsIntAgain >>> (16 : Nat))).val 255)
  let b1 := toUInt8 (Int.land (toUInt8 (sampleAsIntAgain >>> (8 : Nat))).val 255)
  let b0 := toUInt8 (Int.land (toUInt8 sampleAsIntAgain).val 255)
  [b0, b1, b2]

/-- The body of the inner loop of `saveToWaveFile` for frame `i` and one channel. -/
def encodeSample (w : WavFile) (i channel : Nat) (fileData : List Byte) :
    Except Fault (List Byte) :=
  if w.bitDepth = 8 then
    match sampleAt w channel i with
    | some s => .ok (fileData ++ [sampleToSingleByte s])
    | none => .error Fault.outOfBounds
  else if w.bitDepth = 16 then
    match sampleAt w channel i with
    | some s => .ok (addInt16ToFileData fileData (sampleToSixteenBitInt s))
    | none => .error Fault.outOfBounds
  else if w.bitDepth = 24 then
    match sampleAt w channel i with
    | some s => .ok (fileData ++ twentyFourBitBytes s)
    | none => .error Fault.outOfBounds
  else .error Fault.assertFailed

/-- The inner loop of `saveToWaveFile` for frame `i`: channels `0 .. getNumChannels()`. -/
def encodeFrame (w : WavFile) (i : Nat) (fileData : List Byte) : Except Fault (List Byte) :=
  forLoop (fun channel fileData => encodeSample w i channel fileData) 0
    (getNumChannels w).toNat fileData

/-- The outer loop of `saveToWaveFile`: frames `0 .. getNumSamplesPerChannel()`. -/
def encodeFrames (w : WavFile) (fileData : List Byte) : Except Fault (List Byte) :=
  forLoop (fun i fileData => encodeFrame w i fileData) 0
    (getNumSamplesPerChannel w).toNat fileData

/-- The local `dataChunkSize` of `saveToWaveFile` (line 263). -/
def dataChunkSize (w : WavFile) : Int :=
  mulInt (getNumSamplesPerChannel w) (Int.tdiv (mulInt (getNumChannels w) w.bitDepth) 8)

/-- The local `fileSizeInBytes` of `saveToWaveFile` (line 265). -/
def fileSizeInBytes (w : WavFile) : Int := addInt 36 (dataChunkSize w)

/-- The local `numBytesPerSecond` of `saveToWaveFile` (line 273), computed in `uint32_t`
and cast to `int32_t`. -/
def numBytesPerSecond (w : WavFile) : Int :=
  toInt32 (mulUInt32 (mulUInt32 (toUInt32 (getNumChannels w)) w.sampleRate)
    (toUInt32 w.bitDepth) / 8 : Nat)

/-- The local `numBytesPerBlock` of `saveToWaveFile` (line 275), an `int16_t`. -/
def numBytesPerBlock (w : WavFile) : Int :=
  toInt16 (mulInt (getNumChannels w) (Int.tdiv w.bitDepth 8))

/-- The header written by `saveToWaveFile` before the sample loop (lines 262-279). -/
def writeHeader (w : WavFile) : List Byte :=
  let fileData : List Byte := []
  let fileData := addStringToFileData fileData "RIFF"
  let fileData := addInt32ToFileData fileData (fileSizeInBytes w)
  let fileData := addStringToFileData fileData "WAVE"
  let fileData := addStringToFileData fileData "fmt "
  let fileData := addInt32ToFileData fileData 16
  let fileData := addInt16ToFileData fileData 1
  let fileData := addInt16ToFileData fileData (toInt16 (getNumChannels w))
  let fileData := addInt32ToFileData fileData (toInt32 w.sampleRate)
  let fileData := addInt32ToFileData fileData (numBytesPerSecond w)
  let fileData := addInt16ToFileData fileData (numBytesPerBlock w)
  let fileData := addInt16ToFileData fileData (toInt16 w.bitDepth)
  let fileData := addStringToFileData fileData "data"
  addInt32ToFileData fileData (dataChunkSize w)

/-- Member `saveToWaveFile`, up to the call of `writeDataToFile`. -/
def saveToWaveFile (w : WavFile) : Saved :=
  match encodeFrames w (writeHeader w) with
  | .error e => Saved.fault e
  | .ok fileData =>
    if fileSizeInBytes w ≠ toInt32 ((fileData.length : Int) - 8)
        ∨ dataChunkSize w
          ≠ mulInt (mulInt (getNumSamplesPerChannel w) (getNumChannels w)) (Int.tdiv w.bitDepth 8) then
      Saved.sizeMismatch
    else Saved.written fileData

end WavFile

/-! ## Volume -/

/-- Conversion of an `int` to `size_t` (64 bits), as it happens in the comparison
`j < getNumSamplesPerChannel()` of a `size_t` with an `int`. -/
def toSizeT (x : Int) : Nat := (x % 18446744073709551616).toNat

namespace WavFile

/-- Member `IncVol`. The bound of the outer loop is `samples.size()`, the bound of the
inner loop is `getNumSamplesPerChannel()` converted to `size_t`; the loops change no
size, so that each bound is evaluated when its loop is entered. The statement
`samples[i][j] += (T)(samples[i][j] * times)` reads and writes one element. -/
def IncVol (w : WavFile) (times : ℚ) : Except Fault WavFile :=
  match forLoop (fun i samples =>
      forLoop (fun j samples =>
        match samples[i]? with
        | some ch =>
          match ch[j]? with
          | some s => .ok (samples.set i (ch.set j (s + s * times)))
          | none => .error Fault.outOfBounds
        | none => .error Fault.outOfBounds)
        0 (toSizeT (getNumSamplesPerChannel { w with samples := samples })) samples)
      0 w.samples.length w.samples with
  | .ok samples => .ok { w with samples := samples }
  | .error e => .error e

/-- Member `DecVol`: as `IncVol`, with the statement
`samples[i][j] -= (T)(samples[i][j] * times)`. -/
def DecVol (w : WavFile) (times : ℚ) : Except Fault WavFile :=
  match forLoop (fun i samples =>
      forLoop (fun j samples =>
        match samples[i]? with
        | some ch =>
          match ch[j]? with
          | some s => .ok (samples.set i (ch.set j (s - s * times)))
          | none => .error Fault.outOfBounds
        | none => .error Fault.outOfBounds)
        0 (toSizeT (getNumSamplesPerChannel { w with samples := samples })) samples)
      0 w.samples.length w.samples with
  | .ok samples => .ok { w with samples := samples }
  | .error e => .error e

end WavFile

/-! ## Inputs used in the examples -/

namespace WavFile

/-- A 16-byte file that ends with the tag "data". -/
def tagAtEnd : List Byte := stringBytes "RIFF....WAVEdata"

/-- A 21-byte file cut off inside its format chunk. -/
def truncatedFile : List Byte := stringBytes "RIFF....WAVEfmt data."

/-- A 44-byte file with an empty data chunk whose format chunk declares audio format 2
(not PCM), one channel, 8000 Hz, 8000 bytes per second, block size 1 and 8 bits. -/
def compressedFile : List Byte :=
  stringBytes "RIFF" ++ [36, 0, 0, 0] ++ stringBytes "WAVEfmt "
    ++ [16, 0, 0, 0, 2, 0, 1, 0, 64, 31, 0, 0, 64, 31, 0, 0, 1, 0, 8, 0]
    ++ stringBytes "data" ++ [0, 0, 0, 0]

/-- A 44-byte PCM file with an empty data chunk whose format chunk declares one channel,
a sample rate of 536870912 (2^29), 0 bytes per second, block size 1 and 8 bits. -/
def wrappedRateFile : List Byte :=
  stringBytes "RIFF" ++ [36, 0, 0, 0] ++ stringBytes "WAVEfmt "
    ++ [16, 0, 0, 0, 1, 0, 1, 0, 0, 0, 0, 32, 0, 0, 0, 0, 1, 0, 8, 0]
    ++ stringBytes "data" ++ [0, 0, 0, 0]

/-- The format chunk of `wrappedRateFile`. -/
def wrappedRateChunk : FormatChunk :=
  { audioFormat := 1, numChannels := 1, sampleRate := 536870912, numBytesPerSecond := 0,
    numBytesPerBlock := 1, bitDepth := 8 }

/-- A 44-byte PCM file with an empty data chunk whose format chunk declares one channel,
8000 Hz, 9999 bytes per second (instead of 8000), block size 1 and 8 bits. -/
def inconsistentFile : List Byte :=
  stringBytes "RIFF" ++ [36, 0, 0, 0] ++ stringBytes "WAVEfmt "
    ++ [16, 0, 0, 0, 1, 0, 1, 0, 64, 31, 0, 0, 15, 39, 0, 0, 1, 0, 8, 0]
    ++ stringBytes "data" ++ [0, 0, 0, 0]

/-- The format chunk of `inconsistentFile`. -/
def inconsistentChunk : FormatChunk :=
  { audioFormat := 1, numChannels := 1, sampleRate := 8000, numBytesPerSecond := 9999,
    numBytesPerBlock := 1, bitDepth := 8 }

/-- A default-constructed object (one channel, no frames, 16 bits) whose sample rate is
1635017060, the little-endian reading of the bytes "data". -/
def dataRate : WavFile := { new with sampleRate := 1635017060 }

/-- The 44 bytes written for `dataRate`. -/
def dataRateFile : List Byte :=
  stringBytes "RIFF" ++ [36, 0, 0, 0] ++ stringBytes "WAVEfmt "
    ++ [16, 0, 0, 0, 1, 0, 1, 0, 100, 97, 116, 97, 200, 194, 232, 2, 2, 0, 16, 0]
    ++ stringBytes "data" ++ [0, 0, 0, 0]

/-- An 8-bit object with one channel, no frames and sample rate 536870912 (2^29). -/
def wrappedRate : WavFile := { new with sampleRate := 536870912, bitDepth := 8 }

/-- An 8-bit object with one channel of 2147483648 (2^31) samples, all 0. -/
def tooManyFrames : WavFile :=
  { new with samples := [List.replicate 2147483648 0], bitDepth := 8 }

/-- A 16-bit object with one channel holding the two samples 0 and 1/2. -/
def twoFrames : WavFile := { new with samples := [[0, 1 / 2]] }

/-- The 48 bytes written for `twoFrames`. -/
def twoFramesFile : List Byte :=
  stringBytes "RIFF" ++ [40, 0, 0, 0] ++ stringBytes "WAVEfmt "
    ++ [16, 0, 0, 0, 1, 0, 1, 0, 68, 172, 0, 0, 136, 88, 1, 0, 2, 0, 16, 0]
    ++ stringBytes "data" ++ [4, 0, 0, 0, 0, 0, 255, 63]

/-- The bytes that the loop body of `saveToWaveFile` pushes for frame `i` and one
channel (none when the body faults). -/
def sampleBlock (w : WavFile) (i channel : Nat) : List Byte :=
  match encodeSample w i channel [] with
  | .ok bytes => bytes
  | .error _ => []

/-- The bytes of frame `i`: the blocks of its channels in channel order. -/
def frameBlock (w : WavFile) (i : Nat) : List Byte :=
  (List.range w.samples.length).flatMap (sampleBlock w i)

/-- The little-endian byte sequence of the given width for an integer: byte `j` is
the value divided by `256 ^ j`, modulo 256. -/
def littleEndian (width : Nat) (v : Int) : List Byte :=
  (List.range width).map (fun j => toUInt8 (v / 256 ^ j))

/-- The `len` bytes of a buffer that start at offset `start`. -/
def slice (fileData : List Byte) (start len : Nat) : List Byte :=
  (fileData.drop start).take len

/-- The sample that the loop body of `decodeWaveFile` reads at `sampleIndex` (0 when
the read faults). -/
def sampleRead (fileData : List Byte) (bitDepth sampleIndex : Int) : ℚ :=
  match decodeSample fileData bitDepth sampleIndex with
  | .ok sample => sample
  | .error _ => 0

/-- The channel sequences that the sample loop of `decodeWaveFile` builds when no read
faults: channel `ch` holds, for the frames `i` in order, the sample read at
`samplesStartIndex + numBytesPerBlock * i + ch * numBytesPerSample`. -/
def decodedSamples (fileData : List Byte) (bitDepth : Int) (numChannels numSamples : Nat)
    (samplesStartIndex numBytesPerBlock numBytesPerSample : Int) : List (List ℚ) :=
  (List.range numChannels).map (fun (ch : Nat) =>
    (List.range numSamples).map (fun (i : Nat) =>
      sampleRead fileData bitDepth
        (samplesStartIndex + numBytesPerBlock * i + ch * numBytesPerSample)))

/-- The exact form of the header equations of the format chunk: `numBytesPerSecond`
is `numChannels * sampleRate * bitDepth / 8` and `numBytesPerBlock` is
`numChannels * (bitDepth / 8)`, without wrap-around. -/
def headerEquationsExact (c : FormatChunk) : Prop :=
  c.numBytesPerSecond = Int.tdiv (c.numChannels * c.sampleRate * c.bitDepth) 8
    ∧ c.numBytesPerBlock = c.numChannels * Int.tdiv c.bitDepth 8

/-- The header equations as 32-bit unsigned arithmetic carries them out: both sides of
the first equation are reduced modulo 2^32 before the division by 8. -/
def headerEquationsWrapped (c : FormatChunk) : Prop :=
  c.numBytesPerSecond % 4294967296
      = (c.numChannels * c.sampleRate * c.bitDepth) % 4294967296 / 8
    ∧ c.numBytesPerBlock = c.numChannels * Int.tdiv c.bitDepth 8

end WavFile

namespace WavFile

/-- A 22-byte file cut off after the audio-format field of its format chunk, which
declares audio format 2 (not PCM). -/
def truncatedCompressedFile : List Byte := stringBytes "RIFF....WAVEfmt data" ++ [2, 0]

/-- A 24-byte file cut off after the channel-count field of its format chunk, which
declares audio format 1 (PCM) and three channels. -/
def truncatedThreeChannelFile : List Byte :=
  stringBytes "RIFF....WAVEfmt data" ++ [1, 0, 3, 0]

/-- A 44-byte PCM file with an empty data chunk whose format chunk declares three
channels, 8000 Hz, 24000 bytes per second, block size 3 and 8 bits. -/
def threeChannelFile : List Byte :=
  stringBytes "RIFF" ++ [36, 0, 0, 0] ++ stringBytes "WAVEfmt "
    ++ [16, 0, 0, 0, 1, 0, 3, 0, 64, 31, 0, 0, 192, 93, 0, 0, 3, 0, 8, 0]
    ++ stringBytes "data" ++ [0, 0, 0, 0]

end WavFile

namespace WavFile

/-- The local `sampleIndex` of the sample loop of `decodeWaveFile` for frame `i` and
channel `channel`: `samplesStartIndex + (numBytesPerBlock * i) + channel * numBytesPerSample`
in `int` arithmetic. -/
def sampleIndex (samplesStartIndex numBytesPerBlock numBytesPerSample : Int)
    (i channel : Nat) : Int :=
  addInt (addInt samplesStartIndex (mulInt numBytesPerBlock i)) (mulInt channel numBytesPerSample)

end WavFile

namespace WavFile

/-- A 48-byte PCM file with two channels, 8000 Hz, 16000 bytes per second, block size 2,
8 bits, and a data chunk of two frames: the bytes 128, 255 and 0, 64. -/
def stereoFile : List Byte :=
  stringBytes "RIFF" ++ [40, 0, 0, 0] ++ stringBytes "WAVEfmt "
    ++ [16, 0, 0, 0, 1, 0, 2, 0, 64, 31, 0, 0, 128, 62, 0, 0, 2, 0, 8, 0]
    ++ stringBytes "data" ++ [4, 0, 0, 0, 128, 255, 0, 64]

/-- The object that decoding `stereoFile` into a default-constructed object gives. -/
def stereoDecoded : WavFile :=
  { new with samples := [[0, -1], [127 / 128, -1 / 2]], sampleRate := 8000, bitDepth := 8 }

/-- An object that holds the samples of an earlier load: two channels with the samples
9, 9, 9 and 7. -/
def loadedBefore : WavFile := { new with samples := [[9, 9, 9], [7]] }

end WavFile

namespace WavFile

/-- The unsigned little-endian value of a byte sequence: the first byte is the least
significant. -/
def unsignedLE (bytes : List Byte) : Nat :=
  bytes.foldr (fun b acc => b.val + 256 * acc) 0

end WavFile

namespace WavFile

/-- The list whose first `m` elements are replaced by their images under `g`. -/
def mapUpTo {α : Type} (g : α → α) (m : Nat) (l : List α) : List α :=
  (l.take m).map g ++ l.drop m

/-- The body of the inner loop of `IncVol` and `DecVol` for channel `i`, with the new
value of the element given by `g`. -/
def volumeStep (g : ℚ → ℚ) (i j : Nat) (samples : List (List ℚ)) :
    Except Fault (List (List ℚ)) :=
  match samples[i]? with
  | some ch =>
    match ch[j]? with
    | some s => .ok (samples.set i (ch.set j (g s)))
    | none => .error Fault.outOfBounds
  | none => .error Fault.outOfBounds

/-- The two loops of `IncVol` and `DecVol`, with the new value of an element given by
`g`. -/
def volumeLoop (g : ℚ → ℚ) (w : WavFile) : Except Fault (List (List ℚ)) :=
  forLoop (fun i samples =>
    forLoop (fun j samples => volumeStep g i j samples)
      0 (toSizeT (getNumSamplesPerChannel { w with samples := samples })) samples)
    0 w.samples.length w.samples

end WavFile

namespace WavFile

/-- The offset `i` is the first one at which the tag stands in the buffer. -/
def IsFirstOffset (source tag : List Byte) (i : Nat) : Prop :=
  slice source i tag.length = tag ∧ ∀ j, j < i → slice source j tag.length ≠ tag

/-- A 44-byte header with the upper-case tags "FMT " and "DATA" in the places of the
chunk tags: audio format 1, one channel, 8000 Hz, 8000 bytes per second, block size 1,
8 bits, and a data size of 0. It contains neither the byte 'f' nor the byte 'd'. -/
def upperCaseHeader : List Byte :=
  stringBytes "RIFF" ++ [0, 0, 0, 0] ++ stringBytes "WAVEFMT "
    ++ [16, 0, 0, 0, 1, 0, 1, 0, 64, 31, 0, 0, 64, 31, 0, 0, 1, 0, 8, 0]
    ++ stringBytes "DATA" ++ [0, 0, 0, 0]

/-- A format chunk of 24 bytes: audio format 1, two channels, 8000 Hz, 16000 bytes per
second, block size 2, 8 bits. -/
def stereoFormatChunk : List Byte :=
  stringBytes "fmt " ++ [16, 0, 0, 0, 1, 0, 2, 0, 64, 31, 0, 0, 128, 62, 0, 0, 2, 0, 8, 0]

/-- An empty data chunk: the tag and the size 0. -/
def emptyDataChunk : List Byte := stringBytes "data" ++ [0, 0, 0, 0]

/-- A buffer of 2^32 + 44 bytes: `upperCaseHeader`, then 2^32 - 32 zero bytes, then
`stereoFormatChunk` at offset 2^32 + 12 and `emptyDataChunk` at offset 2^32 + 36. -/
def hugeFile : List Byte :=
  upperCaseHeader ++ List.replicate 4294967264 0 ++ stereoFormatChunk ++ emptyDataChunk

end WavFile

namespace WavFile

/-- The format chunk read at offset 12 of `upperCaseHeader`. -/
def upperCaseChunk : FormatChunk :=
  { audioFormat := 1, numChannels := 1, sampleRate := 8000, numBytesPerSecond := 8000,
    numBytesPerBlock := 1, bitDepth := 8 }

/-- The object that decoding `hugeFile` into a default-constructed object gives. -/
def hugeDecoded : WavFile := { new with samples := [[]], sampleRate := 8000, bitDepth := 8 }

end WavFile

/-! ## Arithmetic of the integer conversions and of the byte-level bit operations -/

theorem toInt32_of_range {x : Int} (h1 : -2147483648 ≤ x) (h2 : x < 2147483648) :
    toInt32 x = x := by
  unfold toInt32; omega

theorem toInt16_of_range {x : Int} (h1 : -32768 ≤ x) (h2 : x < 32768) : toInt16 x = x := by
  unfold toInt16; omega

theorem toUInt8_val (x : Int) : ((toUInt8 x).val : Int) = x % 256 := by
  unfold toUInt8
  simp only
  omega

theorem truncQ_of_nonneg {q : ℚ} (h : 0 ≤ q) : truncQ q = ⌊q⌋ := by
  unfold truncQ; simp [h]

theorem truncQ_of_neg {q : ℚ} (h : q < 0) : truncQ q = ⌈q⌉ := by
  unfold truncQ; simp [not_le.mpr h]

/-- Truncation moves a non-negative value down by less than one. -/
theorem truncQ_bounds_nonneg {q : ℚ} (h : 0 ≤ q) :
    (truncQ q : ℚ) ≤ q ∧ q < truncQ q + 1 ∧ 0 ≤ truncQ q := by
  rw [truncQ_of_nonneg h]
  exact ⟨Int.floor_le q, Int.lt_floor_add_one q, Int.floor_nonneg.mpr h⟩

/-- Truncation moves a negative value up by less than one. -/
theorem truncQ_bounds_neg {q : ℚ} (h : q < 0) :
    q ≤ truncQ q ∧ (truncQ q : ℚ) < q + 1 ∧ truncQ q ≤ 0 := by
  rw [truncQ_of_neg h]
  refine ⟨Int.le_ceil q, Int.ceil_lt_add_one q, ?_⟩
  exact Int.ceil_le.mpr (by simpa using h.le)

theorem nat_ldiff_255 (m : Nat) : Nat.ldiff 255 m = 255 - m % 256 := by
  apply Nat.eq_of_testBit_eq
  intro i
  have hlt : m % 2 ^ 8 < 2 ^ 8 := Nat.mod_lt _ (by norm_num)
  have h1 : 255 - m % 256 = 2 ^ 8 - (m % 2 ^ 8 + 1) := by norm_num; omega
  have h255 : (255 : Nat) = 2 ^ 8 - 1 := by norm_num
  rw [h1, Nat.testBit_two_pow_sub_succ hlt, Nat.testBit_ldiff, h255,
    Nat.testBit_two_pow_sub_one, Nat.testBit_mod_two_pow]
  by_cases hi : i < 8 <;> simp [hi]

/-- Masking a signed value with `0xFF` keeps its residue modulo 256. -/
theorem int_land_255 (x : Int) : Int.land x 255 = x % 256 := by
  cases x with
  | ofNat m =>
    show ((m &&& 255 : Nat) : Int) = (m : Int) % 256
    have := Nat.and_pow_two_sub_one_eq_mod m 8
    norm_num at this
    rw [this]; norm_cast
  | negSucc m =>
    show ((Nat.ldiff 255 m : Nat) : Int) = Int.negSucc m % 256
    rw [nat_ldiff_255]
    have : m % 256 < 256 := Nat.mod_lt _ (by norm_num)
    rw [Int.negSucc_eq]
    omega

theorem int_shiftRight_8 (x : Int) : x >>> (8 : Nat) = x / 256 := by
  rw [Int.shiftRight_eq_div_pow]; norm_num

theorem int_shiftRight_16 (x : Int) : x >>> (16 : Nat) = x / 65536 := by
  rw [Int.shiftRight_eq_div_pow]; norm_num

theorem int_shiftRight_24 (x : Int) : x >>> (24 : Nat) = x / 16777216 := by
  rw [Int.shiftRight_eq_div_pow]; norm_num

/-- The value of the byte `(x >> k) & 0xFF` after its conversion to `uint8_t`. -/
theorem toUInt8_land_val (x : Int) : ((toUInt8 (Int.land x 255)).val : Int) = x % 256 := by
  rw [toUInt8_val, int_land_255]; omega

theorem or_bytes2 (a b : Nat) (hb : b < 256) : (a <<< 8) ||| b = a * 256 + b := by
  rw [Nat.shiftLeft_eq]
  have := Nat.mul_add_lt_is_or (i := 8) (b := b) (by norm_num; exact hb) a
  rw [Nat.mul_comm a, ← this]

theorem or_bytes3 (a b c : Nat) (hb : b < 256) (hc : c < 256) :
    (a <<< 16) ||| (b <<< 8) ||| c = a * 65536 + b * 256 + c := by
  rw [Nat.shiftLeft_eq, Nat.shiftLeft_eq]
  have h1 := Nat.mul_add_lt_is_or (i := 16) (b := b * 256) (by norm_num; omega) a
  have h2 := Nat.mul_add_lt_is_or (i := 8) (b := c) (by norm_num; exact hc) (a * 256 + b)
  norm_num at h1 h2
  have e1 : a * 2 ^ 16 ||| b * 2 ^ 8 = 65536 * a + b * 256 := by
    rw [h1]; norm_num [Nat.mul_comm]
  rw [e1]
  have e2 : 65536 * a + b * 256 = 256 * (a * 256 + b) := by ring
  rw [e2, ← h2]; ring

theorem or_bytes4 (a b c d : Nat) (hb : b < 256) (hc : c < 256) (hd : d < 256) :
    (a <<< 24) ||| (b <<< 16) ||| (c <<< 8) ||| d
      = a * 16777216 + b * 65536 + c * 256 + d := by
  rw [Nat.shiftLeft_eq, Nat.shiftLeft_eq, Nat.shiftLeft_eq]
  have h1 := Nat.mul_add_lt_is_or (i := 24) (b := b * 65536) (by norm_num; omega) a
  have h2 := Nat.mul_add_lt_is_or (i := 16) (b := c * 256) (by norm_num; omega) (a * 256 + b)
  have h3 := Nat.mul_add_lt_is_or (i := 8) (b := d) (by norm_num; exact hd)
    (a * 65536 + b * 256 + c)
  norm_num at h1 h2 h3
  have e1 : a * 2 ^ 24 ||| b * 2 ^ 16 = 16777216 * a + b * 65536 := by
    rw [h1]; norm_num [Nat.mul_comm]
  rw [e1]
  have e2 : 16777216 * a + b * 65536 = 65536 * (a * 256 + b) := by ring
  have e3 : c * 2 ^ 8 = c * 256 := by norm_num
  rw [e2, e3, ← h2]
  have e4 : 65536 * (a * 256 + b) + c * 256 = 256 * (a * 65536 + b * 256 + c) := by ring
  rw [e4, ← h3]; ring

/-- Testing bit 23 of a 24-bit word. -/
theorem and_sign24 (v : Nat) (h : v < 16777216) : v &&& 0x800000 ≠ 0 ↔ 8388608 ≤ v := by
  have e : (0x800000 : Nat) = 2 ^ 23 := by norm_num
  rw [e, Nat.and_two_pow, Nat.testBit_to_div_mod]
  by_cases hv : v / 2 ^ 23 % 2 = 1
  · simp [hv]; omega
  · simp [hv]; omega

/-- Sign extension of a 24-bit word by or-ing the pattern of `~0xFFFFFF`. -/
theorem or_signext24 (v : Nat) (h : v < 16777216) : v ||| 0xFF000000 = v + 4278190080 := by
  have := Nat.mul_add_lt_is_or (i := 24) (b := v) (by norm_num; exact h) 255
  norm_num at this
  rw [Nat.or_comm, ← this]; ring

namespace WavFile

/-- Resizing the cleared buffer to `n` channels gives `n` empty channels. -/
theorem resizeSamples_clearWavBuffer (w : WavFile) (n : Nat) :
    resizeSamples (clearWavBuffer w).samples n = List.replicate n [] := by
  unfold clearWavBuffer resizeSamples
  simp only [List.take_nil, List.length_nil, Nat.sub_zero, List.nil_append]

/-- Resizing a buffer that already has `n` channels keeps their samples: without the
preceding `clearWavBuffer` the samples of an earlier load would stay. -/
theorem resizeSamples_of_length (samples : List (List ℚ)) :
    resizeSamples samples samples.length = samples := by
  unfold resizeSamples
  simp

/-- The sample loop of `decodeData` starts from as many empty channels as the format
chunk declares, because the buffer is cleared before it is resized. -/
theorem decodeData_eq (w : WavFile) (fileData : List Byte) (c : FormatChunk)
    (indexOfDataChunk : Int) :
    decodeData w fileData c indexOfDataChunk
      = (let d := indexOfDataChunk
        match readString fileData d 4, fourBytesToInt fileData (addInt d 4) with
        | some _dataChunkID, some dataChunkSize =>
          let numBytesPerSample := Int.tdiv c.bitDepth 8
          let numSamples :=
            Int.tdiv dataChunkSize (Int.tdiv (mulInt c.numChannels c.bitDepth) 8)
          let samplesStartIndex := addInt indexOfDataChunk 8
          let w := clearWavBuffer w
          let w := { w with samples := List.replicate c.numChannels.toNat [] }
          match decodeFrames fileData c.bitDepth c.numChannels numSamples samplesStartIndex
              c.numBytesPerBlock numBytesPerSample w.samples with
          | .ok samples => Decoded.ok { w with samples := samples }
          | .error e => Decoded.fault e
        | _, _ => Decoded.fault Fault.outOfBounds) := by
  unfold decodeData
  simp only [resizeSamples_clearWavBuffer]

end WavFile

/-! ## Sample conversions -/

namespace WavFile

theorem clamp_of_mem {s : ℚ} (h1 : -1 ≤ s) (h2 : s ≤ 1) : clamp s (-1) 1 = s := by
  unfold clamp
  rw [min_eq_left h2, max_eq_left h1]

/-- The 16-bit encoder on an in-range sample: the truncation of `s * 32767`. -/
theorem sampleToSixteenBitInt_of_mem {s : ℚ} (h1 : -1 ≤ s) (h2 : s ≤ 1) :
    sampleToSixteenBitInt s = truncQ (s * 32767) := by
  unfold sampleToSixteenBitInt
  simp only [clamp_of_mem h1 h2]
  apply toInt16_of_range
  · rcases le_or_lt 0 (s * 32767) with h | h
    · have := (truncQ_bounds_nonneg h).2.2; omega
    · have hb := (truncQ_bounds_neg h).1
      have : (-32768 : ℚ) ≤ (truncQ (s * 32767) : ℚ) := by linarith
      exact_mod_cast this
  · rcases le_or_lt 0 (s * 32767) with h | h
    · have hb := (truncQ_bounds_nonneg h).1
      have : (truncQ (s * 32767) : ℚ) < 32768 := by linarith
      exact_mod_cast this
    · have := (truncQ_bounds_neg h).2.2; omega

/-- C2, counterexample: the sample 65535/65536 lies in [-1, 1] and comes back from the
16-bit round trip as 32766/32768, which is 3/65536 away, more than one step 1/32768. -/
theorem c2_sixteen_bit_round_trip_exceeds_one_step :
    (-1 : ℚ) ≤ 65535 / 65536 ∧ (65535 / 65536 : ℚ) ≤ 1 ∧
      ¬ |sixteenBitIntToSample (sampleToSixteenBitInt (65535 / 65536)) - 65535 / 65536|
          ≤ 1 / 32768 := by
  have h : sampleToSixteenBitInt (65535 / 65536) = 32766 := by decide!
  rw [h]
  unfold sixteenBitIntToSample
  norm_num [abs_le]

/-- C2, amended: for every sample `s` in [-1, 1] the 16-bit round trip
`sixteenBitIntToSample (sampleToSixteenBitInt s)` differs from `s` by less than
2/32768 (two quantization steps). -/
theorem c2_sixteen_bit_round_trip_within_two_steps (s : ℚ) (h1 : -1 ≤ s) (h2 : s ≤ 1) :
    |sixteenBitIntToSample (sampleToSixteenBitInt s) - s| < 2 / 32768 := by
  rw [sampleToSixteenBitInt_of_mem h1 h2]
  unfold sixteenBitIntToSample
  rw [abs_lt]
  rcases le_or_lt 0 (s * 32767) with h | h
  · obtain ⟨ha, hb, _⟩ := truncQ_bounds_nonneg h
    have hs : 0 ≤ s := by nlinarith
    constructor <;> linarith
  · obtain ⟨ha, hb, _⟩ := truncQ_bounds_neg h
    have hs : s < 0 := by nlinarith
    constructor <;> linarith

/-- C2, witness: the bound at the sample 1/2. -/
theorem c2_sixteen_bit_round_trip_within_two_steps_witness :
    (-1 : ℚ) ≤ 1 / 2 ∧ (1 / 2 : ℚ) ≤ 1 ∧
      |sixteenBitIntToSample (sampleToSixteenBitInt (1 / 2)) - 1 / 2| < 2 / 32768 :=
  ⟨by norm_num, by norm_num,
    c2_sixteen_bit_round_trip_within_two_steps (1 / 2) (by norm_num) (by norm_num)⟩

/-- The 8-bit encoder on an in-range sample: the truncation of `(s + 1) / 2 * 255`. -/
theorem sampleToSingleByte_val_of_mem {s : ℚ} (h1 : -1 ≤ s) (h2 : s ≤ 1) :
    ((sampleToSingleByte s).val : Int) = truncQ ((s + 1) / 2 * 255) := by
  unfold sampleToSingleByte
  simp only [clamp_of_mem h1 h2]
  rw [toUInt8_val]
  have h : (0 : ℚ) ≤ (s + 1) / 2 * 255 := by linarith
  obtain ⟨ha, _, hc⟩ := truncQ_bounds_nonneg h
  have : (truncQ ((s + 1) / 2 * 255) : ℚ) < 256 := by linarith
  have : truncQ ((s + 1) / 2 * 255) < 256 := by exact_mod_cast this
  omega

/-- C9, counterexample: the sample 1023/1024 lies in [-1, 1], is stored as the byte 254
and read back as 126/128, which is more than 1/128 away. -/
theorem c9_eight_bit_round_trip_exceeds_bound :
    (-1 : ℚ) ≤ 1023 / 1024 ∧ (1023 / 1024 : ℚ) ≤ 1 ∧
      ¬ |singleByteToSample (sampleToSingleByte (1023 / 1024)) - 1023 / 1024| ≤ 1 / 128 := by
  have h : sampleToSingleByte (1023 / 1024) = 254 := by decide!
  have e : singleByteToSample 254 = 126 / 128 := by
    show (((126 : Int) : ℚ)) / 128 = 126 / 128
    norm_num
  rw [h, e]
  norm_num [abs_le]

/-- C9, amended: for every sample `s` in [-1, 1] the 8-bit round trip
`singleByteToSample (sampleToSingleByte s)` differs from `s` by less than 2/128. -/
theorem c9_eight_bit_round_trip_within_two_steps (s : ℚ) (h1 : -1 ≤ s) (h2 : s ≤ 1) :
    |singleByteToSample (sampleToSingleByte s) - s| < 2 / 128 := by
  unfold singleByteToSample
  rw [sampleToSingleByte_val_of_mem h1 h2]
  have h : (0 : ℚ) ≤ (s + 1) / 2 * 255 := by linarith
  obtain ⟨ha, hb, hc⟩ := truncQ_bounds_nonneg h
  have hc' : (0 : ℚ) ≤ (truncQ ((s + 1) / 2 * 255) : ℚ) := by exact_mod_cast hc
  rw [abs_lt]
  push_cast
  constructor <;> linarith

/-- C9, witness: the bound at the sample 1023/1024. -/
theorem c9_eight_bit_round_trip_within_two_steps_witness :
    (-1 : ℚ) ≤ 1023 / 1024 ∧ (1023 / 1024 : ℚ) ≤ 1 ∧
      |singleByteToSample (sampleToSingleByte (1023 / 1024)) - 1023 / 1024| < 2 / 128 :=
  ⟨by norm_num, by norm_num,
    c9_eight_bit_round_trip_within_two_steps (1023 / 1024) (by norm_num) (by norm_num)⟩

end WavFile

namespace WavFile

/-- The signed integer rebuilt by the 24-bit decoder from three bytes whose values are
the three low bytes of `k`, for `k` in the signed 24-bit range, is `k` itself. -/
theorem signExtend24_bytes (k : Int) (hk1 : -8388608 ≤ k) (hk2 : k < 8388608)
    (b0 b1 b2 : Nat) (h0 : (b0 : Int) = k % 256) (h1 : (b1 : Int) = k / 256 % 256)
    (h2 : (b2 : Int) = k / 65536 % 256) :
    toInt32 ((if ((b2 <<< 16) ||| (b1 <<< 8) ||| b0) &&& 0x800000 ≠ 0
      then ((b2 <<< 16) ||| (b1 <<< 8) ||| b0) ||| 0xFF000000
      else ((b2 <<< 16) ||| (b1 <<< 8) ||| b0) : Nat) : Int) = k := by
  have hb0 : b0 < 256 := by omega
  have hb1 : b1 < 256 := by omega
  have hb2 : b2 < 256 := by omega
  rw [or_bytes3 b2 b1 b0 hb1 hb0]
  have hv : b2 * 65536 + b1 * 256 + b0 < 16777216 := by omega
  by_cases hs : 8388608 ≤ b2 * 65536 + b1 * 256 + b0
  · rw [if_pos ((and_sign24 _ hv).mpr hs), or_signext24 _ hv]
    unfold toInt32
    push_cast
    omega
  · rw [if_neg (fun h => hs ((and_sign24 _ hv).mp h))]
    unfold toInt32
    push_cast
    omega

/-- The 24-bit branch of the decoder, once the three bytes it reads are known. -/
theorem twentyFourBitSample_of_bytes (fileData : List Byte) (sampleIndex : Int) (s0 s1 s2 : Byte)
    (h2 : byteAt fileData (addInt sampleIndex 2) = some s2)
    (h1 : byteAt fileData (addInt sampleIndex 1) = some s1)
    (h0 : byteAt fileData sampleIndex = some s0) :
    twentyFourBitSample fileData sampleIndex
      = some (((toInt32 ((if ((s2.val <<< 16) ||| (s1.val <<< 8) ||| s0.val) &&& 0x800000 ≠ 0
          then ((s2.val <<< 16) ||| (s1.val <<< 8) ||| s0.val) ||| 0xFF000000
          else ((s2.val <<< 16) ||| (s1.val <<< 8) ||| s0.val) : Nat) : Int) : Int) : ℚ)
            / 8388608) := by
  unfold twentyFourBitSample
  rw [h2, h1, h0]
  rfl

/-- Decoding the three bytes written by the 24-bit encoder for an integer in the signed
24-bit range gives that integer over 8388608. -/
theorem twentyFourBit_round_trip_of_range (s : ℚ)
    (hk1 : -8388608 ≤ truncQ (s * 8388608)) (hk2 : truncQ (s * 8388608) < 8388608) :
    twentyFourBitSample (twentyFourBitBytes s) 0
      = some (((truncQ (s * 8388608) : Int) : ℚ) / 8388608) := by
  have hk : toInt32 (truncQ (s * 8388608)) = truncQ (s * 8388608) :=
    toInt32_of_range (by omega) (by omega)
  unfold twentyFourBitBytes
  simp only [hk]
  generalize truncQ (s * 8388608) = k at hk1 hk2
  rw [twentyFourBitSample_of_bytes [toUInt8 (Int.land (toUInt8 k).val 255),
      toUInt8 (Int.land (toUInt8 (k >>> (8 : Nat))).val 255),
      toUInt8 (Int.land (toUInt8 (k >>> (16 : Nat))).val 255)] 0
    (toUInt8 (Int.land (toUInt8 k).val 255))
    (toUInt8 (Int.land (toUInt8 (k >>> (8 : Nat))).val 255))
    (toUInt8 (Int.land (toUInt8 (k >>> (16 : Nat))).val 255)) rfl rfl rfl]
  rw [signExtend24_bytes k hk1 hk2]
  · rw [toUInt8_land_val, toUInt8_val]; omega
  · rw [toUInt8_land_val, toUInt8_val, int_shiftRight_8]; omega
  · rw [toUInt8_land_val, toUInt8_val, int_shiftRight_16]; omega

/-- C10: for every sample `s` with `-1 ≤ s < 1`, writing `s` with the 24-bit branch of the
encoder and reading the three bytes back with the 24-bit branch of the decoder succeeds
and gives a sample that differs from `s` by at most 1/8388608. -/
theorem c10_twenty_four_bit_round_trip (s : ℚ) (h1 : -1 ≤ s) (h2 : s < 1) :
    ∃ r, twentyFourBitSample (twentyFourBitBytes s) 0 = some r ∧ |r - s| ≤ 1 / 8388608 := by
  have hk : -8388608 ≤ truncQ (s * 8388608) ∧ truncQ (s * 8388608) < 8388608 := by
    rcases le_or_lt 0 (s * 8388608) with h | h
    · obtain ⟨ha, _, hc⟩ := truncQ_bounds_nonneg h
      have : (truncQ (s * 8388608) : ℚ) < 8388608 := by linarith
      have : truncQ (s * 8388608) < 8388608 := by exact_mod_cast this
      omega
    · obtain ⟨ha, _, hc⟩ := truncQ_bounds_neg h
      have : (-8388608 : ℚ) ≤ (truncQ (s * 8388608) : ℚ) := by linarith
      have : -8388608 ≤ truncQ (s * 8388608) := by exact_mod_cast this
      omega
  refine ⟨_, twentyFourBit_round_trip_of_range s hk.1 hk.2, ?_⟩
  rw [abs_le]
  rcases le_or_lt 0 (s * 8388608) with h | h
  · obtain ⟨ha, hb, _⟩ := truncQ_bounds_nonneg h
    constructor <;> linarith
  · obtain ⟨ha, hb, _⟩ := truncQ_bounds_neg h
    constructor <;> linarith

/-- C10, witness: the round trip at the sample -3/8. -/
theorem c10_twenty_four_bit_round_trip_witness :
    (-1 : ℚ) ≤ -3 / 8 ∧ (-3 / 8 : ℚ) < 1 ∧
      ∃ r, twentyFourBitSample (twentyFourBitBytes (-3 / 8)) 0 = some r
        ∧ |r - -3 / 8| ≤ 1 / 8388608 :=
  ⟨by norm_num, by norm_num,
    c10_twenty_four_bit_round_trip (-3 / 8) (by norm_num) (by norm_num)⟩

end WavFile

/-! ## Chunk search and the state after a decode -/

namespace WavFile

/-- C6, the code at the failing input: in the 16-byte file `tagAtEnd` the tag "data"
stands at offset 12, the last possible position, and `getIndexOfString` returns -1. -/
theorem c6_tag_at_last_position_not_found :
    (tagAtEnd.drop 12).take 4 = stringBytes "data"
      ∧ getIndexOfString tagAtEnd (stringBytes "data") = some (-1) := by
  decide

/-- What `getIndexOfString` returns when it returns: either -1, and then no offset
below `size - length` carries the string, or the first such offset, cast to `int`. -/
theorem getIndexOfString_eq_some {source s : List Byte} {r : Int}
    (h : getIndexOfString source s = some r) :
    s.length ≤ source.length ∧
    ((r = -1 ∧ ∀ i : Nat, i < source.length - s.length → (source.drop i).take s.length ≠ s) ∨
     (∃ i : Nat, r = toInt32 i ∧ i < source.length - s.length ∧ (source.drop i).take s.length = s
        ∧ ∀ j : Nat, j < i → (source.drop j).take s.length ≠ s)) := by
  unfold getIndexOfString at h
  simp only at h
  split at h
  · exact absurd h (by simp)
  · rename_i hlen
    refine ⟨by omega, ?_⟩
    split at h
    · rename_i i hfind
      right
      rw [List.find?_range_eq_some] at hfind
      refine ⟨i, ?_, ?_, ?_, ?_⟩
      · exact (Option.some.inj h).symm
      · exact List.mem_range.mp hfind.2.1
      · simpa using hfind.1
      · intro j hj
        have := hfind.2.2 j hj
        simpa using this
    · rename_i hfind
      left
      rw [List.find?_eq_none] at hfind
      refine ⟨(Option.some.inj h).symm, ?_⟩
      intro i hi
      have := hfind i (List.mem_range.mpr hi)
      simpa using this

/-- The data part of `decodeWaveFile` never reports an error. -/
theorem decodeData_ne_failed (w : WavFile) (fileData : List Byte) (c : FormatChunk) (d : Int)
    (e : LoadError) (w' : WavFile) : decodeData w fileData c d ≠ Decoded.failed e w' := by
  rw [decodeData_eq]
  intro h
  simp only at h
  split at h
  · split at h <;> exact absurd h (by simp)
  · exact absurd h (by simp)

/-- C3, counterexample: decoding `compressedFile` into a default-constructed object
(44100 Hz, 16 bits) fails with the compressed-file error and leaves the object with
sample rate 8000 and bit depth 8. -/
theorem c3_failed_decode_changes_rate_and_depth :
    decodeWaveFile new compressedFile
        = Decoded.failed LoadError.compressed { new with sampleRate := 8000, bitDepth := 8 }
      ∧ new.sampleRate = 44100 ∧ new.bitDepth = 16 := by
  decide

/-- C3, amended: when `decodeWaveFile` fails, the samples of the object are those it
had before the call; when the failure is the chunk/RIFF/WAVE check the whole object is
unchanged; on every later validation failure `sampleRate` and `bitDepth` hold the
values read from the format chunk. -/
theorem c3_failed_decode_state (w : WavFile) (fileData : List Byte) (e : LoadError)
    (w' : WavFile) (h : decodeWaveFile w fileData = Decoded.failed e w') :
    w'.samples = w.samples ∧ w'.wavFileFormat = w.wavFileFormat
      ∧ (e = LoadError.notValidWav → w' = w)
      ∧ (e ≠ LoadError.notValidWav →
          ∃ f c, getIndexOfString fileData (stringBytes "fmt") = some f
            ∧ readFormatChunk fileData f = some c
            ∧ w'.sampleRate = c.sampleRate ∧ w'.bitDepth = c.bitDepth) := by
  unfold decodeWaveFile at h
  split at h
  · rename_i hdr fmt d f h1 h2 h3 h4
    split at h
    · simp only [Decoded.failed.injEq] at h
      obtain ⟨he, hw⟩ := h
      subst he; subst hw
      exact ⟨rfl, rfl, fun _ => rfl, fun hne => absurd rfl hne⟩
    · split at h
      · exact absurd h (by simp)
      · rename_i c hc
        simp only at h
        have key : ∀ e0, Decoded.failed e0
            ({ w with sampleRate := c.sampleRate, bitDepth := c.bitDepth } : WavFile)
              = Decoded.failed e w' → e0 ≠ LoadError.notValidWav →
            w'.samples = w.samples ∧ w'.wavFileFormat = w.wavFileFormat
              ∧ (e = LoadError.notValidWav → w' = w)
              ∧ (e ≠ LoadError.notValidWav →
                  ∃ f c, getIndexOfString fileData (stringBytes "fmt") = some f
                    ∧ readFormatChunk fileData f = some c
                    ∧ w'.sampleRate = c.sampleRate ∧ w'.bitDepth = c.bitDepth) := by
          intro e0 h0 hne
          simp only [Decoded.failed.injEq] at h0
          obtain ⟨he, hw⟩ := h0
          subst he; subst hw
          exact ⟨rfl, rfl, fun h => absurd h hne, fun _ => ⟨f, c, h4, hc, rfl, rfl⟩⟩
        split at h
        · exact key _ h (by simp)
        · split at h
          · exact key _ h (by simp)
          · split at h
            · exact key _ h (by simp)
            · split at h
              · exact key _ h (by simp)
              · exact absurd h (decodeData_ne_failed _ _ _ _ _ _)
  · exact absurd h (by simp)

/-- C3, witness: the failed decode of `compressedFile` into a default-constructed
object keeps the samples and takes rate and depth from the chunk read at offset 12. -/
theorem c3_failed_decode_state_witness :
    ({ new with sampleRate := 8000, bitDepth := 8 } : WavFile).samples = new.samples
      ∧ ({ new with sampleRate := 8000, bitDepth := 8 } : WavFile).wavFileFormat
          = new.wavFileFormat
      ∧ (LoadError.compressed = LoadError.notValidWav →
          ({ new with sampleRate := 8000, bitDepth := 8 } : WavFile) = new)
      ∧ (LoadError.compressed ≠ LoadError.notValidWav →
          ∃ f c, getIndexOfString compressedFile (stringBytes "fmt") = some f
            ∧ readFormatChunk compressedFile f = some c
            ∧ ({ new with sampleRate := 8000, bitDepth := 8 } : WavFile).sampleRate
                = c.sampleRate
            ∧ ({ new with sampleRate := 8000, bitDepth := 8 } : WavFile).bitDepth
                = c.bitDepth) :=
  c3_failed_decode_state new compressedFile LoadError.compressed
    { new with sampleRate := 8000, bitDepth := 8 } (by decide)

end WavFile

/-! ## The header consistency check -/

namespace WavFile

theorem toUInt32_cast (x : Int) : ((toUInt32 x : Nat) : Int) = x % 4294967296 := by
  unfold toUInt32; omega

theorem toInt16_bounds (x : Int) : -32768 ≤ toInt16 x ∧ toInt16 x < 32768 := by
  unfold toInt16; omega

theorem toInt32_bounds (x : Int) : -2147483648 ≤ toInt32 x ∧ toInt32 x < 2147483648 := by
  unfold toInt32; omega

/-- Truncating division by 8 in terms of the flooring division. -/
theorem tdiv_eight (x : Int) : Int.tdiv x 8 = if 0 ≤ x then x / 8 else -((-x) / 8) := by
  split
  · exact Int.tdiv_eq_ediv (by assumption) (by decide)
  · have h : Int.tdiv (-(-x)) 8 = -(Int.tdiv (-x) 8) := Int.neg_tdiv (-x) 8
    rw [neg_neg] at h
    rw [h, Int.tdiv_eq_ediv (by omega) (by decide)]

/-- The first comparison of the consistency check, read in the integers. -/
theorem mulUInt32_cast (nc bd : Int) (sr : Nat) :
    ((mulUInt32 (mulUInt32 (toUInt32 nc) sr) (toUInt32 bd) / 8 : Nat) : Int)
      = (nc * sr * bd) % 4294967296 / 8 := by
  unfold mulUInt32
  push_cast
  rw [toUInt32_cast, toUInt32_cast]
  congr 1
  have h1 : (nc % 4294967296 * (sr : Int)) % 4294967296 ≡ nc * sr [ZMOD 4294967296] :=
    (Int.mod_modEq _ _).trans ((Int.mod_modEq nc 4294967296).mul_right _)
  have h2 : (nc % 4294967296 * (sr : Int)) % 4294967296 * (bd % 4294967296)
      ≡ nc * sr * bd [ZMOD 4294967296] := h1.mul (Int.mod_modEq bd 4294967296)
  exact h2

/-- A value read by `twoBytesToInt` is in the range of `int16_t`. -/
theorem twoBytesToInt_bounds {source : List Byte} {i : Int} {e : Endianness} {v : Int}
    (h : twoBytesToInt source i e = some v) : -32768 ≤ v ∧ v < 32768 := by
  unfold twoBytesToInt at h
  cases h1 : byteAt source (addInt i 1) with
  | none => simp [h1] at h
  | some s1 =>
    cases h0 : byteAt source i with
    | none => simp [h1, h0] at h
    | some s0 =>
      simp only [h1, h0, Option.bind_eq_bind, Option.some_bind] at h
      cases e <;> simp only [Option.pure_def, Option.some.injEq] at h <;> subst h <;>
        exact toInt16_bounds _

/-- The fields of a format chunk read from a buffer are in the ranges of their types. -/
theorem readFormatChunk_bounds {fileData : List Byte} {f : Int} {c : FormatChunk}
    (h : readFormatChunk fileData f = some c) :
    (-32768 ≤ c.numChannels ∧ c.numChannels < 32768)
      ∧ (-32768 ≤ c.bitDepth ∧ c.bitDepth < 32768) ∧ c.sampleRate < 4294967296 := by
  unfold readFormatChunk at h
  simp only [Option.bind_eq_bind, Option.bind_eq_some, Option.pure_def, Option.some.injEq] at h
  obtain ⟨_, _, af, _, nc, hnc, sr, _, nbps, _, nbpb, _, bd, hbd, hc⟩ := h
  subst hc
  refine ⟨twoBytesToInt_bounds hnc, twoBytesToInt_bounds hbd, ?_⟩
  show toUInt32 sr < 4294967296
  unfold toUInt32; omega

/-- The consistency check of `decodeWaveFile` accepts exactly the headers that satisfy
the equations in wrapped arithmetic, for field values in the ranges of their types. -/
theorem headerConsistent_iff (c : FormatChunk)
    (hnc : -32768 ≤ c.numChannels ∧ c.numChannels < 32768)
    (hbd : -32768 ≤ c.bitDepth ∧ c.bitDepth < 32768) :
    headerConsistent c = true ↔ headerEquationsWrapped c := by
  unfold headerConsistent headerEquationsWrapped
  have hprod : mulInt c.numChannels (Int.tdiv c.bitDepth 8) = c.numChannels * Int.tdiv c.bitDepth 8 := by
    unfold mulInt
    have hq : -4096 ≤ Int.tdiv c.bitDepth 8 ∧ Int.tdiv c.bitDepth 8 ≤ 4096 := by
      rw [tdiv_eight]
      split <;> constructor <;> omega
    apply toInt32_of_range <;> nlinarith
  rw [hprod]
  simp only [decide_eq_true_eq]
  have key : toUInt32 c.numBytesPerSecond
        = mulUInt32 (mulUInt32 (toUInt32 c.numChannels) c.sampleRate) (toUInt32 c.bitDepth) / 8
      ↔ c.numBytesPerSecond % 4294967296
        = (c.numChannels * c.sampleRate * c.bitDepth) % 4294967296 / 8 := by
    rw [← mulUInt32_cast, ← toUInt32_cast]
    exact Nat.cast_inj.symm
  rw [key]

/-- C7, counterexample: `wrappedRateFile` (one channel, sample rate 2^29, 8 bits,
0 bytes per second) is decoded successfully although its `numBytesPerSecond`, 0, is not
`numChannels * sampleRate * bitDepth / 8 = 536870912`. -/
theorem c7_accepts_header_violating_exact_equation :
    decodeWaveFile new wrappedRateFile
        = Decoded.ok { new with samples := [[]], sampleRate := 536870912, bitDepth := 8 }
      ∧ getIndexOfString wrappedRateFile (stringBytes "fmt") = some 12
      ∧ readFormatChunk wrappedRateFile 12 = some wrappedRateChunk
      ∧ ¬ headerEquationsExact wrappedRateChunk := by
  refine ⟨by decide, by decide, by decide, ?_⟩
  unfold headerEquationsExact
  decide

/-- C7, amended: with `f` the offset found for "fmt" and `c` the format chunk read there,
a successful decode implies the two header equations in 32-bit wrapped arithmetic
(`numBytesPerSecond` and `numChannels * sampleRate * bitDepth` both taken modulo 2^32
before the division by 8; `numBytesPerBlock = numChannels * (bitDepth / 8)`), and a
buffer that passes checks 1-4 and violates them is rejected with the
inconsistent-header error. -/
theorem c7_header_equations_wrapped (w : WavFile) (fileData : List Byte) (f : Int)
    (c : FormatChunk) (hf : getIndexOfString fileData (stringBytes "fmt") = some f)
    (hc : readFormatChunk fileData f = some c) :
    (∀ w', decodeWaveFile w fileData = Decoded.ok w' → headerEquationsWrapped c)
      ∧ (∀ d, readString fileData 0 4 = some (stringBytes "RIFF") →
          readString fileData 8 4 = some (stringBytes "WAVE") →
          getIndexOfString fileData (stringBytes "data") = some d → d ≠ -1 → f ≠ -1 →
          c.audioFormat = 1 → (c.numChannels = 1 ∨ c.numChannels = 2) →
          ¬ headerEquationsWrapped c →
          decodeWaveFile w fileData
            = Decoded.failed LoadError.inconsistentHeader
                { w with sampleRate := c.sampleRate, bitDepth := c.bitDepth }) := by
  obtain ⟨hnc, hbd, _⟩ := readFormatChunk_bounds hc
  have hiff := headerConsistent_iff c hnc hbd
  constructor
  · intro w' h
    unfold decodeWaveFile at h
    rw [hf] at h
    split at h
    · rename_i hdr fmt d f' h1 h2 h3 h4
      cases h4
      split at h
      · exact absurd h (by simp)
      · rw [hc] at h
        simp only at h
        split at h
        · exact absurd h (by simp)
        · split at h
          · exact absurd h (by simp)
          · split at h
            · exact absurd h (by simp)
            · rename_i hcons
              exact hiff.mp (by simpa using hcons)
    · exact absurd h (by simp)
  · intro d h1 h2 h3 hd hfne haf hch hne
    unfold decodeWaveFile
    rw [h1, h2, h3, hf]
    simp only
    rw [if_neg (by simp [hd, hfne]), hc]
    simp only
    rw [if_neg (by simp [haf]), if_neg (by omega), if_pos]
    intro hcons
    exact hne (hiff.mp hcons)

/-- C7, witness: `wrappedRateFile` is decoded and its chunk satisfies the wrapped
equations; `inconsistentFile` passes checks 1-4, violates them and is rejected. -/
theorem c7_header_equations_wrapped_witness :
    headerEquationsWrapped wrappedRateChunk
      ∧ decodeWaveFile new inconsistentFile
          = Decoded.failed LoadError.inconsistentHeader
              { new with sampleRate := inconsistentChunk.sampleRate,
                         bitDepth := inconsistentChunk.bitDepth } :=
  ⟨(c7_header_equations_wrapped new wrappedRateFile 12 wrappedRateChunk (by decide)
      (by decide)).1 { new with samples := [[]], sampleRate := 536870912, bitDepth := 8 }
      (by decide),
   (c7_header_equations_wrapped new inconsistentFile 12 inconsistentChunk (by decide)
      (by decide)).2 36 (by decide) (by decide) (by decide) (by decide) (by decide) (by decide)
      (by decide) (by unfold headerEquationsWrapped; decide)⟩

end WavFile

/-! ## Counted loops -/

/-- Unrolling the last iteration of a counted loop. -/
theorem forLoop_succ {σ : Type} (body : Nat → σ → Except Fault σ) (i n : Nat) (s : σ) :
    forLoop body i (n + 1) s
      = match forLoop body i n s with
        | .ok s' => body (i + n) s'
        | .error e => .error e := by
  induction n generalizing i s with
  | zero =>
    simp only [forLoop, Nat.add_zero]
    cases body i s <;> rfl
  | succ n ih =>
    rw [forLoop]
    cases h : body i s with
    | error e => simp only [forLoop, h]
    | ok s' =>
      simp only
      rw [ih (i + 1) s']
      conv_rhs => rw [forLoop]
      simp only [h]
      have : i + 1 + n = i + (n + 1) := by omega
      rw [this]

/-- A loop whose body appends a block to a list appends the blocks in order. -/
theorem forLoop_append {α : Type} (body : Nat → List α → Except Fault (List α))
    (g : Nat → List α) (n : Nat)
    (h : ∀ j, j < n → ∀ s, body j s = .ok (s ++ g j)) (s : List α) :
    forLoop body 0 n s = .ok (s ++ (List.range n).flatMap g) := by
  induction n with
  | zero => simp [forLoop]
  | succ n ih =>
    rw [forLoop_succ, ih (fun j hj => h j (by omega))]
    simp only [Nat.zero_add]
    rw [h n (by omega), List.range_succ, List.flatMap_append]
    simp

/-- The length of a concatenation of `n` blocks of `k` elements. -/
theorem length_flatMap_range {α : Type} (g : Nat → List α) (k n : Nat)
    (h : ∀ j, j < n → (g j).length = k) : ((List.range n).flatMap g).length = n * k := by
  induction n with
  | zero => simp
  | succ n ih =>
    rw [List.range_succ, List.flatMap_append, List.length_append, ih (fun j hj => h j (by omega))]
    simp [h n (by omega)]
    ring

/-- The `j`-th block of a concatenation of `n` blocks of `k` elements. -/
theorem drop_take_flatMap_range {α : Type} (g : Nat → List α) (k n : Nat)
    (h : ∀ j, j < n → (g j).length = k) (j : Nat) (hj : j < n) :
    (((List.range n).flatMap g).drop (j * k)).take k = g j := by
  induction n with
  | zero => omega
  | succ n ih =>
    have hlen := length_flatMap_range g k n (fun j hj => h j (by omega))
    rw [List.range_succ, List.flatMap_append]
    simp only [List.flatMap_cons, List.flatMap_nil, List.append_nil]
    by_cases hjn : j < n
    · have h1 : j * k + k ≤ ((List.range n).flatMap g).length := by
        rw [hlen]
        calc j * k + k = (j + 1) * k := by ring
          _ ≤ n * k := Nat.mul_le_mul_right k (by omega)
      rw [List.drop_append_of_le_length (by omega), List.take_append_of_le_length]
      · exact ih (fun j hj => h j (by omega)) hjn
      · rw [List.length_drop]; omega
    · have hjn' : j = n := by omega
      subst hjn'
      rw [← hlen, List.drop_left, ← h j (by omega), List.take_length]

/-- A loop whose body at index `ch` appends `v ch` to the `ch`-th list of the state
leaves every list below the bound one element longer and the others unchanged. -/
theorem forLoop_modify {α : Type} (body : Nat → List (List α) → Except Fault (List (List α)))
    (v : Nat → α) (m : Nat)
    (h : ∀ ch, ch < m → ∀ st, body ch st = .ok (st.modify (fun l => l ++ [v ch]) ch))
    (st : List (List α)) :
    ∃ st', forLoop body 0 m st = .ok st'
      ∧ ∀ ch, st'[ch]? = (st[ch]?).map (fun l => if ch < m then l ++ [v ch] else l) := by
  induction m with
  | zero => exact ⟨st, rfl, fun ch => by simp⟩
  | succ m ih =>
    obtain ⟨st1, h1, h2⟩ := ih (fun ch hch => h ch (by omega))
    refine ⟨st1.modify (fun l => l ++ [v m]) m, ?_, ?_⟩
    · rw [forLoop_succ, h1]
      simp only [Nat.zero_add]
      exact h m (by omega) st1
    · intro ch
      rw [List.getElem?_modify, h2 ch]
      cases st[ch]? with
      | none => rfl
      | some l =>
        simp only [Option.map_some', Option.map_eq_map]
        by_cases hm : m = ch
        · subst hm; simp
        · by_cases hlt : ch < m
          · simp [hm, hlt, Nat.lt_succ_of_lt hlt]
          · have : ¬ ch < m + 1 := by omega
            simp [hm, hlt, this]

/-- A loop whose body at index `i` appends `v i ch` to every list `ch` below `m` leaves
these lists extended by `v 0 ch, .., v (n - 1) ch`. -/
theorem forLoop_frames {α : Type} (body : Nat → List (List α) → Except Fault (List (List α)))
    (v : Nat → Nat → α) (m n : Nat)
    (h : ∀ i, i < n → ∀ st, ∃ st', body i st = .ok st'
      ∧ ∀ ch, st'[ch]? = (st[ch]?).map (fun l => if ch < m then l ++ [v i ch] else l))
    (st : List (List α)) :
    ∃ st', forLoop body 0 n st = .ok st'
      ∧ ∀ ch, st'[ch]?
          = (st[ch]?).map (fun l => if ch < m then l ++ (List.range n).map (fun i => v i ch)
              else l) := by
  induction n with
  | zero => exact ⟨st, rfl, fun ch => by simp⟩
  | succ n ih =>
    obtain ⟨st1, h1, h2⟩ := ih (fun i hi => h i (by omega))
    obtain ⟨st2, h3, h4⟩ := h n (by omega) st1
    refine ⟨st2, ?_, ?_⟩
    · rw [forLoop_succ, h1]
      simp only [Nat.zero_add]
      exact h3
    · intro ch
      rw [h4 ch, h2 ch]
      cases st[ch]? with
      | none => rfl
      | some l =>
        simp only [Option.map_some']
        by_cases hlt : ch < m
        · simp [hlt, List.range_succ]
        · simp [hlt]

/-! ## The encoder in closed form -/

namespace WavFile

theorem addInt32ToFileData_eq (fileData : List Byte) (i : Int) :
    addInt32ToFileData fileData i = fileData ++ littleEndian 4 i := by
  unfold addInt32ToFileData littleEndian
  simp only [List.range, List.range.loop, List.map]
  congr 2
  · apply Fin.ext
    apply Int.ofNat_inj.mp
    rw [toUInt8_land_val, toUInt8_val]; norm_num
  · congr 1
    · apply Fin.ext
      apply Int.ofNat_inj.mp
      rw [toUInt8_land_val, toUInt8_val, int_shiftRight_8]; norm_num
    · congr 1
      · apply Fin.ext
        apply Int.ofNat_inj.mp
        rw [toUInt8_land_val, toUInt8_val, int_shiftRight_16]; norm_num
      · congr 1
        apply Fin.ext
        apply Int.ofNat_inj.mp
        rw [toUInt8_land_val, toUInt8_val, int_shiftRight_24]; norm_num

theorem addInt16ToFileData_eq (fileData : List Byte) (i : Int) :
    addInt16ToFileData fileData i = fileData ++ littleEndian 2 i := by
  unfold addInt16ToFileData littleEndian
  simp only [List.range, List.range.loop, List.map]
  congr 2
  · apply Fin.ext
    apply Int.ofNat_inj.mp
    rw [toUInt8_land_val, toUInt8_val]; norm_num
  · congr 1
    apply Fin.ext
    apply Int.ofNat_inj.mp
    rw [toUInt8_land_val, toUInt8_val, int_shiftRight_8]; norm_num

/-- The header written by `saveToWaveFile`, field by field. -/
theorem writeHeader_eq (w : WavFile) :
    writeHeader w
      = stringBytes "RIFF" ++ littleEndian 4 (fileSizeInBytes w) ++ stringBytes "WAVE"
        ++ stringBytes "fmt " ++ littleEndian 4 16 ++ littleEndian 2 1
        ++ littleEndian 2 (toInt16 (getNumChannels w)) ++ littleEndian 4 (toInt32 w.sampleRate)
        ++ littleEndian 4 (numBytesPerSecond w) ++ littleEndian 2 (numBytesPerBlock w)
        ++ littleEndian 2 (toInt16 w.bitDepth) ++ stringBytes "data"
        ++ littleEndian 4 (dataChunkSize w) := by
  unfold writeHeader
  simp only [addInt32ToFileData_eq, addInt16ToFileData_eq, addStringToFileData, List.nil_append]

theorem littleEndian_length (k : Nat) (v : Int) : (littleEndian k v).length = k := by
  simp [littleEndian]

theorem writeHeader_length (w : WavFile) : (writeHeader w).length = 44 := by
  rw [writeHeader_eq]
  simp only [List.length_append, littleEndian_length]
  rfl

end WavFile

namespace WavFile

/-- In an object whose channels all have `n` samples, `samples[channel][i]` is defined
for every channel and every frame below `n`. -/
theorem sampleAt_isSome (w : WavFile) (n : Nat) (heq : ∀ ch ∈ w.samples, ch.length = n)
    (i channel : Nat) (hi : i < n) (hc : channel < w.samples.length) :
    ∃ s, sampleAt w channel i = some s := by
  unfold sampleAt
  rw [List.getElem?_eq_getElem hc]
  simp only
  have hl := heq _ (List.getElem_mem hc)
  exact ⟨_, List.getElem?_eq_getElem (by omega)⟩

/-- The body of the sample loop of `saveToWaveFile` appends the block of the sample. -/
theorem encodeSample_eq (w : WavFile) (hbd : w.bitDepth = 8 ∨ w.bitDepth = 16 ∨ w.bitDepth = 24)
    (i channel : Nat) (s : ℚ) (hs : sampleAt w channel i = some s) (fileData : List Byte) :
    encodeSample w i channel fileData = .ok (fileData ++ sampleBlock w i channel)
      ∧ (sampleBlock w i channel).length = (Int.tdiv w.bitDepth 8).toNat := by
  unfold sampleBlock encodeSample
  rcases hbd with h | h | h
  · simp [h, hs]
  · simp [h, hs, addInt16ToFileData_eq, littleEndian_length]; decide
  · simp [h, hs, twentyFourBitBytes]; decide

/-- The inner loop of `saveToWaveFile` appends the block of the frame. -/
theorem encodeFrame_eq (w : WavFile) (hbd : w.bitDepth = 8 ∨ w.bitDepth = 16 ∨ w.bitDepth = 24)
    (n : Nat) (heq : ∀ ch ∈ w.samples, ch.length = n) (hlen : w.samples.length < 2147483648)
    (i : Nat) (hi : i < n) (fileData : List Byte) :
    encodeFrame w i fileData = .ok (fileData ++ frameBlock w i)
      ∧ (frameBlock w i).length = w.samples.length * (Int.tdiv w.bitDepth 8).toNat := by
  have hC : (getNumChannels w).toNat = w.samples.length := by
    unfold getNumChannels
    rw [toInt32_of_range (by omega) (by omega)]
    simp
  unfold encodeFrame frameBlock
  rw [hC]
  constructor
  · apply forLoop_append
    intro j hj s
    obtain ⟨x, hx⟩ := sampleAt_isSome w n heq i j hi hj
    exact (encodeSample_eq w hbd i j x hx s).1
  · apply length_flatMap_range
    intro j hj
    obtain ⟨x, hx⟩ := sampleAt_isSome w n heq i j hi hj
    exact (encodeSample_eq w hbd i j x hx []).2

/-- The value of `getNumSamplesPerChannel` for channels of equal length `n`. -/
theorem getNumSamplesPerChannel_eq (w : WavFile) (n : Nat)
    (heq : ∀ ch ∈ w.samples, ch.length = n) (hne : w.samples ≠ []) :
    getNumSamplesPerChannel w = toInt32 n := by
  unfold getNumSamplesPerChannel
  cases hs : w.samples with
  | nil => exact absurd hs hne
  | cons c0 rest =>
    simp only
    rw [heq c0 (by rw [hs]; exact List.mem_cons_self _ _)]

/-- The outer loop of `saveToWaveFile` appends the blocks of all frames. -/
theorem encodeFrames_eq (w : WavFile) (hbd : w.bitDepth = 8 ∨ w.bitDepth = 16 ∨ w.bitDepth = 24)
    (n : Nat) (heq : ∀ ch ∈ w.samples, ch.length = n) (hne : w.samples ≠ [])
    (hlen : w.samples.length < 2147483648) (hn : n < 2147483648) (fileData : List Byte) :
    encodeFrames w fileData = .ok (fileData ++ (List.range n).flatMap (frameBlock w))
      ∧ ((List.range n).flatMap (frameBlock w)).length
          = n * (w.samples.length * (Int.tdiv w.bitDepth 8).toNat) := by
  have hN : (getNumSamplesPerChannel w).toNat = n := by
    rw [getNumSamplesPerChannel_eq w n heq hne, toInt32_of_range (by omega) (by omega)]
    simp
  unfold encodeFrames
  rw [hN]
  constructor
  · apply forLoop_append
    intro j hj s
    exact (encodeFrame_eq w hbd n heq hlen j hj s).1
  · apply length_flatMap_range
    intro j hj
    exact (encodeFrame_eq w hbd n heq hlen j hj []).2

end WavFile

namespace WavFile

/-- The locals `dataChunkSize` and `fileSizeInBytes` and the two operands of the final
size check of `saveToWaveFile`, for one or two channels of `n` samples. -/
theorem save_sizes (w : WavFile) (hbd : w.bitDepth = 8 ∨ w.bitDepth = 16 ∨ w.bitDepth = 24)
    (hch : w.samples.length = 1 ∨ w.samples.length = 2) (n : Nat)
    (heq : ∀ ch ∈ w.samples, ch.length = n) (hn : n < 2147483648) :
    dataChunkSize w = toInt32 (n * w.samples.length * Int.tdiv w.bitDepth 8)
      ∧ fileSizeInBytes w = toInt32 (36 + n * w.samples.length * Int.tdiv w.bitDepth 8)
      ∧ mulInt (mulInt (getNumSamplesPerChannel w) (getNumChannels w)) (Int.tdiv w.bitDepth 8)
          = toInt32 (n * w.samples.length * Int.tdiv w.bitDepth 8) := by
  have hne : w.samples ≠ [] := by
    intro h; rw [h] at hch; simp at hch
  have hN := getNumSamplesPerChannel_eq w n heq hne
  rw [toInt32_of_range (by omega) (by omega)] at hN
  unfold fileSizeInBytes dataChunkSize getNumChannels
  rw [hN]
  rcases hch with hc | hc <;> rcases hbd with hb | hb | hb <;> rw [hc, hb] <;>
    simp only [tdiv_eight, mulInt, addInt, toInt32] <;> norm_num <;> omega

end WavFile

namespace WavFile

theorem slice_append_left (l1 l2 : List Byte) (start len : Nat)
    (h : start + len ≤ l1.length) : slice (l1 ++ l2) start len = slice l1 start len := by
  unfold slice
  rw [List.drop_append_of_le_length (by omega), List.take_append_of_le_length]
  rw [List.length_drop]; omega

/-- The stream written by `saveToWaveFile` for one or two channels of `n` samples each:
the 44-byte header followed by the blocks of the frames. -/
theorem saveToWaveFile_eq (w : WavFile)
    (hbd : w.bitDepth = 8 ∨ w.bitDepth = 16 ∨ w.bitDepth = 24)
    (hch : w.samples.length = 1 ∨ w.samples.length = 2) (n : Nat)
    (heq : ∀ ch ∈ w.samples, ch.length = n) (hn : n < 2147483648) :
    saveToWaveFile w = Saved.written (writeHeader w ++ (List.range n).flatMap (frameBlock w))
      ∧ ((List.range n).flatMap (frameBlock w)).length
          = n * w.samples.length * (Int.tdiv w.bitDepth 8).toNat := by
  have hne : w.samples ≠ [] := by
    intro h; rw [h] at hch; simp at hch
  obtain ⟨hloop, hlen⟩ := encodeFrames_eq w hbd n heq hne (by omega) hn (writeHeader w)
  obtain ⟨hd, hf, hm⟩ := save_sizes w hbd hch n heq hn
  have hq : ((Int.tdiv w.bitDepth 8).toNat : Int) = Int.tdiv w.bitDepth 8 := by
    rcases hbd with hb | hb | hb <;> rw [hb] <;> decide
  refine ⟨?_, by rw [hlen]; ring⟩
  unfold saveToWaveFile
  rw [hloop]
  simp only
  rw [if_neg]
  rw [hf, hd, hm, List.length_append, writeHeader_length, hlen]
  push_cast
  rw [hq]
  simp only [ne_eq, not_true_eq_false, or_false, not_not]
  congr 1
  ring

end WavFile

namespace WavFile

/-- When the frame count returned as `int` is not positive the sample loop of
`saveToWaveFile` does not run; for one 8-bit channel whose count wraps to -2^31 the
computed file size is 36 - 2^31, the stream has 44 bytes and the size check reports the
mismatch. -/
theorem saveToWaveFile_of_wrapped_count (w : WavFile)
    (hN : getNumSamplesPerChannel w = -2147483648) (hC : getNumChannels w = 1)
    (hB : w.bitDepth = 8) : saveToWaveFile w = Saved.sizeMismatch := by
  have hloop : encodeFrames w (writeHeader w) = .ok (writeHeader w) := by
    unfold encodeFrames
    rw [hN]
    rfl
  unfold saveToWaveFile
  rw [hloop]
  simp only
  rw [if_pos]
  rw [writeHeader_length]
  unfold fileSizeInBytes dataChunkSize
  rw [hN, hC, hB]
  decide

/-- C4, counterexample: for the 8-bit object with one channel of 2^31 samples the frame
count returned as `int` is -2^31, the sample loop does not run, and `saveToWaveFile`
reports the size mismatch instead of writing a stream of 44 + 2^31 × 1 × 1 bytes. -/
theorem c4_no_stream_for_wrapped_frame_count :
    tooManyFrames.bitDepth = 8 ∧ tooManyFrames.samples.length = 1
      ∧ (∀ ch ∈ tooManyFrames.samples, ch.length = 2147483648)
      ∧ getNumSamplesPerChannel tooManyFrames = -2147483648
      ∧ saveToWaveFile tooManyFrames = Saved.sizeMismatch := by
  have hN : getNumSamplesPerChannel tooManyFrames = -2147483648 := by
    show toInt32 ((List.replicate 2147483648 (0 : ℚ)).length : Nat) = _
    rw [List.length_replicate]; decide
  refine ⟨rfl, rfl, ?_, hN, saveToWaveFile_of_wrapped_count tooManyFrames hN rfl rfl⟩
  intro ch hch
  have : ch = List.replicate 2147483648 (0 : ℚ) := List.mem_singleton.mp hch
  rw [this, List.length_replicate]

/-- C4, amended: for every object with bit depth 8, 16 or 24 and one or two channels of
`n` samples each, `n` below 2^31, `saveToWaveFile` hands a stream to the writer whose
length is `44 + n × channelCount × bitDepth/8` and which carries "RIFF" at bytes 0-3,
"WAVE" at bytes 8-11, "fmt " at bytes 12-15 and "data" at bytes 36-39. -/
theorem c4_stream_length_and_tags (w : WavFile)
    (hbd : w.bitDepth = 8 ∨ w.bitDepth = 16 ∨ w.bitDepth = 24)
    (hch : w.samples.length = 1 ∨ w.samples.length = 2) (n : Nat)
    (heq : ∀ ch ∈ w.samples, ch.length = n) (hn : n < 2147483648) :
    ∃ fileData, saveToWaveFile w = Saved.written fileData
      ∧ fileData.length = 44 + n * w.samples.length * (Int.tdiv w.bitDepth 8).toNat
      ∧ slice fileData 0 4 = stringBytes "RIFF" ∧ slice fileData 8 4 = stringBytes "WAVE"
      ∧ slice fileData 12 4 = stringBytes "fmt " ∧ slice fileData 36 4 = stringBytes "data" := by
  obtain ⟨hs, hl⟩ := saveToWaveFile_eq w hbd hch n heq hn
  refine ⟨_, hs, ?_, ?_, ?_, ?_, ?_⟩
  · rw [List.length_append, writeHeader_length, hl]
  · rw [slice_append_left _ _ _ _ (by rw [writeHeader_length]; decide), writeHeader_eq]; rfl
  · rw [slice_append_left _ _ _ _ (by rw [writeHeader_length]; decide), writeHeader_eq]; rfl
  · rw [slice_append_left _ _ _ _ (by rw [writeHeader_length]; decide), writeHeader_eq]; rfl
  · rw [slice_append_left _ _ _ _ (by rw [writeHeader_length]; decide), writeHeader_eq]; rfl

/-- C4, witness: the stream written for `twoFrames` (one channel, two frames, 16 bits). -/
theorem c4_stream_length_and_tags_witness :
    ∃ fileData, saveToWaveFile twoFrames = Saved.written fileData
      ∧ fileData.length = 44 + 2 * twoFrames.samples.length * (Int.tdiv twoFrames.bitDepth 8).toNat
      ∧ slice fileData 0 4 = stringBytes "RIFF" ∧ slice fileData 8 4 = stringBytes "WAVE"
      ∧ slice fileData 12 4 = stringBytes "fmt " ∧ slice fileData 36 4 = stringBytes "data" :=
  c4_stream_length_and_tags twoFrames (by decide) (by decide) 2 (by decide) (by decide)

end WavFile

namespace WavFile

theorem slice_append_right (l1 l2 : List Byte) (start len : Nat) :
    slice (l1 ++ l2) (l1.length + start) len = slice l2 start len := by
  unfold slice
  rw [← List.drop_drop, List.drop_left]

theorem slice_slice (l : List Byte) (s m a len : Nat) (h : a + len ≤ m) :
    slice (slice l s m) a len = slice l (s + a) len := by
  unfold slice
  rw [List.drop_take, List.take_take, List.drop_drop, Nat.min_eq_left (by omega)]

theorem toUInt8_congr {x y : Int} (h : x % 256 = y % 256) : toUInt8 x = toUInt8 y := by
  apply Fin.ext
  apply Int.ofNat_inj.mp
  rw [toUInt8_val, toUInt8_val, h]

/-- The four little-endian bytes of a value only depend on its low 32 bits. -/
theorem littleEndian4_toInt32 (v : Int) : littleEndian 4 (toInt32 v) = littleEndian 4 v := by
  unfold littleEndian toInt32
  simp only [List.range, List.range.loop, List.map]
  congr 1
  · apply toUInt8_congr; norm_num; omega
  · congr 1
    · apply toUInt8_congr; norm_num; omega
    · congr 1
      · apply toUInt8_congr; norm_num; omega
      · congr 1
        apply toUInt8_congr; norm_num; omega

/-- The two little-endian bytes of a value only depend on its low 16 bits. -/
theorem littleEndian2_toInt16 (v : Int) : littleEndian 2 (toInt16 v) = littleEndian 2 v := by
  unfold littleEndian toInt16
  simp only [List.range, List.range.loop, List.map]
  congr 1
  · apply toUInt8_congr; norm_num; omega
  · congr 1
    apply toUInt8_congr; norm_num; omega

theorem littleEndian2_toInt32 (v : Int) : littleEndian 2 (toInt32 v) = littleEndian 2 v := by
  unfold littleEndian toInt32
  simp only [List.range, List.range.loop, List.map]
  congr 1
  · apply toUInt8_congr; norm_num; omega
  · congr 1
    apply toUInt8_congr; norm_num; omega

/-- The block of frame `i`, channel `channel` inside the stream written by
`saveToWaveFile`. -/
theorem slice_sample_block (w : WavFile)
    (hbd : w.bitDepth = 8 ∨ w.bitDepth = 16 ∨ w.bitDepth = 24)
    (n : Nat) (heq : ∀ ch ∈ w.samples, ch.length = n) (hlen : w.samples.length < 2147483648)
    (i channel : Nat) (hi : i < n) (hc : channel < w.samples.length) :
    slice (writeHeader w ++ (List.range n).flatMap (frameBlock w))
        (44 + (i * w.samples.length + channel) * (Int.tdiv w.bitDepth 8).toNat)
        (Int.tdiv w.bitDepth 8).toNat
      = sampleBlock w i channel := by
  have hframe : ∀ j, j < n →
      (frameBlock w j).length = w.samples.length * (Int.tdiv w.bitDepth 8).toNat :=
    fun j hj => (encodeFrame_eq w hbd n heq hlen j hj []).2
  have hsample : ∀ c, c < w.samples.length →
      (sampleBlock w i c).length = (Int.tdiv w.bitDepth 8).toNat := by
    intro c hc'
    obtain ⟨x, hx⟩ := sampleAt_isSome w n heq i c hi hc'
    exact (encodeSample_eq w hbd i c x hx []).2
  have h1 := drop_take_flatMap_range (frameBlock w) _ n hframe i hi
  have h2 := drop_take_flatMap_range (sampleBlock w i) _ w.samples.length hsample channel hc
  rw [← writeHeader_length w, Nat.add_comm _ channel, Nat.add_mul, Nat.mul_assoc,
    Nat.add_comm (channel * _), slice_append_right,
    ← slice_slice _ _ (w.samples.length * (Int.tdiv w.bitDepth 8).toNat) _ _]
  · show slice (((List.range n).flatMap (frameBlock w)).drop _ |>.take _) _ _ = _
    rw [h1]
    exact h2
  · calc channel * (Int.tdiv w.bitDepth 8).toNat + (Int.tdiv w.bitDepth 8).toNat
        = (channel + 1) * (Int.tdiv w.bitDepth 8).toNat := by ring
      _ ≤ w.samples.length * (Int.tdiv w.bitDepth 8).toNat :=
        Nat.mul_le_mul_right _ (by omega)

end WavFile

namespace WavFile

/-- C5, counterexample: the 8-bit, one-channel object with sample rate 2^29 is written
as `wrappedRateFile`, whose bytes 28-31 are 0, 0, 0, 0 and not the little-endian bytes
0, 0, 0, 32 of `1 × 536870912 × 8 / 8`. -/
theorem c5_bytes_per_second_wraps :
    saveToWaveFile wrappedRate = Saved.written wrappedRateFile
      ∧ slice wrappedRateFile 28 4 = [0, 0, 0, 0]
      ∧ littleEndian 4 (1 * 536870912 * 8 / 8) = [0, 0, 0, 32] := by
  refine ⟨by decide!, by decide, by decide⟩

/-- C5, amended: for every object with bit depth 8, 16 or 24, one or two channels of `n`
samples each, `n` below 2^31, the stream written by `saveToWaveFile` carries, as
little-endian fields holding the low bits of the values: bytes 4-7 = 36 + dataChunkSize,
bytes 16-19 = 16, bytes 20-21 = 1, bytes 22-23 = channelCount, bytes 24-27 = sampleRate,
bytes 28-31 = ((channelCount × sampleRate × bitDepth) mod 2^32) / 8, bytes 32-33 =
channelCount × (bitDepth/8), bytes 34-35 = bitDepth, bytes 40-43 = dataChunkSize =
n × channelCount × (bitDepth/8); and the bytes pushed for frame `i`, channel `c` are
the `bitDepth/8` bytes starting at `44 + (i × channelCount + c) × bitDepth/8`. -/
theorem c5_header_fields_and_sample_positions (w : WavFile)
    (hbd : w.bitDepth = 8 ∨ w.bitDepth = 16 ∨ w.bitDepth = 24)
    (hch : w.samples.length = 1 ∨ w.samples.length = 2) (n : Nat)
    (heq : ∀ ch ∈ w.samples, ch.length = n) (hn : n < 2147483648) :
    ∃ fileData, saveToWaveFile w = Saved.written fileData
      ∧ slice fileData 4 4
          = littleEndian 4 (36 + n * w.samples.length * Int.tdiv w.bitDepth 8)
      ∧ slice fileData 16 4 = littleEndian 4 16
      ∧ slice fileData 20 2 = littleEndian 2 1
      ∧ slice fileData 22 2 = littleEndian 2 w.samples.length
      ∧ slice fileData 24 4 = littleEndian 4 w.sampleRate
      ∧ slice fileData 28 4
          = littleEndian 4 ((w.samples.length * w.sampleRate * w.bitDepth) % 4294967296 / 8)
      ∧ slice fileData 32 2 = littleEndian 2 (w.samples.length * Int.tdiv w.bitDepth 8)
      ∧ slice fileData 34 2 = littleEndian 2 w.bitDepth
      ∧ slice fileData 40 4 = littleEndian 4 (n * w.samples.length * Int.tdiv w.bitDepth 8)
      ∧ ∀ i channel, i < n → channel < w.samples.length →
          encodeSample w i channel []
            = .ok (slice fileData
                (44 + (i * w.samples.length + channel) * (Int.tdiv w.bitDepth 8).toNat)
                (Int.tdiv w.bitDepth 8).toNat) := by
  obtain ⟨hs, _⟩ := saveToWaveFile_eq w hbd hch n heq hn
  obtain ⟨hd, hf, _⟩ := save_sizes w hbd hch n heq hn
  have hC : getNumChannels w = w.samples.length := by
    unfold getNumChannels
    exact toInt32_of_range (by omega) (by omega)
  have hin : ∀ start len, start + len ≤ 44 →
      slice (writeHeader w ++ (List.range n).flatMap (frameBlock w)) start len
        = slice (writeHeader w) start len :=
    fun start len h => slice_append_left _ _ _ _ (by rw [writeHeader_length]; exact h)
  have e28 : littleEndian 4 (numBytesPerSecond w)
      = littleEndian 4 ((w.samples.length * w.sampleRate * w.bitDepth) % 4294967296 / 8) := by
    unfold numBytesPerSecond
    rw [littleEndian4_toInt32, mulUInt32_cast, hC]
  have e32 : littleEndian 2 (numBytesPerBlock w)
      = littleEndian 2 (w.samples.length * Int.tdiv w.bitDepth 8) := by
    unfold numBytesPerBlock mulInt
    rw [littleEndian2_toInt16, littleEndian2_toInt32, hC]
  refine ⟨_, hs, ?_, ?_, ?_, ?_, ?_, ?_, ?_, ?_, ?_, ?_⟩
  · rw [hin 4 4 (by decide), writeHeader_eq, ← littleEndian4_toInt32 (36 + _), ← hf]; rfl
  · rw [hin 16 4 (by decide), writeHeader_eq]; rfl
  · rw [hin 20 2 (by decide), writeHeader_eq]; rfl
  · rw [hin 22 2 (by decide), writeHeader_eq, ← littleEndian2_toInt16 (w.samples.length : Int),
      ← hC]; rfl
  · rw [hin 24 4 (by decide), writeHeader_eq, ← littleEndian4_toInt32 (w.sampleRate : Int)]; rfl
  · rw [hin 28 4 (by decide), writeHeader_eq, ← e28]; rfl
  · rw [hin 32 2 (by decide), writeHeader_eq, ← e32]; rfl
  · rw [hin 34 2 (by decide), writeHeader_eq, ← littleEndian2_toInt16 w.bitDepth]; rfl
  · rw [hin 40 4 (by decide), writeHeader_eq, ← littleEndian4_toInt32 (_ * _), ← hd]; rfl
  · intro i channel hi hc
    rw [slice_sample_block w hbd n heq (by omega) i channel hi hc]
    obtain ⟨x, hx⟩ := sampleAt_isSome w n heq i channel hi hc
    have := (encodeSample_eq w hbd i channel x hx []).1
    rwa [List.nil_append] at this

/-- C5, witness: the header fields and sample positions of the stream written for `twoFrames`. -/
theorem c5_header_fields_and_sample_positions_witness :
    ∃ fileData, saveToWaveFile twoFrames = Saved.written fileData
      ∧ slice fileData 4 4
          = littleEndian 4 (36 + (2 : Nat) * twoFrames.samples.length
              * Int.tdiv twoFrames.bitDepth 8)
      ∧ slice fileData 16 4 = littleEndian 4 16
      ∧ slice fileData 20 2 = littleEndian 2 1
      ∧ slice fileData 22 2 = littleEndian 2 twoFrames.samples.length
      ∧ slice fileData 24 4 = littleEndian 4 twoFrames.sampleRate
      ∧ slice fileData 28 4
          = littleEndian 4 ((twoFrames.samples.length * twoFrames.sampleRate
              * twoFrames.bitDepth) % 4294967296 / 8)
      ∧ slice fileData 32 2
          = littleEndian 2 (twoFrames.samples.length * Int.tdiv twoFrames.bitDepth 8)
      ∧ slice fileData 34 2 = littleEndian 2 twoFrames.bitDepth
      ∧ slice fileData 40 4
          = littleEndian 4 ((2 : Nat) * twoFrames.samples.length * Int.tdiv twoFrames.bitDepth 8)
      ∧ ∀ i channel, i < 2 → channel < twoFrames.samples.length →
          encodeSample twoFrames i channel []
            = .ok (slice fileData
                (44 + (i * twoFrames.samples.length + channel)
                  * (Int.tdiv twoFrames.bitDepth 8).toNat)
                (Int.tdiv twoFrames.bitDepth 8).toNat) :=
  c5_header_fields_and_sample_positions twoFrames (by decide) (by decide) 2 (by decide)
    (by decide)

end WavFile

namespace WavFile

theorem byteAt_of_lt (source : List Byte) (i : Int) (h0 : 0 ≤ i) (h1 : i < source.length) :
    ∃ b, byteAt source i = some b := by
  unfold byteAt
  rw [if_pos h0]
  exact ⟨_, List.getElem?_eq_getElem (by omega)⟩

theorem byteAt_eq_none_of_ge (source : List Byte) (i : Int) (h : (source.length : Int) ≤ i) :
    byteAt source i = none := by
  unfold byteAt
  split
  · exact List.getElem?_eq_none (by omega)
  · rfl

theorem addInt_of_range {a b : Int} (h1 : -2147483648 ≤ a + b) (h2 : a + b < 2147483648) :
    addInt a b = a + b := toInt32_of_range h1 h2

theorem mulInt_of_range {a b : Int} (h1 : -2147483648 ≤ a * b) (h2 : a * b < 2147483648) :
    mulInt a b = a * b := toInt32_of_range h1 h2

/-- The two-byte reader succeeds on an in-bounds index of a buffer below 2^31 bytes. -/
theorem twoBytesToInt_isSome (source : List Byte) (i : Int) (hlen : source.length < 2147483648)
    (h0 : 0 ≤ i) (h1 : i + 2 ≤ source.length) : ∃ v, twoBytesToInt source i = some v := by
  obtain ⟨b1, hb1⟩ := byteAt_of_lt source (i + 1) (by omega) (by omega)
  obtain ⟨b0, hb0⟩ := byteAt_of_lt source i h0 (by omega)
  unfold twoBytesToInt
  rw [addInt_of_range (by omega) (by omega), hb1, hb0]
  exact ⟨_, rfl⟩

/-- The four-byte reader succeeds on an in-bounds index of a buffer below 2^31 bytes. -/
theorem fourBytesToInt_isSome (source : List Byte) (i : Int) (hlen : source.length < 2147483648)
    (h0 : 0 ≤ i) (h1 : i + 4 ≤ source.length) : ∃ v, fourBytesToInt source i = some v := by
  obtain ⟨b3, hb3⟩ := byteAt_of_lt source (i + 3) (by omega) (by omega)
  obtain ⟨b2, hb2⟩ := byteAt_of_lt source (i + 2) (by omega) (by omega)
  obtain ⟨b1, hb1⟩ := byteAt_of_lt source (i + 1) (by omega) (by omega)
  obtain ⟨b0, hb0⟩ := byteAt_of_lt source i h0 (by omega)
  unfold fourBytesToInt
  rw [addInt_of_range (by omega) (by omega), addInt_of_range (by omega) (by omega),
    addInt_of_range (by omega) (by omega), hb3, hb2, hb1, hb0]
  exact ⟨_, rfl⟩

theorem twentyFourBitSample_isSome (source : List Byte) (i : Int)
    (hlen : source.length < 2147483648) (h0 : 0 ≤ i) (h1 : i + 3 ≤ source.length) :
    ∃ v, twentyFourBitSample source i = some v := by
  obtain ⟨b2, hb2⟩ := byteAt_of_lt source (i + 2) (by omega) (by omega)
  obtain ⟨b1, hb1⟩ := byteAt_of_lt source (i + 1) (by omega) (by omega)
  obtain ⟨b0, hb0⟩ := byteAt_of_lt source i h0 (by omega)
  unfold twentyFourBitSample
  rw [addInt_of_range (by omega) (by omega), addInt_of_range (by omega) (by omega),
    hb2, hb1, hb0]
  exact ⟨_, rfl⟩

/-- The loop body of the decoder reads its sample without fault when the `bitDepth / 8`
bytes at the index lie inside a buffer below 2^31 bytes. -/
theorem decodeSample_ok (fileData : List Byte) (bitDepth sampleIndex : Int)
    (hbd : bitDepth = 8 ∨ bitDepth = 16 ∨ bitDepth = 24)
    (hlen : fileData.length < 2147483648) (h0 : 0 ≤ sampleIndex)
    (h1 : sampleIndex + Int.tdiv bitDepth 8 ≤ fileData.length) :
    decodeSample fileData bitDepth sampleIndex
      = .ok (sampleRead fileData bitDepth sampleIndex) := by
  have key : ∃ r, decodeSample fileData bitDepth sampleIndex = .ok r := by
    unfold decodeSample
    rcases hbd with h | h | h <;> subst h
    · obtain ⟨b, hb⟩ := byteAt_of_lt fileData sampleIndex h0
        (by have : Int.tdiv 8 8 = 1 := by decide
            omega)
      simp [hb]
    · obtain ⟨b, hb⟩ := twoBytesToInt_isSome fileData sampleIndex hlen h0
        (by have : Int.tdiv 16 8 = 2 := by decide
            omega)
      simp [hb]
    · obtain ⟨b, hb⟩ := twentyFourBitSample_isSome fileData sampleIndex hlen h0
        (by have : Int.tdiv 24 8 = 3 := by decide
            omega)
      simp [hb]
  obtain ⟨r, hr⟩ := key
  unfold sampleRead
  rw [hr]

end WavFile

namespace WavFile

/-- The sample index computed by the loop body of the decoder is the exact sum when the
frame lies inside a buffer below 2^31 bytes. -/
theorem sampleIndex_exact (bitDepth numChannels start : Int) (len n i ch : Nat)
    (hbd : bitDepth = 8 ∨ bitDepth = 16 ∨ bitDepth = 24)
    (hch : numChannels = 1 ∨ numChannels = 2) (hlen : len < 2147483648)
    (h0 : 0 ≤ start)
    (hfit : start + numChannels * Int.tdiv bitDepth 8 * n ≤ len)
    (hi : i < n) (hc : ch < numChannels.toNat) :
    addInt (addInt start (mulInt (numChannels * Int.tdiv bitDepth 8) i))
        (mulInt ch (Int.tdiv bitDepth 8))
      = start + numChannels * Int.tdiv bitDepth 8 * i + ch * Int.tdiv bitDepth 8
    ∧ 0 ≤ start + numChannels * Int.tdiv bitDepth 8 * i + ch * Int.tdiv bitDepth 8
    ∧ start + numChannels * Int.tdiv bitDepth 8 * i + ch * Int.tdiv bitDepth 8
        + Int.tdiv bitDepth 8 ≤ len := by
  have h8 : Int.tdiv 8 8 = 1 := by decide
  have h16 : Int.tdiv 16 8 = 2 := by decide
  have h24 : Int.tdiv 24 8 = 3 := by decide
  unfold addInt mulInt toInt32
  rcases hch with h | h <;> rcases hbd with hb | hb | hb <;> subst h <;> subst hb <;>
    simp only [h8, h16, h24] at hfit ⊢ <;> simp at hc <;> omega

/-- The inner loop of the decoder, for a frame inside the buffer. -/
theorem decodeFrame_ok (fileData : List Byte) (bitDepth numChannels start : Int) (n i : Nat)
    (hbd : bitDepth = 8 ∨ bitDepth = 16 ∨ bitDepth = 24)
    (hch : numChannels = 1 ∨ numChannels = 2) (hlen : fileData.length < 2147483648)
    (h0 : 0 ≤ start)
    (hfit : start + numChannels * Int.tdiv bitDepth 8 * n ≤ fileData.length)
    (hi : i < n) (st : List (List ℚ)) :
    ∃ st', decodeFrame fileData bitDepth numChannels start
          (numChannels * Int.tdiv bitDepth 8) (Int.tdiv bitDepth 8) i st = .ok st'
      ∧ ∀ ch, st'[ch]? = (st[ch]?).map (fun l =>
          if ch < numChannels.toNat then
            l ++ [sampleRead fileData bitDepth
              (start + numChannels * Int.tdiv bitDepth 8 * i + ch * Int.tdiv bitDepth 8)]
          else l) := by
  unfold decodeFrame
  apply forLoop_modify
  intro ch hc st
  obtain ⟨e1, e2, e3⟩ := sampleIndex_exact bitDepth numChannels start fileData.length n i ch
    hbd hch hlen h0 hfit hi hc
  simp only [e1]
  rw [decodeSample_ok fileData bitDepth _ hbd hlen e2 e3]

/-- The sample loop of the decoder in closed form, when the frames lie inside a buffer
below 2^31 bytes. -/
theorem decodeFrames_ok (fileData : List Byte) (bitDepth numChannels numSamples start : Int)
    (hbd : bitDepth = 8 ∨ bitDepth = 16 ∨ bitDepth = 24)
    (hch : numChannels = 1 ∨ numChannels = 2) (hlen : fileData.length < 2147483648)
    (h0 : 0 ≤ start)
    (hfit : start + numChannels * Int.tdiv bitDepth 8 * numSamples.toNat ≤ fileData.length) :
    decodeFrames fileData bitDepth numChannels numSamples start
        (numChannels * Int.tdiv bitDepth 8) (Int.tdiv bitDepth 8)
        (List.replicate numChannels.toNat [])
      = .ok (decodedSamples fileData bitDepth numChannels.toNat numSamples.toNat start
          (numChannels * Int.tdiv bitDepth 8) (Int.tdiv bitDepth 8)) := by
  unfold decodeFrames
  obtain ⟨st', h1, h2⟩ := forLoop_frames
    (fun (i : Nat) samples => decodeFrame fileData bitDepth numChannels start
      (numChannels * Int.tdiv bitDepth 8) (Int.tdiv bitDepth 8) i samples)
    (fun i ch => sampleRead fileData bitDepth
      (start + numChannels * Int.tdiv bitDepth 8 * i + ch * Int.tdiv bitDepth 8))
    numChannels.toNat numSamples.toNat
    (fun i hi st => decodeFrame_ok fileData bitDepth numChannels start numSamples.toNat i
      hbd hch hlen h0 hfit hi st)
    (List.replicate numChannels.toNat [])
  rw [h1]
  congr 1
  apply List.ext_getElem?
  intro ch
  rw [h2 ch]
  unfold decodedSamples
  by_cases hc : ch < numChannels.toNat
  · simp [hc, List.getElem?_replicate, List.getElem?_range]
  · rw [List.getElem?_eq_none (by simp; omega), List.getElem?_eq_none (by simp; omega)]
    rfl

end WavFile

namespace WavFile

/-- Truncating division by a positive divisor in terms of the flooring division. -/
theorem tdiv_of_pos (x k : Int) (hk : 0 < k) :
    Int.tdiv x k = if 0 ≤ x then x / k else -((-x) / k) := by
  split
  · exact Int.tdiv_eq_ediv (by assumption) (by omega)
  · have h : Int.tdiv (-(-x)) k = -(Int.tdiv (-x) k) := Int.neg_tdiv (-x) k
    rw [neg_neg] at h
    rw [h, Int.tdiv_eq_ediv (by omega) (by omega)]

/-- The frames counted by the decoder fit in the declared size of the data chunk. -/
theorem numSamples_fit (bitDepth numChannels size : Int)
    (hbd : bitDepth = 8 ∨ bitDepth = 16 ∨ bitDepth = 24)
    (hch : numChannels = 1 ∨ numChannels = 2) :
    numChannels * Int.tdiv bitDepth 8
        * (Int.tdiv size (Int.tdiv (mulInt numChannels bitDepth) 8)).toNat ≤ max size 0 := by
  rcases hch with h | h <;> rcases hbd with hb | hb | hb <;> subst h <;> subst hb
  · rw [show Int.tdiv (mulInt 1 8) 8 = 1 from by decide, show Int.tdiv 8 8 = 1 from by decide,
      tdiv_of_pos size 1 (by decide)]
    split <;> omega
  · rw [show Int.tdiv (mulInt 1 16) 8 = 2 from by decide, show Int.tdiv 16 8 = 2 from by decide,
      tdiv_of_pos size 2 (by decide)]
    split <;> omega
  · rw [show Int.tdiv (mulInt 1 24) 8 = 3 from by decide, show Int.tdiv 24 8 = 3 from by decide,
      tdiv_of_pos size 3 (by decide)]
    split <;> omega
  · rw [show Int.tdiv (mulInt 2 8) 8 = 2 from by decide, show Int.tdiv 8 8 = 1 from by decide,
      tdiv_of_pos size 2 (by decide)]
    split <;> omega
  · rw [show Int.tdiv (mulInt 2 16) 8 = 4 from by decide, show Int.tdiv 16 8 = 2 from by decide,
      tdiv_of_pos size 4 (by decide)]
    split <;> omega
  · rw [show Int.tdiv (mulInt 2 24) 8 = 6 from by decide, show Int.tdiv 24 8 = 3 from by decide,
      tdiv_of_pos size 6 (by decide)]
    split <;> omega

theorem readString_isSome (source : List Byte) (start : Int) (len : Nat) (h0 : 0 ≤ start)
    (h1 : start + len ≤ source.length) :
    readString source start len = some (slice source start.toNat len) := by
  unfold readString slice
  rw [if_pos ⟨h0, h1⟩]

/-- The data part of `decodeWaveFile` in closed form: for a validated format chunk and a
data chunk whose size field and declared payload lie inside a buffer below 2^31 bytes. -/
theorem decodeData_ok (w : WavFile) (fileData : List Byte) (c : FormatChunk) (d size : Int)
    (hbd : c.bitDepth = 8 ∨ c.bitDepth = 16 ∨ c.bitDepth = 24)
    (hch : c.numChannels = 1 ∨ c.numChannels = 2)
    (hblock : c.numBytesPerBlock = c.numChannels * Int.tdiv c.bitDepth 8)
    (hlen : fileData.length < 2147483648) (hd0 : 0 ≤ d)
    (hsize : fourBytesToInt fileData (d + 4) = some size)
    (hfit : d + 8 + size ≤ fileData.length) (hd8 : d + 8 ≤ fileData.length) :
    decodeData w fileData c d
      = Decoded.ok { w with samples := (decodedSamples fileData c.bitDepth c.numChannels.toNat
          (Int.tdiv size (Int.tdiv (mulInt c.numChannels c.bitDepth) 8)).toNat (d + 8)
          (c.numChannels * Int.tdiv c.bitDepth 8) (Int.tdiv c.bitDepth 8)) } := by
  rw [decodeData_eq]
  simp only
  rw [readString_isSome fileData d 4 hd0 (by push_cast; omega),
    addInt_of_range (by omega) (by omega), hsize]
  simp only
  rw [addInt_of_range (by omega) (by omega), hblock]
  have hfit' := numSamples_fit c.bitDepth c.numChannels size hbd hch
  rw [show (clearWavBuffer w).wavFileFormat = w.wavFileFormat from rfl]
  rw [decodeFrames_ok fileData c.bitDepth c.numChannels _ (d + 8) hbd hch hlen (by omega)
    (by omega)]
  rfl

end WavFile

namespace WavFile

/-- The format chunk is read without fault when the 24 bytes from its tag lie inside a
buffer below 2^31 bytes. -/
theorem readFormatChunk_isSome (fileData : List Byte) (f : Int)
    (hlen : fileData.length < 2147483648) (h0 : 0 ≤ f) (h1 : f + 24 ≤ fileData.length) :
    ∃ c, readFormatChunk fileData f = some c := by
  unfold readFormatChunk
  obtain ⟨v1, e1⟩ := twoBytesToInt_isSome fileData (f + 8) hlen (by omega) (by omega)
  obtain ⟨v2, e2⟩ := twoBytesToInt_isSome fileData (f + 10) hlen (by omega) (by omega)
  obtain ⟨v3, e3⟩ := fourBytesToInt_isSome fileData (f + 12) hlen (by omega) (by omega)
  obtain ⟨v4, e4⟩ := fourBytesToInt_isSome fileData (f + 16) hlen (by omega) (by omega)
  obtain ⟨v5, e5⟩ := twoBytesToInt_isSome fileData (f + 20) hlen (by omega) (by omega)
  obtain ⟨v6, e6⟩ := twoBytesToInt_isSome fileData (f + 22) hlen (by omega) (by omega)
  rw [readString_isSome fileData f 4 h0 (by push_cast; omega),
    addInt_of_range (by omega) (by omega), addInt_of_range (by omega) (by omega),
    addInt_of_range (by omega) (by omega), addInt_of_range (by omega) (by omega),
    addInt_of_range (by omega) (by omega), addInt_of_range (by omega) (by omega),
    e1, e2, e3, e4, e5, e6]
  exact ⟨_, rfl⟩

/-- A found tag lies inside the buffer and is followed by at least one more byte. -/
theorem getIndexOfString_found_bounds {source s : List Byte} {r : Int}
    (h : getIndexOfString source s = some r) (hr : r ≠ -1)
    (hlen : source.length < 2147483648) :
    0 ≤ r ∧ r + s.length < source.length ∧ slice source r.toNat s.length = s := by
  obtain ⟨_, h1 | ⟨i, hi, hlt, hsec, _⟩⟩ := getIndexOfString_eq_some h
  · exact absurd h1.1 hr
  · rw [toInt32_of_range (by omega) (by omega)] at hi
    subst hi
    refine ⟨by omega, by omega, ?_⟩
    simpa [slice] using hsec

/-- A successful four-byte read lies inside the buffer. -/
theorem fourBytesToInt_some_bound {source : List Byte} {i v : Int}
    (h : fourBytesToInt source i = some v) (h0 : 0 ≤ i) (h1 : i < 2147483648) :
    i + 4 ≤ source.length := by
  unfold fourBytesToInt at h
  by_contra hcon
  have hnone : byteAt source (addInt i 3) = none := by
    by_cases hr : i + 3 < 2147483648
    · rw [addInt_of_range (by omega) hr]
      exact byteAt_eq_none_of_ge source (i + 3) (by omega)
    · have hneg : addInt i 3 < 0 := by
        unfold addInt toInt32; omega
      unfold byteAt
      rw [if_neg (by omega)]
  rw [hnone] at h
  simp at h

theorem readString_zero (source : List Byte) (len : Nat) (h : len ≤ source.length) :
    readString source 0 len = some (slice source 0 len) := by
  rw [readString_isSome source 0 len (by decide) (by omega)]
  rfl

theorem readString_eight (source : List Byte) (h : 12 ≤ source.length) :
    readString source 8 4 = some (slice source 8 4) := by
  rw [readString_isSome source 8 4 (by decide) (by push_cast; omega)]
  rfl

/-- A consistent header of a validated chunk has the exact block size. -/
theorem headerConsistent_block (c : FormatChunk)
    (hch : c.numChannels = 1 ∨ c.numChannels = 2)
    (hbd : c.bitDepth = 8 ∨ c.bitDepth = 16 ∨ c.bitDepth = 24)
    (hcons : headerConsistent c = true) :
    c.numBytesPerBlock = c.numChannels * Int.tdiv c.bitDepth 8 := by
  unfold headerConsistent at hcons
  simp only [decide_eq_true_eq] at hcons
  rw [hcons.2]
  apply mulInt_of_range <;>
    rcases hch with h | h <;> rcases hbd with hb | hb | hb <;> rw [h, hb] <;> decide

/-- The whole of `decodeWaveFile` in closed form on a valid buffer below 2^31 bytes whose
data chunk lies inside the buffer. -/
theorem decodeWaveFile_ok (w : WavFile) (fileData : List Byte) (f d size : Int)
    (c : FormatChunk) (hlen : fileData.length < 2147483648)
    (hriff : readString fileData 0 4 = some (stringBytes "RIFF"))
    (hwave : readString fileData 8 4 = some (stringBytes "WAVE"))
    (hdata : getIndexOfString fileData (stringBytes "data") = some d)
    (hfmt : getIndexOfString fileData (stringBytes "fmt") = some f)
    (hd : d ≠ -1) (hf : f ≠ -1) (hc : readFormatChunk fileData f = some c)
    (haf : c.audioFormat = 1) (hch : c.numChannels = 1 ∨ c.numChannels = 2)
    (hcons : headerConsistent c = true)
    (hbd : c.bitDepth = 8 ∨ c.bitDepth = 16 ∨ c.bitDepth = 24)
    (hsize : fourBytesToInt fileData (d + 4) = some size)
    (hfit : d + 8 + size ≤ fileData.length) :
    decodeWaveFile w fileData
      = Decoded.ok
          { samples := (decodedSamples fileData c.bitDepth c.numChannels.toNat
              (Int.tdiv size (Int.tdiv (mulInt c.numChannels c.bitDepth) 8)).toNat (d + 8)
              (c.numChannels * Int.tdiv c.bitDepth 8) (Int.tdiv c.bitDepth 8)),
            wavFileFormat := w.wavFileFormat,
            sampleRate := c.sampleRate,
            bitDepth := c.bitDepth } := by
  obtain ⟨hd0, hd1, _⟩ := getIndexOfString_found_bounds hdata hd hlen
  have hl4 : (stringBytes "data").length = 4 := rfl
  have hd8 := fourBytesToInt_some_bound hsize (by omega) (by omega)
  have hblock := headerConsistent_block c hch hbd hcons
  unfold decodeWaveFile
  rw [hriff, hwave, hdata, hfmt]
  simp only
  rw [if_neg (by simp [hd, hf]), hc]
  simp only
  rw [if_neg (by simp [haf]), if_neg (by omega), if_neg (by simp [hcons]),
    if_neg (by omega)]
  rw [decodeData_ok _ fileData c d size hbd hch hblock hlen hd0 hsize hfit (by omega)]

/-- C8, counterexample: on the 21-byte file `truncatedFile`, cut off inside its format
chunk, `decodeWaveFile` indexes the buffer past its end. -/
theorem c8_truncated_file_read_out_of_bounds :
    truncatedFile.length = 21
      ∧ decodeWaveFile new truncatedFile = Decoded.fault Fault.outOfBounds := by
  decide

/-- C8, amended: `decodeWaveFile` validates no bounds; all its reads are inside the
buffer when the buffer has at least 12 and fewer than 2^31 bytes, the 24 bytes from the
offset found for "fmt" lie inside the buffer and, after the offset found for "data",
the 4-byte size field and the number of bytes it declares lie inside the buffer. -/
theorem c8_reads_in_bounds_when_chunks_fit (w : WavFile) (fileData : List Byte) (f d : Int)
    (hlen : fileData.length < 2147483648) (h12 : 12 ≤ fileData.length)
    (hfmt : getIndexOfString fileData (stringBytes "fmt") = some f)
    (hdata : getIndexOfString fileData (stringBytes "data") = some d)
    (hf : f ≠ -1 → f + 24 ≤ fileData.length)
    (hd : d ≠ -1 → ∃ size, fourBytesToInt fileData (d + 4) = some size
      ∧ d + 8 + size ≤ fileData.length) :
    ∀ flt, decodeWaveFile w fileData ≠ Decoded.fault flt := by
  intro flt
  have h1 := readString_zero fileData 4 (by omega)
  have h2 := readString_eight fileData (by omega)
  unfold decodeWaveFile
  rw [h1, h2, hdata, hfmt]
  simp only
  split
  · simp
  · rename_i hvalid
    simp only [not_or, not_not] at hvalid
    obtain ⟨hd1, hf1, hriff, hwave⟩ := hvalid
    obtain ⟨hf0, _, _⟩ := getIndexOfString_found_bounds hfmt hf1 hlen
    obtain ⟨hd0, hd4, _⟩ := getIndexOfString_found_bounds hdata hd1 hlen
    obtain ⟨c, hc⟩ := readFormatChunk_isSome fileData f hlen hf0 (hf hf1)
    obtain ⟨size, hsize, hfit⟩ := hd hd1
    rw [hc]
    simp only
    split
    · simp
    · split
      · simp
      · rename_i hch
        split
        · simp
        · rename_i hcons
          split
          · simp
          · rename_i hbd
            have hch' : c.numChannels = 1 ∨ c.numChannels = 2 := by omega
            have hbd' : c.bitDepth = 8 ∨ c.bitDepth = 16 ∨ c.bitDepth = 24 := by omega
            have hcons' : headerConsistent c = true := by simpa using hcons
            have hblock := headerConsistent_block c hch' hbd' hcons'
            have hl4 : (stringBytes "data").length = 4 := rfl
            have hd8 := fourBytesToInt_some_bound hsize (by omega) (by omega)
            rw [decodeData_ok _ fileData c d size hbd' hch' hblock hlen hd0 hsize hfit
              (by omega)]
            simp

/-- C8, witness: decoding the 44-byte file `wrappedRateFile` does not read out of bounds. -/
theorem c8_reads_in_bounds_when_chunks_fit_witness :
    decodeWaveFile new wrappedRateFile ≠ Decoded.fault Fault.outOfBounds :=
  c8_reads_in_bounds_when_chunks_fit new wrappedRateFile 12 36 (by decide) (by decide)
    (by decide) (by decide) (fun _ => by decide) (fun _ => ⟨0, by decide, by decide⟩)
    Fault.outOfBounds

end WavFile

namespace WavFile

theorem getElem?_slice (l : List Byte) (i k j : Nat) (h : j < k) :
    (slice l i k)[j]? = l[i + j]? := by
  unfold slice
  rw [List.getElem?_take, if_pos h, List.getElem?_drop]

theorem byteAt_of_slice (l : List Byte) (i k j : Nat) (xs : List Byte) (b : Byte)
    (hs : slice l i k = xs) (h : j < k) (hb : xs[j]? = some b) :
    byteAt l ((i + j : Nat) : Int) = some b := by
  unfold byteAt
  rw [if_pos (by omega), Int.toNat_ofNat, ← getElem?_slice l i k j h, hs, hb]

/-- Reading two bytes where the little-endian bytes of `v` stand gives `v` as `int16_t`. -/
theorem twoBytesToInt_of_slice (l : List Byte) (i : Nat) (v : Int)
    (hs : slice l i 2 = littleEndian 2 v) (hi : i + 2 < 2147483648) :
    twoBytesToInt l i = some (toInt16 v) := by
  have h1 := byteAt_of_slice l i 2 1 _ (toUInt8 (v / 256 ^ 1)) hs (by decide) rfl
  have h0 := byteAt_of_slice l i 2 0 _ (toUInt8 (v / 256 ^ 0)) hs (by decide) rfl
  unfold twoBytesToInt
  rw [addInt_of_range (by omega) (by omega)]
  push_cast at h1 h0
  rw [Int.add_zero] at h0
  rw [h1, h0]
  simp only [Option.bind_eq_bind, Option.some_bind, Option.pure_def, Option.some.injEq]
  have e1 := toUInt8_val (v / 256)
  have e0 := toUInt8_val (v / 1)
  rw [or_bytes2 _ _ (toUInt8 (v / 1)).isLt]
  unfold toInt16
  push_cast
  rw [e1, e0]
  norm_num
  omega

/-- Reading four bytes where the little-endian bytes of `v` stand gives `v` as `int32_t`. -/
theorem fourBytesToInt_of_slice (l : List Byte) (i : Nat) (v : Int)
    (hs : slice l i 4 = littleEndian 4 v) (hi : i + 4 < 2147483648) :
    fourBytesToInt l i = some (toInt32 v) := by
  have h3 := byteAt_of_slice l i 4 3 _ (toUInt8 (v / 256 ^ 3)) hs (by decide) rfl
  have h2 := byteAt_of_slice l i 4 2 _ (toUInt8 (v / 256 ^ 2)) hs (by decide) rfl
  have h1 := byteAt_of_slice l i 4 1 _ (toUInt8 (v / 256 ^ 1)) hs (by decide) rfl
  have h0 := byteAt_of_slice l i 4 0 _ (toUInt8 (v / 256 ^ 0)) hs (by decide) rfl
  unfold fourBytesToInt
  rw [addInt_of_range (by omega) (by omega), addInt_of_range (by omega) (by omega),
    addInt_of_range (by omega) (by omega)]
  push_cast at h3 h2 h1 h0
  rw [Int.add_zero] at h0
  rw [h3, h2, h1, h0]
  simp only [Option.bind_eq_bind, Option.some_bind, Option.pure_def, Option.some.injEq]
  have e3 := toUInt8_val (v / 16777216)
  have e2 := toUInt8_val (v / 65536)
  have e1 := toUInt8_val (v / 256)
  have e0 := toUInt8_val (v / 1)
  rw [or_bytes4 _ _ _ _ (toUInt8 (v / 65536)).isLt (toUInt8 (v / 256)).isLt
    (toUInt8 (v / 1)).isLt]
  unfold toInt32
  push_cast
  rw [e3, e2, e1, e0]
  norm_num
  omega

end WavFile

namespace WavFile

theorem headerConsistent_of (c : FormatChunk)
    (h1 : toUInt32 c.numBytesPerSecond
      = mulUInt32 (mulUInt32 (toUInt32 c.numChannels) c.sampleRate) (toUInt32 c.bitDepth) / 8)
    (h2 : c.numBytesPerBlock = mulInt c.numChannels (Int.tdiv c.bitDepth 8)) :
    headerConsistent c = true := by
  unfold headerConsistent
  exact decide_eq_true ⟨h1, h2⟩

theorem toInt16_toInt16_of_small (x : Int) (h1 : -32768 ≤ x) (h2 : x < 32768) :
    toInt16 (toInt16 x) = x := by
  unfold toInt16; omega

theorem toUInt32_toInt32_toInt32 (x : Nat) (h : x < 4294967296) :
    toUInt32 (toInt32 (toInt32 (x : Int))) = x := by
  unfold toUInt32 toInt32; omega

theorem toUInt32_numBytesPerSecond (w : WavFile) :
    toUInt32 (toInt32 (numBytesPerSecond w))
      = mulUInt32 (mulUInt32 (toUInt32 (getNumChannels w)) w.sampleRate)
          (toUInt32 w.bitDepth) / 8 := by
  unfold numBytesPerSecond
  have hX : mulUInt32 (mulUInt32 (toUInt32 (getNumChannels w)) w.sampleRate)
      (toUInt32 w.bitDepth) / 8 < 4294967296 := by
    unfold mulUInt32; omega
  generalize mulUInt32 (mulUInt32 (toUInt32 (getNumChannels w)) w.sampleRate)
    (toUInt32 w.bitDepth) / 8 = X at hX
  unfold toUInt32 toInt32; omega

/-- The format chunk that `decodeWaveFile` reads at offset 12 of a stream written by
`saveToWaveFile`: the fields of the object, passing the header checks. -/
theorem readFormatChunk_written (w : WavFile) (body : List Byte)
    (hbd : w.bitDepth = 8 ∨ w.bitDepth = 16 ∨ w.bitDepth = 24)
    (hch : w.samples.length = 1 ∨ w.samples.length = 2)
    (hsr : w.sampleRate < 4294967296) :
    ∃ c, readFormatChunk (writeHeader w ++ body) 12 = some c
      ∧ c.audioFormat = 1 ∧ c.numChannels = w.samples.length ∧ c.sampleRate = w.sampleRate
      ∧ c.bitDepth = w.bitDepth ∧ headerConsistent c = true := by
  have hC : getNumChannels w = w.samples.length := by
    unfold getNumChannels
    exact toInt32_of_range (by omega) (by omega)
  have hin : ∀ start len, start + len ≤ 44 →
      slice (writeHeader w ++ body) start len = slice (writeHeader w) start len :=
    fun start len h => slice_append_left _ _ _ _ (by rw [writeHeader_length]; exact h)
  have hlen : 44 ≤ (writeHeader w ++ body).length := by
    rw [List.length_append, writeHeader_length]; omega
  have r0 : readString (writeHeader w ++ body) 12 4
      = some (slice (writeHeader w ++ body) (Int.toNat 12) 4) :=
    readString_isSome _ 12 4 (by decide) (by push_cast; omega)
  have r1 := twoBytesToInt_of_slice (writeHeader w ++ body) 20 1
    (by rw [hin 20 2 (by decide), writeHeader_eq]; rfl) (by decide)
  have r2 := twoBytesToInt_of_slice (writeHeader w ++ body) 22 (toInt16 (getNumChannels w))
    (by rw [hin 22 2 (by decide), writeHeader_eq]; rfl) (by decide)
  have r3 := fourBytesToInt_of_slice (writeHeader w ++ body) 24 (toInt32 w.sampleRate)
    (by rw [hin 24 4 (by decide), writeHeader_eq]; rfl) (by decide)
  have r4 := fourBytesToInt_of_slice (writeHeader w ++ body) 28 (numBytesPerSecond w)
    (by rw [hin 28 4 (by decide), writeHeader_eq]; rfl) (by decide)
  have r5 := twoBytesToInt_of_slice (writeHeader w ++ body) 32 (numBytesPerBlock w)
    (by rw [hin 32 2 (by decide), writeHeader_eq]; rfl) (by decide)
  have r6 := twoBytesToInt_of_slice (writeHeader w ++ body) 34 (toInt16 w.bitDepth)
    (by rw [hin 34 2 (by decide), writeHeader_eq]; rfl) (by decide)
  simp only [Nat.cast_ofNat] at r1 r2 r3 r4 r5 r6
  have e1 : toInt16 (toInt16 (getNumChannels w)) = getNumChannels w := by
    rw [hC]; exact toInt16_toInt16_of_small _ (by omega) (by omega)
  have e2 := toUInt32_toInt32_toInt32 w.sampleRate hsr
  have e3 : toInt16 (toInt16 w.bitDepth) = w.bitDepth :=
    toInt16_toInt16_of_small _ (by omega) (by omega)
  have e4 := toUInt32_numBytesPerSecond w
  have e5 : toInt16 (numBytesPerBlock w)
      = mulInt (getNumChannels w) (Int.tdiv w.bitDepth 8) := by
    unfold numBytesPerBlock
    rw [hC]
    rcases hch with h | h <;> rcases hbd with hb | hb | hb <;> rw [h, hb] <;> decide
  have e0 : toInt16 1 = 1 := by decide
  generalize toInt16 1 = a1 at r1 e0
  generalize toInt16 (toInt16 (getNumChannels w)) = a2 at r2 e1
  generalize toInt32 (toInt32 (w.sampleRate : Int)) = a3 at r3 e2
  generalize toInt32 (numBytesPerSecond w) = a4 at r4 e4
  generalize toInt16 (numBytesPerBlock w) = a5 at r5 e5
  generalize toInt16 (toInt16 w.bitDepth) = a6 at r6 e3
  refine ⟨⟨a1, a2, toUInt32 a3, a4, a5, a6⟩, ?_, e0, e1.trans hC, e2, e3, ?_⟩
  · unfold readFormatChunk
    rw [r0, show addInt 12 8 = 20 from rfl, show addInt 12 10 = 22 from rfl,
      show addInt 12 12 = 24 from rfl, show addInt 12 16 = 28 from rfl,
      show addInt 12 20 = 32 from rfl, show addInt 12 22 = 34 from rfl,
      r1, r2, r3, r4, r5, r6]
    rfl
  · apply headerConsistent_of
    · show toUInt32 a4 = mulUInt32 (mulUInt32 (toUInt32 a2) (toUInt32 a3)) (toUInt32 a6) / 8
      rw [e1, e2, e3, e4]
    · show a5 = mulInt a2 (Int.tdiv a6 8)
      rw [e1, e3, e5]

end WavFile

namespace WavFile

theorem decodedSamples_length (fileData : List Byte) (bitDepth : Int) (numChannels numSamples : Nat)
    (start numBytesPerBlock numBytesPerSample : Int) :
    (decodedSamples fileData bitDepth numChannels numSamples start numBytesPerBlock
      numBytesPerSample).length = numChannels := by
  simp [decodedSamples]

theorem decodedSamples_channel_length (fileData : List Byte) (bitDepth : Int)
    (numChannels numSamples : Nat) (start numBytesPerBlock numBytesPerSample : Int) :
    ∀ ch ∈ decodedSamples fileData bitDepth numChannels numSamples start numBytesPerBlock
      numBytesPerSample, ch.length = numSamples := by
  intro ch hch
  simp only [decodedSamples, List.mem_map] at hch
  obtain ⟨c, _, rfl⟩ := hch
  simp

/-- C1, counterexample: the default 16-bit object with sample rate 1635017060 (whose
bytes spell "data") is written as `dataRateFile`; decoding that stream finds "data" at
offset 24 instead of 36, takes the byte rate for the chunk size and runs off the end of
the buffer instead of reproducing the 0 frames. -/
theorem c1_round_trip_fails_when_rate_spells_data :
    dataRate.bitDepth = 16 ∧ dataRate.samples.length = 1
      ∧ (∀ ch ∈ dataRate.samples, ch.length = 0) ∧ dataRate.sampleRate < 4294967296
      ∧ saveToWaveFile dataRate = Saved.written dataRateFile
      ∧ getIndexOfString dataRateFile (stringBytes "data") = some 24
      ∧ decodeWaveFile new dataRateFile = Decoded.fault Fault.outOfBounds := by
  refine ⟨rfl, rfl, by decide, by decide, by decide!, by decide, by decide!⟩

/-- C1, amended: for every 16-bit object with one or two channels of `n` samples each,
a sample rate below 2^32 and a stream of fewer than 2^31 bytes, `saveToWaveFile` writes
a stream, and whenever the chunk search finds "fmt" at offset 12 and "data" at offset 36
of that stream, decoding it succeeds and reproduces the sample rate, the bit depth, the
number of channels and the number of frames. -/
theorem c1_round_trip_header_fields (w : WavFile) (n : Nat) (hbd : w.bitDepth = 16)
    (hch : w.samples.length = 1 ∨ w.samples.length = 2)
    (heq : ∀ ch ∈ w.samples, ch.length = n) (hsr : w.sampleRate < 4294967296)
    (hsize : 44 + n * w.samples.length * 2 < 2147483648) :
    (∃ fileData, saveToWaveFile w = Saved.written fileData)
      ∧ ∀ fileData, saveToWaveFile w = Saved.written fileData →
          getIndexOfString fileData (stringBytes "fmt") = some 12 →
          getIndexOfString fileData (stringBytes "data") = some 36 →
          ∀ w0, ∃ w', decodeWaveFile w0 fileData = Decoded.ok w'
            ∧ w'.sampleRate = w.sampleRate ∧ w'.bitDepth = w.bitDepth
            ∧ w'.samples.length = w.samples.length ∧ ∀ ch ∈ w'.samples, ch.length = n := by
  have hbd' : w.bitDepth = 8 ∨ w.bitDepth = 16 ∨ w.bitDepth = 24 := Or.inr (Or.inl hbd)
  have hn : n < 2147483648 := by rcases hch with h | h <;> rw [h] at hsize <;> omega
  obtain ⟨hs, hl⟩ := saveToWaveFile_eq w hbd' hch n heq hn
  obtain ⟨hdcs, _, _⟩ := save_sizes w hbd' hch n heq hn
  refine ⟨⟨_, hs⟩, ?_⟩
  intro fileData hsave hfmt hdata w0
  rw [hs] at hsave
  have hF := Saved.written.inj hsave
  subst hF
  have h2 : (Int.tdiv w.bitDepth 8).toNat = 2 := by rw [hbd]; decide
  have h2' : Int.tdiv w.bitDepth 8 = 2 := by rw [hbd]; decide
  rw [h2] at hl
  have hlenF : (writeHeader w ++ (List.range n).flatMap (frameBlock w)).length
      = 44 + n * w.samples.length * 2 := by
    rw [List.length_append, writeHeader_length, hl]
  have hin : ∀ start len, start + len ≤ 44 →
      slice (writeHeader w ++ (List.range n).flatMap (frameBlock w)) start len
        = slice (writeHeader w) start len :=
    fun start len h => slice_append_left _ _ _ _ (by rw [writeHeader_length]; exact h)
  obtain ⟨c, hc, haf, hnc, hcsr, hcbd, hcons⟩ :=
    readFormatChunk_written w ((List.range n).flatMap (frameBlock w)) hbd' hch hsr
  have hriff : readString (writeHeader w ++ (List.range n).flatMap (frameBlock w)) 0 4
      = some (stringBytes "RIFF") := by
    rw [readString_zero _ 4 (by omega), hin 0 4 (by decide), writeHeader_eq]; rfl
  have hwave : readString (writeHeader w ++ (List.range n).flatMap (frameBlock w)) 8 4
      = some (stringBytes "WAVE") := by
    rw [readString_eight _ (by omega), hin 8 4 (by decide), writeHeader_eq]; rfl
  have hdv : dataChunkSize w = (n * w.samples.length * 2 : Nat) := by
    rw [hdcs, h2']
    push_cast
    have hlt : ((44 + n * w.samples.length * 2 : Nat) : Int) < 2147483648 := by
      exact_mod_cast hsize
    have hge : (0 : Int) ≤ ((n * w.samples.length * 2 : Nat) : Int) := Int.ofNat_nonneg _
    push_cast at hlt hge
    exact toInt32_of_range (by omega) (by omega)
  have hread := fourBytesToInt_of_slice (writeHeader w ++ (List.range n).flatMap (frameBlock w))
    40 (dataChunkSize w) (by rw [hin 40 4 (by decide), writeHeader_eq]; rfl) (by decide)
  rw [hdv, toInt32_of_range (by omega) (by omega)] at hread
  have hch' : c.numChannels = 1 ∨ c.numChannels = 2 := by
    rcases hch with h | h <;> rw [hnc, h] <;> simp
  have hbdc : c.bitDepth = 8 ∨ c.bitDepth = 16 ∨ c.bitDepth = 24 := by rw [hcbd]; exact hbd'
  have hok := decodeWaveFile_ok w0 _ 12 36 _ c (by omega) hriff hwave hdata hfmt (by decide)
    (by decide) hc haf hch' hcons hbdc hread (by rw [hlenF]; push_cast; omega)
  refine ⟨_, hok, hcsr, hcbd, ?_, ?_⟩
  · rw [decodedSamples_length, hnc]; simp
  · intro ch hmem
    rw [decodedSamples_channel_length _ _ _ _ _ _ _ ch hmem, hnc, hcbd, hbd]
    rcases hch with h | h <;> rw [h]
    · rw [show Int.tdiv (mulInt ((1 : Nat) : Int) 16) 8 = 2 from by decide,
        tdiv_of_pos _ 2 (by decide)]
      push_cast
      split <;> omega
    · rw [show Int.tdiv (mulInt ((2 : Nat) : Int) 16) 8 = 4 from by decide,
        tdiv_of_pos _ 4 (by decide)]
      push_cast
      split <;> omega

/-- C1, witness: decoding `twoFramesFile`, the stream written for `twoFrames`, reproduces its fields. -/
theorem c1_round_trip_header_fields_witness :
    ∃ w', decodeWaveFile new twoFramesFile = Decoded.ok w'
      ∧ w'.sampleRate = twoFrames.sampleRate ∧ w'.bitDepth = twoFrames.bitDepth
      ∧ w'.samples.length = twoFrames.samples.length ∧ ∀ ch ∈ w'.samples, ch.length = 2 :=
  (c1_round_trip_header_fields twoFrames 2 (by decide) (by decide) (by decide) (by decide)
    (by decide)).2 twoFramesFile (by decide!) (by decide) (by decide) new

end WavFile

namespace WavFile

/-- C15, counterexample: the constructor resizes `samples` to one (empty) channel, so
`getNumChannels` of a default-constructed object is 1, not 0. -/
theorem c15_default_object_has_one_channel :
    new.samples = [[]] ∧ getNumChannels new = 1 ∧ getNumChannels new ≠ 0 := by
  decide

/-- C15, amended: a default-constructed object has bit depth 16, sample rate 44100, one
channel and zero frames: `getNumChannels() = 1` and `getNumSamplesPerChannel() = 0`. -/
theorem c15_default_object :
    getBitDepth new = 16 ∧ getSampleRate new = 44100 ∧ getNumChannels new = 1
      ∧ getNumSamplesPerChannel new = 0 ∧ new.wavFileFormat = WavFileFormat.NotLoaded := by
  decide

/-- The integer rebuilt by the 24-bit branch of the decoder from three bytes: the
two's-complement value of the 24-bit little-endian word. -/
theorem signExtend24_value (b0 b1 b2 : Byte) :
    toInt32 ((if ((b2.val <<< 16) ||| (b1.val <<< 8) ||| b0.val) &&& 0x800000 ≠ 0
      then ((b2.val <<< 16) ||| (b1.val <<< 8) ||| b0.val) ||| 0xFF000000
      else ((b2.val <<< 16) ||| (b1.val <<< 8) ||| b0.val) : Nat) : Int)
      = (if b2.val < 128 then (b0.val + 256 * b1.val + 65536 * b2.val : Int)
          else (b0.val + 256 * b1.val + 65536 * b2.val - 16777216 : Int)) := by
  have h0 := b0.isLt
  have h1 := b1.isLt
  have h2 := b2.isLt
  rw [or_bytes3 b2.val b1.val b0.val h1 h0]
  have hv : b2.val * 65536 + b1.val * 256 + b0.val < 16777216 := by omega
  by_cases hs : b2.val < 128
  · rw [if_neg (fun h => by have := (and_sign24 _ hv).mp h; omega), if_pos hs]
    unfold toInt32
    push_cast
    omega
  · rw [if_pos ((and_sign24 _ hv).mpr (by omega)), or_signext24 _ hv, if_neg hs]
    unfold toInt32
    push_cast
    omega

/-- C18: for every triple of bytes `b0`, `b1`, `b2` the intermediate integer of the 24-bit
branch of the decoder (shifts, ors, sign extension, as `int32_t`) is
`b0 + 256·b1 + 65536·b2` for `b2 < 128` and that value minus 16777216 for `b2 ≥ 128`; it
lies in [-8388608, 8388607], and the sample decoded from the three bytes is that integer
over 8388608. -/
theorem c18_twenty_four_bit_sign_extension (b0 b1 b2 : Byte) :
    toInt32 ((if ((b2.val <<< 16) ||| (b1.val <<< 8) ||| b0.val) &&& 0x800000 ≠ 0
        then ((b2.val <<< 16) ||| (b1.val <<< 8) ||| b0.val) ||| 0xFF000000
        else ((b2.val <<< 16) ||| (b1.val <<< 8) ||| b0.val) : Nat) : Int)
        = (if b2.val < 128 then (b0.val + 256 * b1.val + 65536 * b2.val : Int)
            else (b0.val + 256 * b1.val + 65536 * b2.val - 16777216 : Int))
      ∧ -8388608 ≤ (if b2.val < 128 then (b0.val + 256 * b1.val + 65536 * b2.val : Int)
            else (b0.val + 256 * b1.val + 65536 * b2.val - 16777216 : Int))
      ∧ (if b2.val < 128 then (b0.val + 256 * b1.val + 65536 * b2.val : Int)
            else (b0.val + 256 * b1.val + 65536 * b2.val - 16777216 : Int)) ≤ 8388607
      ∧ twentyFourBitSample [b0, b1, b2] 0
          = some (((if b2.val < 128 then (b0.val + 256 * b1.val + 65536 * b2.val : Int)
            else (b0.val + 256 * b1.val + 65536 * b2.val - 16777216 : Int) : Int) : ℚ)
              / 8388608) := by
  have hb0 := b0.isLt
  have hb1 := b1.isLt
  have hb2 := b2.isLt
  refine ⟨signExtend24_value b0 b1 b2, ?_, ?_, ?_⟩
  · split <;> omega
  · split <;> omega
  · rw [twentyFourBitSample_of_bytes [b0, b1, b2] 0 b0 b1 b2 rfl rfl rfl,
      signExtend24_value b0 b1 b2]

end WavFile

namespace WavFile

/-- The fields of a format chunk that was read are the values of the readers at the
offsets 8, 10, 12, 16, 20 and 22 from the chunk index. -/
theorem readFormatChunk_fields {fileData : List Byte} {f : Int} {c : FormatChunk}
    (h : readFormatChunk fileData f = some c) :
    (∃ id, readString fileData f 4 = some id)
      ∧ twoBytesToInt fileData (addInt f 8) = some c.audioFormat
      ∧ twoBytesToInt fileData (addInt f 10) = some c.numChannels
      ∧ (∃ sr, fourBytesToInt fileData (addInt f 12) = some sr ∧ c.sampleRate = toUInt32 sr)
      ∧ fourBytesToInt fileData (addInt f 16) = some c.numBytesPerSecond
      ∧ twoBytesToInt fileData (addInt f 20) = some c.numBytesPerBlock
      ∧ twoBytesToInt fileData (addInt f 22) = some c.bitDepth := by
  unfold readFormatChunk at h
  simp only [Option.bind_eq_bind, Option.bind_eq_some, Option.pure_def, Option.some.injEq] at h
  obtain ⟨id, hid, af, haf, nc, hnc, sr, hsr, nbps, hnbps, nbpb, hnbpb, bd, hbd, hc⟩ := h
  subst hc
  exact ⟨⟨id, hid⟩, haf, hnc, ⟨sr, hsr, rfl⟩, hnbps, hnbpb, hbd⟩

/-- The decoder after the chunk search and the reads of the format chunk: the members
`sampleRate` and `bitDepth` are assigned and the header checks follow in order. -/
theorem decodeWaveFile_of_chunk (w : WavFile) (fileData : List Byte) (f d : Int)
    (c : FormatChunk)
    (hriff : readString fileData 0 4 = some (stringBytes "RIFF"))
    (hwave : readString fileData 8 4 = some (stringBytes "WAVE"))
    (hdata : getIndexOfString fileData (stringBytes "data") = some d)
    (hfmt : getIndexOfString fileData (stringBytes "fmt") = some f)
    (hd : d ≠ -1) (hf : f ≠ -1) (hc : readFormatChunk fileData f = some c) :
    decodeWaveFile w fileData
      = if c.audioFormat ≠ 1 then
          Decoded.failed LoadError.compressed
            { w with sampleRate := c.sampleRate, bitDepth := c.bitDepth }
        else if c.numChannels < 1 ∨ c.numChannels > 2 then
          Decoded.failed LoadError.notMonoOrStereo
            { w with sampleRate := c.sampleRate, bitDepth := c.bitDepth }
        else if ¬ headerConsistent c then
          Decoded.failed LoadError.inconsistentHeader
            { w with sampleRate := c.sampleRate, bitDepth := c.bitDepth }
        else if c.bitDepth ≠ 8 ∧ c.bitDepth ≠ 16 ∧ c.bitDepth ≠ 24 then
          Decoded.failed LoadError.unsupportedBitDepth
            { w with sampleRate := c.sampleRate, bitDepth := c.bitDepth }
        else decodeData { w with sampleRate := c.sampleRate, bitDepth := c.bitDepth }
          fileData c d := by
  unfold decodeWaveFile
  rw [hriff, hwave, hdata, hfmt]
  simp only
  rw [if_neg (by simp [hd, hf]), hc]

/-- The decoder on a buffer below 2^31 bytes that starts with "RIFF", has "WAVE" at
offset 8, in which the search finds both tags and that holds the 24 bytes of the format
chunk: the format chunk is read and the header checks follow. -/
theorem decodeWaveFile_of_found (w : WavFile) (fileData : List Byte) (f d : Int)
    (hlen : fileData.length < 2147483648)
    (hriff : slice fileData 0 4 = stringBytes "RIFF")
    (hwave : slice fileData 8 4 = stringBytes "WAVE")
    (hfmt : getIndexOfString fileData (stringBytes "fmt") = some f) (hf : f ≠ -1)
    (hdata : getIndexOfString fileData (stringBytes "data") = some d) (hd : d ≠ -1)
    (hchunk : f + 24 ≤ fileData.length) :
    ∃ c, readFormatChunk fileData f = some c
      ∧ f + 8 = addInt f 8 ∧ f + 10 = addInt f 10
      ∧ decodeWaveFile w fileData
        = if c.audioFormat ≠ 1 then
            Decoded.failed LoadError.compressed
              { w with sampleRate := c.sampleRate, bitDepth := c.bitDepth }
          else if c.numChannels < 1 ∨ c.numChannels > 2 then
            Decoded.failed LoadError.notMonoOrStereo
              { w with sampleRate := c.sampleRate, bitDepth := c.bitDepth }
          else if ¬ headerConsistent c then
            Decoded.failed LoadError.inconsistentHeader
              { w with sampleRate := c.sampleRate, bitDepth := c.bitDepth }
          else if c.bitDepth ≠ 8 ∧ c.bitDepth ≠ 16 ∧ c.bitDepth ≠ 24 then
            Decoded.failed LoadError.unsupportedBitDepth
              { w with sampleRate := c.sampleRate, bitDepth := c.bitDepth }
          else decodeData { w with sampleRate := c.sampleRate, bitDepth := c.bitDepth }
            fileData c d := by
  obtain ⟨hf0, _, _⟩ := getIndexOfString_found_bounds hfmt hf hlen
  obtain ⟨c, hc⟩ := readFormatChunk_isSome fileData f hlen hf0 hchunk
  have h4 : 4 ≤ fileData.length := by omega
  have h12 : 12 ≤ fileData.length := by omega
  refine ⟨c, hc, (addInt_of_range (by omega) (by omega)).symm,
    (addInt_of_range (by omega) (by omega)).symm, ?_⟩
  exact decodeWaveFile_of_chunk w fileData f d c
    (by rw [readString_zero fileData 4 h4, hriff])
    (by rw [readString_eight fileData h12, hwave]) hdata hfmt hd hf hc

/-- C12, counterexample: `truncatedCompressedFile` starts with "RIFF", has "WAVE" at
offset 8, holds the tags "fmt" (offset 12) and "data" (offset 16) and the audio-format
value 2 at offset 20; the decoder then reads the channel count at offset 22, past the
end of the 22-byte buffer, instead of reporting the compression error. -/
theorem c12_truncated_compressed_file_read_out_of_bounds :
    truncatedCompressedFile.length = 22
      ∧ slice truncatedCompressedFile 0 4 = stringBytes "RIFF"
      ∧ slice truncatedCompressedFile 8 4 = stringBytes "WAVE"
      ∧ getIndexOfString truncatedCompressedFile (stringBytes "fmt") = some 12
      ∧ getIndexOfString truncatedCompressedFile (stringBytes "data") = some 16
      ∧ twoBytesToInt truncatedCompressedFile (12 + 8) = some 2
      ∧ twoBytesToInt truncatedCompressedFile (12 + 10) = none
      ∧ decodeWaveFile new truncatedCompressedFile = Decoded.fault Fault.outOfBounds := by
  decide

/-- C12, amended: for every buffer below 2^31 bytes that starts with "RIFF", has "WAVE"
at offset 8, in which the chunk search finds "fmt" at `f` and "data", and that holds the
24 bytes of the format chunk from `f` on: if the audio-format value read at `f + 8` is
not 1, decode fails with the compression error, whatever the other header fields are. -/
theorem c12_non_pcm_is_rejected (w : WavFile) (fileData : List Byte) (f d a : Int)
    (hlen : fileData.length < 2147483648)
    (hriff : slice fileData 0 4 = stringBytes "RIFF")
    (hwave : slice fileData 8 4 = stringBytes "WAVE")
    (hfmt : getIndexOfString fileData (stringBytes "fmt") = some f) (hf : f ≠ -1)
    (hdata : getIndexOfString fileData (stringBytes "data") = some d) (hd : d ≠ -1)
    (hchunk : f + 24 ≤ fileData.length)
    (hformat : twoBytesToInt fileData (f + 8) = some a) (ha : a ≠ 1) :
    ∃ w', decodeWaveFile w fileData = Decoded.failed LoadError.compressed w' := by
  obtain ⟨c, hc, h8, _, hdec⟩ :=
    decodeWaveFile_of_found w fileData f d hlen hriff hwave hfmt hf hdata hd hchunk
  have haf := (readFormatChunk_fields hc).2.1
  rw [← h8, hformat] at haf
  have hca : c.audioFormat ≠ 1 := by
    intro h
    rw [h] at haf
    exact ha (Option.some.inj haf)
  rw [if_pos hca] at hdec
  exact ⟨_, hdec⟩

/-- C12, witness: `compressedFile` (audio format 2) is rejected with the compression
error. -/
theorem c12_non_pcm_is_rejected_witness :
    ∃ w', decodeWaveFile new compressedFile = Decoded.failed LoadError.compressed w' :=
  c12_non_pcm_is_rejected new compressedFile 12 36 2 (by decide) (by decide) (by decide)
    (by decide) (by decide) (by decide) (by decide) (by decide) (by decide) (by decide)

/-- C13, counterexample: `truncatedThreeChannelFile` passes the chunk, "RIFF" and "WAVE"
checks, has audio format 1 at offset 20 and the channel count 3 at offset 22; the
decoder then reads the sample rate at offset 24, past the end of the 24-byte buffer,
instead of reporting the channel-layout error. -/
theorem c13_truncated_three_channel_file_read_out_of_bounds :
    truncatedThreeChannelFile.length = 24
      ∧ readString truncatedThreeChannelFile 0 4 = some (stringBytes "RIFF")
      ∧ readString truncatedThreeChannelFile 8 4 = some (stringBytes "WAVE")
      ∧ getIndexOfString truncatedThreeChannelFile (stringBytes "fmt") = some 12
      ∧ getIndexOfString truncatedThreeChannelFile (stringBytes "data") = some 16
      ∧ twoBytesToInt truncatedThreeChannelFile (12 + 8) = some 1
      ∧ twoBytesToInt truncatedThreeChannelFile (12 + 10) = some 3
      ∧ fourBytesToInt truncatedThreeChannelFile (12 + 12) = none
      ∧ decodeWaveFile new truncatedThreeChannelFile = Decoded.fault Fault.outOfBounds := by
  decide

/-- C13, amended: for every buffer below 2^31 bytes that passes the chunk, "RIFF" and
"WAVE" checks (with "fmt" found at `f`), holds the 24 bytes of the format chunk from `f`
on and has the audio-format value 1 at `f + 8`: if the channel count read at `f + 10`
(a signed 16-bit value) is not 1 or 2, decode fails with the channel-layout error,
whatever the other header fields are. -/
theorem c13_channel_count_is_checked (w : WavFile) (fileData : List Byte) (f d n : Int)
    (hlen : fileData.length < 2147483648)
    (hriff : slice fileData 0 4 = stringBytes "RIFF")
    (hwave : slice fileData 8 4 = stringBytes "WAVE")
    (hfmt : getIndexOfString fileData (stringBytes "fmt") = some f) (hf : f ≠ -1)
    (hdata : getIndexOfString fileData (stringBytes "data") = some d) (hd : d ≠ -1)
    (hchunk : f + 24 ≤ fileData.length)
    (hformat : twoBytesToInt fileData (f + 8) = some 1)
    (hchannels : twoBytesToInt fileData (f + 10) = some n) (hn : n ≠ 1 ∧ n ≠ 2) :
    ∃ w', decodeWaveFile w fileData = Decoded.failed LoadError.notMonoOrStereo w' := by
  obtain ⟨c, hc, h8, h10, hdec⟩ :=
    decodeWaveFile_of_found w fileData f d hlen hriff hwave hfmt hf hdata hd hchunk
  have haf := (readFormatChunk_fields hc).2.1
  have hnc := (readFormatChunk_fields hc).2.2.1
  rw [← h8, hformat] at haf
  rw [← h10, hchannels] at hnc
  have hca : c.audioFormat = 1 := (Option.some.inj haf).symm
  have hcn : c.numChannels = n := (Option.some.inj hnc).symm
  rw [if_neg (by simp [hca]), if_pos (by rw [hcn]; omega)] at hdec
  exact ⟨_, hdec⟩

/-- C13, witness: `threeChannelFile` (PCM, three channels) is rejected with the
channel-layout error. -/
theorem c13_channel_count_is_checked_witness :
    ∃ w', decodeWaveFile new threeChannelFile
      = Decoded.failed LoadError.notMonoOrStereo w' :=
  c13_channel_count_is_checked new threeChannelFile 12 36 3 (by decide) (by decide)
    (by decide) (by decide) (by decide) (by decide) (by decide) (by decide) (by decide)
    (by decide) (by decide)

end WavFile

/-- An invariant that every successful step of the body carries on holds after a loop
that returned. -/
theorem forLoop_invariant {σ : Type} (body : Nat → σ → Except Fault σ) (P : Nat → σ → Prop)
    (n : Nat) (s : σ) (h0 : P 0 s)
    (hstep : ∀ i st st', i < n → P i st → body i st = .ok st' → P (i + 1) st')
    (s' : σ) (h : forLoop body 0 n s = .ok s') : P n s' := by
  induction n generalizing s' with
  | zero =>
    simp only [forLoop] at h
    cases h
    exact h0
  | succ n ih =>
    rw [forLoop_succ] at h
    cases h1 : forLoop body 0 n s with
    | error e => rw [h1] at h; cases h
    | ok s1 =>
      rw [h1] at h
      simp only [Nat.zero_add] at h
      exact hstep n s1 s' (by omega)
        (ih (fun i st st' hi => hstep i st st' (by omega)) s1 h1) h

namespace WavFile

/-- When the inner loop of the decoder returns, every channel below the channel count
has received the sample read at its index, and every one of these reads succeeded. -/
theorem decodeFrame_inv (fileData : List Byte)
    (bitDepth numChannels start numBytesPerBlock numBytesPerSample : Int) (i : Nat)
    (st st' : List (List ℚ))
    (h : decodeFrame fileData bitDepth numChannels start numBytesPerBlock numBytesPerSample
      i st = .ok st') :
    (∀ ch, st'[ch]? = (st[ch]?).map (fun l =>
        if ch < numChannels.toNat then
          l ++ [sampleRead fileData bitDepth
            (sampleIndex start numBytesPerBlock numBytesPerSample i ch)]
        else l))
      ∧ ∀ ch, ch < numChannels.toNat →
          decodeSample fileData bitDepth
              (sampleIndex start numBytesPerBlock numBytesPerSample i ch)
            = .ok (sampleRead fileData bitDepth
                (sampleIndex start numBytesPerBlock numBytesPerSample i ch)) := by
  unfold decodeFrame at h
  refine forLoop_invariant _
    (fun m s => (∀ ch, s[ch]? = (st[ch]?).map (fun l =>
        if ch < m then
          l ++ [sampleRead fileData bitDepth
            (sampleIndex start numBytesPerBlock numBytesPerSample i ch)]
        else l))
      ∧ ∀ ch, ch < m →
          decodeSample fileData bitDepth
              (sampleIndex start numBytesPerBlock numBytesPerSample i ch)
            = .ok (sampleRead fileData bitDepth
                (sampleIndex start numBytesPerBlock numBytesPerSample i ch)))
    numChannels.toNat st ⟨fun ch => by simp, fun ch hch => by omega⟩ ?_ st' h
  intro m s s' hm ⟨hP1, hP2⟩ hbody
  simp only at hbody
  have hidx : addInt (addInt start (mulInt numBytesPerBlock i)) (mulInt m numBytesPerSample)
      = sampleIndex start numBytesPerBlock numBytesPerSample i m := rfl
  rw [hidx] at hbody
  cases hs : decodeSample fileData bitDepth
      (sampleIndex start numBytesPerBlock numBytesPerSample i m) with
  | error e => rw [hs] at hbody; cases hbody
  | ok sample =>
    rw [hs] at hbody
    simp only [Except.ok.injEq] at hbody
    have hr : sampleRead fileData bitDepth
        (sampleIndex start numBytesPerBlock numBytesPerSample i m) = sample := by
      unfold sampleRead; rw [hs]
    constructor
    · intro ch
      rw [← hbody, List.getElem?_modify, hP1 ch]
      cases st[ch]? with
      | none => rfl
      | some l =>
        simp only [Option.map_some', Option.map_eq_map]
        by_cases hmc : m = ch
        · subst hmc; simp [hr]
        · by_cases hlt : ch < m
          · simp [hmc, hlt, Nat.lt_succ_of_lt hlt]
          · have : ¬ ch < m + 1 := by omega
            simp [hmc, hlt, this]
    · intro ch hch
      by_cases hmc : ch = m
      · subst hmc; rw [hr]; exact hs
      · exact hP2 ch (by omega)

/-- When the sample loop of the decoder returns, the channels are the sequences of the
samples read at the indices of the loop, and every one of these reads succeeded. -/
theorem decodeFrames_inv (fileData : List Byte)
    (bitDepth numChannels numSamples start numBytesPerBlock numBytesPerSample : Int)
    (samples : List (List ℚ))
    (h : decodeFrames fileData bitDepth numChannels numSamples start numBytesPerBlock
      numBytesPerSample (List.replicate numChannels.toNat []) = .ok samples) :
    samples = (List.range numChannels.toNat).map (fun (ch : Nat) =>
        (List.range numSamples.toNat).map (fun (i : Nat) =>
          sampleRead fileData bitDepth
            (sampleIndex start numBytesPerBlock numBytesPerSample i ch)))
      ∧ ∀ i ch, i < numSamples.toNat → ch < numChannels.toNat →
          decodeSample fileData bitDepth
              (sampleIndex start numBytesPerBlock numBytesPerSample i ch)
            = .ok (sampleRead fileData bitDepth
                (sampleIndex start numBytesPerBlock numBytesPerSample i ch)) := by
  unfold decodeFrames at h
  have key := forLoop_invariant _
    (fun n s => (∀ ch, s[ch]? = ((List.replicate numChannels.toNat ([] : List ℚ))[ch]?).map
        (fun l => if ch < numChannels.toNat then
          l ++ (List.range n).map (fun (i : Nat) => sampleRead fileData bitDepth
            (sampleIndex start numBytesPerBlock numBytesPerSample i ch))
        else l))
      ∧ ∀ i ch, i < n → ch < numChannels.toNat →
          decodeSample fileData bitDepth
              (sampleIndex start numBytesPerBlock numBytesPerSample i ch)
            = .ok (sampleRead fileData bitDepth
                (sampleIndex start numBytesPerBlock numBytesPerSample i ch)))
    numSamples.toNat (List.replicate numChannels.toNat []) ⟨fun ch => by simp,
      fun i ch hi => by omega⟩ ?_ samples h
  · obtain ⟨k1, k2⟩ := key
    refine ⟨?_, k2⟩
    apply List.ext_getElem?
    intro ch
    rw [k1 ch]
    by_cases hc : ch < numChannels.toNat
    · simp [hc, List.getElem?_replicate, List.getElem?_range]
    · rw [List.getElem?_eq_none (by simp; omega), List.getElem?_eq_none (by simp; omega)]
      rfl
  · intro n s s' hn ⟨hP1, hP2⟩ hbody
    obtain ⟨f1, f2⟩ := decodeFrame_inv fileData bitDepth numChannels start numBytesPerBlock
      numBytesPerSample n s s' hbody
    constructor
    · intro ch
      rw [f1 ch, hP1 ch]
      cases (List.replicate numChannels.toNat ([] : List ℚ))[ch]? with
      | none => rfl
      | some l =>
        simp only [Option.map_some']
        by_cases hlt : ch < numChannels.toNat
        · simp [hlt, List.range_succ]
        · simp [hlt]
    · intro i ch hi hch
      by_cases hin : i = n
      · subst hin; exact f2 ch hch
      · exact hP2 i ch (by omega) hch

/-- The steps behind a successful decode: both tags were found, the format chunk was read
and passed the header checks, the data-chunk size was read, and the sample loop built
the channels of the result. -/
theorem decodeWaveFile_ok_inv (w w' : WavFile) (fileData : List Byte)
    (h : decodeWaveFile w fileData = Decoded.ok w') :
    ∃ (f d size : Int) (c : FormatChunk),
      getIndexOfString fileData (stringBytes "fmt") = some f
      ∧ getIndexOfString fileData (stringBytes "data") = some d
      ∧ f ≠ -1 ∧ d ≠ -1
      ∧ readString fileData 0 4 = some (stringBytes "RIFF")
      ∧ readString fileData 8 4 = some (stringBytes "WAVE")
      ∧ readFormatChunk fileData f = some c
      ∧ c.audioFormat = 1 ∧ (c.numChannels = 1 ∨ c.numChannels = 2)
      ∧ headerConsistent c = true
      ∧ (c.bitDepth = 8 ∨ c.bitDepth = 16 ∨ c.bitDepth = 24)
      ∧ (∃ id, readString fileData d 4 = some id)
      ∧ fourBytesToInt fileData (addInt d 4) = some size
      ∧ decodeFrames fileData c.bitDepth c.numChannels
          (Int.tdiv size (Int.tdiv (mulInt c.numChannels c.bitDepth) 8)) (addInt d 8)
          c.numBytesPerBlock (Int.tdiv c.bitDepth 8) (List.replicate c.numChannels.toNat [])
          = .ok w'.samples
      ∧ w'.wavFileFormat = w.wavFileFormat ∧ w'.sampleRate = c.sampleRate
      ∧ w'.bitDepth = c.bitDepth := by
  unfold decodeWaveFile at h
  split at h
  · rename_i hdr fmt d f h1 h2 h3 h4
    split at h
    · exact absurd h (by simp)
    · rename_i hchk
      simp only [not_or, not_not] at hchk
      obtain ⟨hd, hf, hriff, hwave⟩ := hchk
      subst hriff hwave
      split at h
      · exact absurd h (by simp)
      · rename_i c hc
        simp only at h
        split at h
        · exact absurd h (by simp)
        · rename_i haf
          split at h
          · exact absurd h (by simp)
          · rename_i hch
            split at h
            · exact absurd h (by simp)
            · rename_i hcons
              split at h
              · exact absurd h (by simp)
              · rename_i hbd
                rw [decodeData_eq] at h
                simp only at h
                split at h
                · rename_i id size hid hsize
                  split at h
                  · rename_i samples hsamples
                    simp only [Decoded.ok.injEq] at h
                    subst h
                    refine ⟨f, d, size, c, h4, h3, hf, hd, h1, h2, hc, by simpa using haf,
                      by omega, by simpa using hcons, by omega, ⟨id, hid⟩, hsize, ?_,
                      rfl, rfl, rfl⟩
                    exact hsamples
                  · exact absurd h (by simp)
                · exact absurd h (by simp)
  · exact absurd h (by simp)

end WavFile

namespace WavFile

/-- The decoder returns the result of its steps: the converse of `decodeWaveFile_ok_inv`. -/
theorem decodeWaveFile_of_steps (w : WavFile) (fileData : List Byte) (f d size : Int)
    (c : FormatChunk) (id : List Byte) (samples : List (List ℚ))
    (hfmt : getIndexOfString fileData (stringBytes "fmt") = some f)
    (hdata : getIndexOfString fileData (stringBytes "data") = some d)
    (hf : f ≠ -1) (hd : d ≠ -1)
    (hriff : readString fileData 0 4 = some (stringBytes "RIFF"))
    (hwave : readString fileData 8 4 = some (stringBytes "WAVE"))
    (hc : readFormatChunk fileData f = some c)
    (haf : c.audioFormat = 1) (hch : c.numChannels = 1 ∨ c.numChannels = 2)
    (hcons : headerConsistent c = true)
    (hbd : c.bitDepth = 8 ∨ c.bitDepth = 16 ∨ c.bitDepth = 24)
    (hid : readString fileData d 4 = some id)
    (hsize : fourBytesToInt fileData (addInt d 4) = some size)
    (hloop : decodeFrames fileData c.bitDepth c.numChannels
        (Int.tdiv size (Int.tdiv (mulInt c.numChannels c.bitDepth) 8)) (addInt d 8)
        c.numBytesPerBlock (Int.tdiv c.bitDepth 8) (List.replicate c.numChannels.toNat [])
        = .ok samples) :
    decodeWaveFile w fileData
      = Decoded.ok { samples := samples, wavFileFormat := w.wavFileFormat,
                     sampleRate := c.sampleRate, bitDepth := c.bitDepth } := by
  rw [decodeWaveFile_of_chunk w fileData f d c hriff hwave hdata hfmt hd hf hc,
    if_neg (by simp [haf]), if_neg (by omega), if_neg (by simp [hcons]), if_neg (by omega)]
  rw [decodeData_eq]
  simp only [hid, hsize, clearWavBuffer]
  rw [hloop]

/-- The channels built by a sample loop that returned: one per declared channel, each
with one sample per frame. -/
theorem decodeFrames_shape (fileData : List Byte)
    (bitDepth numChannels numSamples start numBytesPerBlock numBytesPerSample : Int)
    (samples : List (List ℚ))
    (h : decodeFrames fileData bitDepth numChannels numSamples start numBytesPerBlock
      numBytesPerSample (List.replicate numChannels.toNat []) = .ok samples) :
    samples.length = numChannels.toNat ∧ ∀ ch ∈ samples, ch.length = numSamples.toNat := by
  obtain ⟨hs, _⟩ := decodeFrames_inv fileData bitDepth numChannels numSamples start
    numBytesPerBlock numBytesPerSample samples h
  rw [hs]
  constructor
  · simp
  · intro ch hch
    rw [List.mem_map] at hch
    obtain ⟨k, _, hk⟩ := hch
    rw [← hk]
    simp

/-- C14: after every successful decode the object has one or two channels (also as
reported by `getNumChannels`), a bit depth of 8, 16 or 24, and channels of one common
length; its samples do not depend on the object decoded into, so that none is left over
from an earlier buffer. -/
theorem c14_state_after_successful_decode (w w' : WavFile) (fileData : List Byte)
    (h : decodeWaveFile w fileData = Decoded.ok w') :
    (w'.samples.length = 1 ∨ w'.samples.length = 2)
      ∧ (getNumChannels w' = 1 ∨ getNumChannels w' = 2)
      ∧ (getBitDepth w' = 8 ∨ getBitDepth w' = 16 ∨ getBitDepth w' = 24)
      ∧ (∃ n : Nat, ∀ ch ∈ w'.samples, ch.length = n)
      ∧ ∀ v : WavFile, ∃ v', decodeWaveFile v fileData = Decoded.ok v'
          ∧ v'.samples = w'.samples ∧ v'.sampleRate = w'.sampleRate
          ∧ v'.bitDepth = w'.bitDepth := by
  obtain ⟨f, d, size, c, hfmt, hdata, hf, hd, hriff, hwave, hc, haf, hch, hcons, hbd,
    ⟨id, hid⟩, hsize, hloop, _, hsr, hbits⟩ := decodeWaveFile_ok_inv w w' fileData h
  obtain ⟨hlen, hshape⟩ := decodeFrames_shape _ _ _ _ _ _ _ _ hloop
  have hl : w'.samples.length = 1 ∨ w'.samples.length = 2 := by
    rw [hlen]
    rcases hch with h1 | h1 <;> rw [h1]
    · left; rfl
    · right; rfl
  refine ⟨hl, ?_, ?_, ⟨_, hshape⟩, ?_⟩
  · unfold getNumChannels
    rcases hl with h1 | h1 <;> rw [h1]
    · left; rfl
    · right; rfl
  · unfold getBitDepth
    rw [hbits]
    exact hbd
  · intro v
    exact ⟨_, decodeWaveFile_of_steps v fileData f d size c id w'.samples hfmt hdata hf hd
      hriff hwave hc haf hch hcons hbd hid hsize hloop, rfl, hsr.symm, hbits.symm⟩

/-- C14, witness: decoding `stereoFile` into an object that holds two channels of an
earlier load (the samples 9, 9, 9 and 7) gives two channels of two samples at 8 bits,
with none of the earlier samples. -/
theorem c14_state_after_successful_decode_witness :
    decodeWaveFile loadedBefore stereoFile = Decoded.ok stereoDecoded
      ∧ stereoDecoded.samples = [[0, -1], [127 / 128, -1 / 2]]
      ∧ (stereoDecoded.samples.length = 1 ∨ stereoDecoded.samples.length = 2)
      ∧ (getNumChannels stereoDecoded = 1 ∨ getNumChannels stereoDecoded = 2)
      ∧ (getBitDepth stereoDecoded = 8 ∨ getBitDepth stereoDecoded = 16
          ∨ getBitDepth stereoDecoded = 24)
      ∧ (∃ n : Nat, ∀ ch ∈ stereoDecoded.samples, ch.length = n)
      ∧ ∀ v : WavFile, ∃ v', decodeWaveFile v stereoFile = Decoded.ok v'
          ∧ v'.samples = stereoDecoded.samples ∧ v'.sampleRate = stereoDecoded.sampleRate
          ∧ v'.bitDepth = stereoDecoded.bitDepth :=
  ⟨by decide!, rfl,
    c14_state_after_successful_decode loadedBefore stereoDecoded stereoFile (by decide!)⟩

/-- A sample that the decoder read lies between -1 and 1. -/
theorem decodeSample_range {fileData : List Byte} {bitDepth idx : Int} {v : ℚ}
    (h : decodeSample fileData bitDepth idx = .ok v) : -1 ≤ v ∧ v ≤ 1 := by
  unfold decodeSample at h
  split at h
  · split at h
    · rename_i b hb
      simp only [Except.ok.injEq] at h
      subst h
      unfold singleByteToSample
      have hlt := b.isLt
      have h1 : (-128 : ℚ) ≤ (((b.val : Int) - 128 : Int) : ℚ) := by
        have : (-128 : Int) ≤ (b.val : Int) - 128 := by omega
        exact_mod_cast this
      have h2 : (((b.val : Int) - 128 : Int) : ℚ) ≤ 128 := by
        have : (b.val : Int) - 128 ≤ 128 := by omega
        exact_mod_cast this
      constructor
      · rw [le_div_iff₀ (by norm_num)]; linarith
      · rw [div_le_iff₀ (by norm_num)]; linarith
    · cases h
  · split at h
    · split at h
      · rename_i x hx
        simp only [Except.ok.injEq] at h
        subst h
        obtain ⟨b1, b2⟩ := twoBytesToInt_bounds hx
        unfold sixteenBitIntToSample
        have h1 : (-32768 : ℚ) ≤ (x : ℚ) := by exact_mod_cast b1
        have h2 : (x : ℚ) ≤ 32768 := by
          have : x ≤ 32768 := by omega
          exact_mod_cast this
        constructor
        · rw [le_div_iff₀ (by norm_num)]; linarith
        · rw [div_le_iff₀ (by norm_num)]; linarith
      · cases h
    · split at h
      · split at h
        · rename_i s hs
          simp only [Except.ok.injEq] at h
          subst h
          have hs' := hs
          unfold twentyFourBitSample at hs'
          simp only [Option.bind_eq_bind, Option.bind_eq_some, Option.pure_def] at hs'
          obtain ⟨s2, h2, s1, h1, s0, h0, _⟩ := hs'
          rw [twentyFourBitSample_of_bytes fileData idx s0 s1 s2 h2 h1 h0,
            signExtend24_value s0 s1 s2] at hs
          have hv := Option.some.inj hs
          rw [← hv]
          have hb0 := s0.isLt
          have hb1 := s1.isLt
          have hb2 := s2.isLt
          have e1 : (-8388608 : Int) ≤ (if s2.val < 128
              then (s0.val + 256 * s1.val + 65536 * s2.val : Int)
              else (s0.val + 256 * s1.val + 65536 * s2.val - 16777216 : Int)) := by
            split <;> omega
          have e2 : (if s2.val < 128
              then (s0.val + 256 * s1.val + 65536 * s2.val : Int)
              else (s0.val + 256 * s1.val + 65536 * s2.val - 16777216 : Int)) ≤ 8388608 := by
            split <;> omega
          have q1 : (-8388608 : ℚ) ≤ (((if s2.val < 128
              then (s0.val + 256 * s1.val + 65536 * s2.val : Int)
              else (s0.val + 256 * s1.val + 65536 * s2.val - 16777216 : Int)) : Int) : ℚ) := by
            exact_mod_cast e1
          have q2 : (((if s2.val < 128
              then (s0.val + 256 * s1.val + 65536 * s2.val : Int)
              else (s0.val + 256 * s1.val + 65536 * s2.val - 16777216 : Int)) : Int) : ℚ)
                ≤ 8388608 := by
            exact_mod_cast e2
          constructor
          · rw [le_div_iff₀ (by norm_num)]; linarith
          · rw [div_le_iff₀ (by norm_num)]; linarith
        · cases h
      · cases h

/-- C19: after every successful decode every sample of every channel lies in [-1, 1]. -/
theorem c19_decoded_samples_in_unit_range (w w' : WavFile) (fileData : List Byte)
    (h : decodeWaveFile w fileData = Decoded.ok w') :
    ∀ ch ∈ w'.samples, ∀ s ∈ ch, -1 ≤ s ∧ s ≤ 1 := by
  obtain ⟨f, d, size, c, _, _, _, _, _, _, _, _, _, _, _, _, _, hloop, _⟩ :=
    decodeWaveFile_ok_inv w w' fileData h
  obtain ⟨hs, hreads⟩ := decodeFrames_inv _ _ _ _ _ _ _ _ hloop
  intro ch hch s hsmem
  rw [hs, List.mem_map] at hch
  obtain ⟨k, hk, hke⟩ := hch
  rw [← hke, List.mem_map] at hsmem
  obtain ⟨i, hi, hie⟩ := hsmem
  rw [List.mem_range] at hk hi
  rw [← hie]
  exact decodeSample_range (hreads i k hi hk)

/-- C19, witness: the samples decoded from `stereoFile` lie in [-1, 1]. -/
theorem c19_decoded_samples_in_unit_range_witness :
    decodeWaveFile new stereoFile = Decoded.ok stereoDecoded
      ∧ ∀ ch ∈ stereoDecoded.samples, ∀ s ∈ ch, -1 ≤ s ∧ s ≤ 1 :=
  ⟨by decide!, c19_decoded_samples_in_unit_range new stereoDecoded stereoFile (by decide!)⟩

end WavFile

namespace WavFile

theorem slice_eq_of_getElem? (l : List Byte) (i k : Nat) (xs : List Byte)
    (hk : xs.length = k) (h : ∀ j, j < k → l[i + j]? = xs[j]?) : slice l i k = xs := by
  apply List.ext_getElem?
  intro j
  by_cases hj : j < k
  · rw [getElem?_slice l i k j hj, h j hj]
  · have h1 : (slice l i k).length ≤ k := by
      unfold slice; exact List.length_take_le _ _
    rw [List.getElem?_eq_none (by omega), List.getElem?_eq_none (by omega)]

/-- A byte that was read stands at a non-negative index inside the buffer. -/
theorem byteAt_some {source : List Byte} {i : Int} {b : Byte} (h : byteAt source i = some b) :
    0 ≤ i ∧ i < source.length ∧ source[i.toNat]? = some b := by
  unfold byteAt at h
  split at h
  · rename_i h0
    refine ⟨h0, ?_, h⟩
    have := (List.getElem?_eq_some_iff.mp h).1
    omega
  · cases h

/-- A byte read at `i + k` in `int` arithmetic, for an `int` value `i ≥ 0` and a small
`k`: the sum did not wrap around. -/
theorem byteAt_add_some {source : List Byte} {i k : Int} {b : Byte}
    (h : byteAt source (addInt i k) = some b) (h0 : 0 ≤ i) (h1 : i < 2147483648)
    (hk0 : 0 ≤ k) (hk1 : k < 2147483648) :
    addInt i k = i + k ∧ i + k < source.length
      ∧ ∀ n : Nat, k = n → source[i.toNat + n]? = some b := by
  obtain ⟨g0, g1, g2⟩ := byteAt_some h
  have e : addInt i k = i + k := by
    unfold addInt toInt32 at g0 ⊢; omega
  rw [e] at g1 g2
  refine ⟨e, g1, ?_⟩
  intro n hn
  have : (i + k).toNat = i.toNat + n := by omega
  rw [← this]; exact g2

/-- A two-byte read that succeeded at an `int` index: the index and the next one lie in
the buffer and the value is the little-endian value of the two bytes as `int16_t`. -/
theorem twoBytesToInt_some {source : List Byte} {i v : Int}
    (h : twoBytesToInt source i = some v) (h1 : i < 2147483648) :
    0 ≤ i ∧ i + 2 ≤ source.length
      ∧ v = toInt16 (unsignedLE (slice source i.toNat 2))
      ∧ twoBytesToInt (slice source i.toNat 2) 0 = some v := by
  unfold twoBytesToInt at h
  simp only [Option.bind_eq_bind, Option.bind_eq_some, Option.pure_def, Option.some.injEq] at h
  obtain ⟨s1, hs1, s0, hs0, hv⟩ := h
  obtain ⟨g0, _, g2⟩ := byteAt_some hs0
  obtain ⟨_, f1, f2⟩ := byteAt_add_some hs1 g0 h1 (by decide) (by decide)
  have hsl : slice source i.toNat 2 = [s0, s1] := by
    refine slice_eq_of_getElem? source i.toNat 2 [s0, s1] rfl ?_
    intro j hj
    interval_cases j
    · exact g2
    · exact f2 1 rfl
  refine ⟨g0, by omega, ?_, ?_⟩
  · have hu : unsignedLE [s0, s1] = s1.val * 256 + s0.val := by
      simp only [unsignedLE, List.foldr]
      ring
    rw [hsl, ← hv, or_bytes2 s1.val s0.val s0.isLt, hu]
  · rw [hsl, ← hv]
    rfl

/-- A four-byte read that succeeded at an `int` index: the four indices lie in the buffer
and the value is the little-endian value of the four bytes as `int32_t`. -/
theorem fourBytesToInt_some {source : List Byte} {i v : Int}
    (h : fourBytesToInt source i = some v) (h1 : i < 2147483648) :
    0 ≤ i ∧ i + 4 ≤ source.length
      ∧ v = toInt32 (unsignedLE (slice source i.toNat 4))
      ∧ unsignedLE (slice source i.toNat 4) < 4294967296 := by
  unfold fourBytesToInt at h
  simp only [Option.bind_eq_bind, Option.bind_eq_some, Option.pure_def, Option.some.injEq] at h
  obtain ⟨s3, hs3, s2, hs2, s1, hs1, s0, hs0, hv⟩ := h
  obtain ⟨g0, _, g2⟩ := byteAt_some hs0
  obtain ⟨_, _, f1⟩ := byteAt_add_some hs1 g0 h1 (by decide) (by decide)
  obtain ⟨_, _, f2⟩ := byteAt_add_some hs2 g0 h1 (by decide) (by decide)
  obtain ⟨_, e3, f3⟩ := byteAt_add_some hs3 g0 h1 (by decide) (by decide)
  have hsl : slice source i.toNat 4 = [s0, s1, s2, s3] := by
    refine slice_eq_of_getElem? source i.toNat 4 [s0, s1, s2, s3] rfl ?_
    intro j hj
    interval_cases j
    · exact g2
    · exact f1 1 rfl
    · exact f2 2 rfl
    · exact f3 3 rfl
  have hu : unsignedLE [s0, s1, s2, s3]
      = s3.val * 16777216 + s2.val * 65536 + s1.val * 256 + s0.val := by
    simp only [unsignedLE, List.foldr]
    ring
  have b0 := s0.isLt
  have b1 := s1.isLt
  have b2 := s2.isLt
  have b3 := s3.isLt
  refine ⟨g0, by omega, ?_, ?_⟩
  · rw [hsl, ← hv, hu, or_bytes4 s3.val s2.val s1.val s0.val b2 b1 b0]
  · rw [hsl, hu]; omega

/-- A sample that was read at an `int` index: the bytes of the sample lie in the buffer,
and the sample is the one that the converter gives on these bytes alone. -/
theorem decodeSample_some {fileData : List Byte} {bitDepth idx : Int} {v : ℚ}
    (h : decodeSample fileData bitDepth idx = .ok v) (h1 : idx < 2147483648) :
    0 ≤ idx ∧ idx + Int.tdiv bitDepth 8 ≤ fileData.length
      ∧ decodeSample (slice fileData idx.toNat (Int.tdiv bitDepth 8).toNat) bitDepth 0
          = .ok v := by
  unfold decodeSample at h
  split at h
  · rename_i hbd
    subst hbd
    split at h
    · rename_i b hb
      obtain ⟨g0, g1, g2⟩ := byteAt_some hb
      have hsl : slice fileData idx.toNat 1 = [b] := by
        refine slice_eq_of_getElem? fileData idx.toNat 1 [b] rfl ?_
        intro j hj
        interval_cases j
        exact g2
      have e8 : Int.tdiv 8 8 = 1 := by decide
      rw [e8]
      refine ⟨g0, by omega, ?_⟩
      show decodeSample (slice fileData idx.toNat 1) 8 0 = .ok v
      rw [hsl, ← h]
      rfl
    · cases h
  · split at h
    · rename_i hbd
      subst hbd
      split at h
      · rename_i x hx
        obtain ⟨g0, g1, _, g3⟩ := twoBytesToInt_some hx h1
        have e16 : Int.tdiv 16 8 = 2 := by decide
        rw [e16]
        refine ⟨g0, g1, ?_⟩
        show decodeSample (slice fileData idx.toNat 2) 16 0 = .ok v
        unfold decodeSample
        rw [if_neg (by decide), if_pos rfl, g3]
        exact h
      · cases h
    · split at h
      · rename_i hbd
        subst hbd
        split at h
        · rename_i s hs
          have hs' := hs
          unfold twentyFourBitSample at hs'
          simp only [Option.bind_eq_bind, Option.bind_eq_some, Option.pure_def] at hs'
          obtain ⟨s2, h2, s1, hb1, s0, h0, _⟩ := hs'
          obtain ⟨g0, _, g2⟩ := byteAt_some h0
          obtain ⟨_, _, f1⟩ := byteAt_add_some hb1 g0 h1 (by decide) (by decide)
          obtain ⟨_, e2, f2⟩ := byteAt_add_some h2 g0 h1 (by decide) (by decide)
          have hsl : slice fileData idx.toNat 3 = [s0, s1, s2] := by
            refine slice_eq_of_getElem? fileData idx.toNat 3 [s0, s1, s2] rfl ?_
            intro j hj
            interval_cases j
            · exact g2
            · exact f1 1 rfl
            · exact f2 2 rfl
          have e24 : Int.tdiv 24 8 = 3 := by decide
          rw [e24]
          refine ⟨g0, by omega, ?_⟩
          show decodeSample (slice fileData idx.toNat 3) 24 0 = .ok v
          unfold decodeSample
          rw [if_neg (by decide), if_neg (by decide), if_pos rfl, hsl,
            twentyFourBitSample_of_bytes [s0, s1, s2] 0 s0 s1 s2 rfl rfl rfl]
          rw [twentyFourBitSample_of_bytes fileData idx s0 s1 s2 h2 hb1 h0] at hs
          simp only at h ⊢
          rw [← h, ← Option.some.inj hs]
        · cases h
      · cases h

end WavFile

namespace WavFile

theorem getIndexOfString_range {source s : List Byte} {r : Int}
    (h : getIndexOfString source s = some r) : -2147483648 ≤ r ∧ r < 2147483648 := by
  rcases (getIndexOfString_eq_some h).2 with ⟨h1, _⟩ | ⟨i, h1, _⟩
  · rw [h1]; decide
  · rw [h1]; exact toInt32_bounds _

theorem readString_some {source : List Byte} {start : Int} {len : Nat} {x : List Byte}
    (h : readString source start len = some x) :
    0 ≤ start ∧ start + len ≤ source.length := by
  unfold readString at h
  split at h
  · assumption
  · cases h

/-- A two-byte read that succeeded at `f + k` in `int` arithmetic, for an `int` value
`f ≥ 0` and a small `k`: the sum did not wrap around and the two bytes lie in the
buffer. -/
theorem twoBytesToInt_add_some {source : List Byte} {f k v : Int}
    (h : twoBytesToInt source (addInt f k) = some v) (h0 : 0 ≤ f) (h1 : f < 2147483648)
    (hk0 : 0 ≤ k) (hk1 : k < 2147483648) :
    addInt f k = f + k ∧ f + k + 2 ≤ source.length
      ∧ v = toInt16 (unsignedLE (slice source (f + k).toNat 2)) := by
  obtain ⟨g0, g1, g2, _⟩ := twoBytesToInt_some h (toInt32_bounds _).2
  have e : addInt f k = f + k := by
    unfold addInt toInt32 at g0 ⊢; omega
  rw [e] at g1 g2
  exact ⟨e, g1, g2⟩

/-- A four-byte read that succeeded at `f + k` in `int` arithmetic, for an `int` value
`f ≥ 0` and a small `k`: the sum did not wrap around and the four bytes lie in the
buffer. -/
theorem fourBytesToInt_add_some {source : List Byte} {f k v : Int}
    (h : fourBytesToInt source (addInt f k) = some v) (h0 : 0 ≤ f) (h1 : f < 2147483648)
    (hk0 : 0 ≤ k) (hk1 : k < 2147483648) :
    addInt f k = f + k ∧ f + k + 4 ≤ source.length
      ∧ v = toInt32 (unsignedLE (slice source (f + k).toNat 4))
      ∧ unsignedLE (slice source (f + k).toNat 4) < 4294967296 := by
  obtain ⟨g0, g1, g2, g3⟩ := fourBytesToInt_some h (toInt32_bounds _).2
  have e : addInt f k = f + k := by
    unfold addInt toInt32 at g0 ⊢; omega
  rw [e] at g1 g2 g3
  exact ⟨e, g1, g2, g3⟩

/-- The sample index of the loop is the exact sum whenever the indices of channel 0 of
frame 0, of channel 0 of the frame and of the channel itself are non-negative: none of
the `int` operations wrapped around. -/
theorem sampleIndex_of_reads (bitDepth numChannels start : Int) (n i ch : Nat)
    (hbd : bitDepth = 8 ∨ bitDepth = 16 ∨ bitDepth = 24)
    (hch : numChannels = 1 ∨ numChannels = 2)
    (hs0 : -2147483648 ≤ start) (hs1 : start < 2147483648)
    (hfit : numChannels * Int.tdiv bitDepth 8 * n < 2147483648)
    (hi : i < n) (hc : ch < numChannels.toNat)
    (h00 : 0 ≤ sampleIndex start (numChannels * Int.tdiv bitDepth 8) (Int.tdiv bitDepth 8) 0 0)
    (hi0 : 0 ≤ sampleIndex start (numChannels * Int.tdiv bitDepth 8) (Int.tdiv bitDepth 8) i 0)
    (hic : 0 ≤ sampleIndex start (numChannels * Int.tdiv bitDepth 8) (Int.tdiv bitDepth 8) i ch) :
    sampleIndex start (numChannels * Int.tdiv bitDepth 8) (Int.tdiv bitDepth 8) i ch
        = start + numChannels * Int.tdiv bitDepth 8 * i + ch * Int.tdiv bitDepth 8
      ∧ 0 ≤ start := by
  have h8 : Int.tdiv 8 8 = 1 := by decide
  have h16 : Int.tdiv 16 8 = 2 := by decide
  have h24 : Int.tdiv 24 8 = 3 := by decide
  unfold sampleIndex addInt mulInt toInt32 at *
  rcases hch with h | h <;> rcases hbd with hb | hb | hb <;> subst h <;> subst hb <;>
    simp only [h8, h16, h24] at hfit h00 hi0 hic ⊢ <;> simp at hc h00 <;> omega

end WavFile

namespace WavFile

/-- The frames counted by the decoder, in terms of the exact product of the channel count
and the bit depth. -/
theorem mulInt_channels_depth (bitDepth numChannels : Int)
    (hbd : bitDepth = 8 ∨ bitDepth = 16 ∨ bitDepth = 24)
    (hch : numChannels = 1 ∨ numChannels = 2) :
    mulInt numChannels bitDepth = numChannels * bitDepth := by
  apply mulInt_of_range <;>
    rcases hch with h | h <;> rcases hbd with hb | hb | hb <;> rw [h, hb] <;> decide

/-- The frames counted by the decoder for a data-chunk size of type `int32_t` are fewer
than 2^31, and their bytes are no more than the size. -/
theorem numSamples_lt (bitDepth numChannels size : Int)
    (hbd : bitDepth = 8 ∨ bitDepth = 16 ∨ bitDepth = 24)
    (hch : numChannels = 1 ∨ numChannels = 2) (hsize : size < 2147483648) :
    ((Int.tdiv size (Int.tdiv (numChannels * bitDepth) 8)).toNat : Int) < 2147483648
      ∧ numChannels * Int.tdiv bitDepth 8
          * (Int.tdiv size (Int.tdiv (numChannels * bitDepth) 8)).toNat < 2147483648 := by
  have hfit := numSamples_fit bitDepth numChannels size hbd hch
  rw [mulInt_channels_depth bitDepth numChannels hbd hch] at hfit
  generalize (Int.tdiv size (Int.tdiv (numChannels * bitDepth) 8)).toNat = n at hfit ⊢
  rcases hch with h | h <;> rcases hbd with hb | hb | hb <;> rw [h, hb] at hfit ⊢ <;>
    simp only [show Int.tdiv 8 8 = 1 from by decide, show Int.tdiv 16 8 = 2 from by decide,
      show Int.tdiv 24 8 = 3 from by decide] at hfit ⊢
  all_goals (constructor <;> omega)

theorem toUInt32_toInt32_of_lt (x : Nat) (h : x < 4294967296) :
    toUInt32 (toInt32 x) = x := by
  unfold toUInt32 toInt32
  omega

theorem toInt32_natCast_of_lt (n : Nat) (h : (n : Int) < 2147483648) : toInt32 n = n :=
  toInt32_of_range (by omega) h

/-- The samples of the loop's closed form, read through `sampleAt`. -/
theorem sampleAt_of_map (w : WavFile) (C n : Nat) (v : Nat → Nat → ℚ)
    (h : w.samples = (List.range C).map (fun (ch : Nat) =>
      (List.range n).map (fun (i : Nat) => v i ch)))
    (c i : Nat) (hc : c < C) (hi : i < n) : sampleAt w c i = some (v i c) := by
  unfold sampleAt
  rw [h]
  simp [List.getElem?_range, hc, hi]

theorem toNat_cast_add (f k : Nat) : ((f : Int) + (k : Int)).toNat = f + k := by
  omega

theorem offset_le_of_sum (f n : Nat) (a b : Int) (k : Nat) (hk : a + b = k)
    (h : (f : Int) + a + b ≤ (n : Int)) : f + k ≤ n := by
  omega

/-- The layout behind a successful decode, with `f` and `d` the offsets that the chunk
search returned for "fmt" and "data": the header fields are the little-endian values at
`f + 10`, `f + 12`, `f + 20` and `f + 22`, the frame count is the quotient of the signed
data-chunk size at `d + 4`, and every sample is the decoding of the bytes at its offset
from `d + 8`, which lie in the buffer. -/
theorem decodeWaveFile_layout (w w' : WavFile) (fileData : List Byte)
    (f d : Nat) (hok : decodeWaveFile w fileData = Decoded.ok w')
    (hfmt : getIndexOfString fileData (stringBytes "fmt") = some (f : Int))
    (hdata : getIndexOfString fileData (stringBytes "data") = some (d : Int)) :
    ∃ (channelCount depth blockSize dataChunkSize : Int) (frameCount : Nat),
      (f + 24 ≤ fileData.length ∧ d + 8 ≤ fileData.length)
      ∧ channelCount = toInt16 (unsignedLE (slice fileData (f + 10) 2))
      ∧ depth = toInt16 (unsignedLE (slice fileData (f + 22) 2))
      ∧ blockSize = toInt16 (unsignedLE (slice fileData (f + 20) 2))
      ∧ dataChunkSize = toInt32 (unsignedLE (slice fileData (d + 4) 4))
      ∧ getNumChannels w' = channelCount ∧ (w'.samples.length : Int) = channelCount
      ∧ getSampleRate w' = unsignedLE (slice fileData (f + 12) 4)
      ∧ getBitDepth w' = depth
      ∧ blockSize = channelCount * Int.tdiv depth 8
      ∧ frameCount = (Int.tdiv dataChunkSize (Int.tdiv (channelCount * depth) 8)).toNat
      ∧ (0 ≤ dataChunkSize →
          (frameCount : Int) = Int.tdiv dataChunkSize (Int.tdiv (channelCount * depth) 8))
      ∧ (∀ ch ∈ w'.samples, ch.length = frameCount)
      ∧ getNumSamplesPerChannel w' = frameCount
      ∧ ∀ (c i : Nat), c < w'.samples.length → i < frameCount →
          d + 8 + i * blockSize + c * Int.tdiv depth 8 + Int.tdiv depth 8 ≤ fileData.length
          ∧ ∃ s, sampleAt w' c i = some s
            ∧ decodeSample
                (slice fileData (d + 8 + i * blockSize + c * Int.tdiv depth 8).toNat
                  (Int.tdiv depth 8).toNat) depth 0 = .ok s := by
  obtain ⟨f', d', size, c, hfmt', hdata', hf, hd, hriff, hwave, hc, haf, hch, hcons, hbd,
    ⟨id, hid⟩, hsize, hloop, _, hsr, hbits⟩ := decodeWaveFile_ok_inv w w' fileData hok
  rw [hfmt] at hfmt'
  rw [hdata] at hdata'
  cases Option.some.inj hfmt'
  cases Option.some.inj hdata'
  obtain ⟨_, hf1⟩ := getIndexOfString_range hfmt
  obtain ⟨_, hd1⟩ := getIndexOfString_range hdata
  have t10 : ((f : Int) + 10).toNat = f + 10 := toNat_cast_add f 10
  have t12 : ((f : Int) + 12).toNat = f + 12 := toNat_cast_add f 12
  have t20 : ((f : Int) + 20).toNat = f + 20 := toNat_cast_add f 20
  have t22 : ((f : Int) + 22).toNat = f + 22 := toNat_cast_add f 22
  have t4 : ((d : Int) + 4).toNat = d + 4 := toNat_cast_add d 4
  obtain ⟨⟨fid, hfid⟩, _, hnc, ⟨sr, hsrd, hsre⟩, _, hbpb, hdepth⟩ := readFormatChunk_fields hc
  obtain ⟨hf0, _⟩ := readString_some hfid
  obtain ⟨hd0, _⟩ := readString_some hid
  obtain ⟨_, _, enc⟩ := twoBytesToInt_add_some hnc hf0 hf1 (by decide) (by decide)
  obtain ⟨_, _, ebpb⟩ := twoBytesToInt_add_some hbpb hf0 hf1 (by decide) (by decide)
  obtain ⟨_, hf24, ebd⟩ := twoBytesToInt_add_some hdepth hf0 hf1 (by decide) (by decide)
  obtain ⟨_, _, esr, esr1⟩ := fourBytesToInt_add_some hsrd hf0 hf1 (by decide) (by decide)
  obtain ⟨_, hd8, esize, _⟩ := fourBytesToInt_add_some hsize hd0 hd1 (by decide) (by decide)
  rw [t10] at enc
  rw [t20] at ebpb
  rw [t22] at ebd
  rw [t12] at esr esr1
  rw [t4] at esize
  clear t10 t12 t20 t22 t4
  have hblock := headerConsistent_block c hch hbd hcons
  have hprod := mulInt_channels_depth c.bitDepth c.numChannels hbd hch
  obtain ⟨hsamples, hreads⟩ := decodeFrames_inv _ _ _ _ _ _ _ _ hloop
  obtain ⟨hlen, hshape⟩ := decodeFrames_shape _ _ _ _ _ _ _ _ hloop
  have hsize1 : size < 2147483648 := by rw [esize]; exact (toInt32_bounds _).2
  obtain ⟨hn, hfit⟩ := numSamples_lt c.bitDepth c.numChannels size hbd hch hsize1
  have hC : (w'.samples.length : Int) = c.numChannels := by
    rw [hlen]
    clear * - hch
    omega
  have hCpos : 0 < c.numChannels.toNat := by
    clear * - hch
    omega
  rw [hprod] at hshape hsamples hreads
  refine ⟨c.numChannels, c.bitDepth, c.numBytesPerBlock, size,
    (Int.tdiv size (Int.tdiv (c.numChannels * c.bitDepth) 8)).toNat,
    ⟨offset_le_of_sum f _ 22 2 24 (by decide) hf24,
      offset_le_of_sum d _ 4 4 8 (by decide) hd8⟩, enc, ebd, ebpb, esize, ?_, hC, ?_, hbits, hblock, rfl,
    ?_, hshape, ?_, ?_⟩
  · unfold getNumChannels
    rw [hC]
    rcases hch with h | h <;> rw [h] <;> rfl
  · unfold getSampleRate
    rw [hsr, hsre, esr]
    exact toUInt32_toInt32_of_lt _ esr1
  · intro h0
    have : 0 ≤ Int.tdiv size (Int.tdiv (c.numChannels * c.bitDepth) 8) := by
      apply Int.tdiv_nonneg h0
      rcases hch with h | h <;> rcases hbd with hb | hb | hb <;> rw [h, hb] <;> decide
    exact Int.toNat_of_nonneg this
  · unfold getNumSamplesPerChannel
    cases hs : w'.samples with
    | nil => rw [hs] at hlen; simp at hlen; omega
    | cons c0 rest =>
      simp only
      rw [hshape c0 (by rw [hs]; exact List.mem_cons_self _ _)]
      exact toInt32_natCast_of_lt _ hn
  · intro k i hk hi
    have hkC : k < c.numChannels.toNat := by
      clear * - hk hC
      omega
    have hn0 : 0 < (Int.tdiv size (Int.tdiv (c.numChannels * c.bitDepth) 8)).toNat := by
      clear * - hi
      omega
    rw [hblock] at hreads hsamples
    have r00 := decodeSample_some (hreads 0 0 hn0 hCpos) (toInt32_bounds _).2
    have ri0 := decodeSample_some (hreads i 0 hi hCpos) (toInt32_bounds _).2
    have ric := decodeSample_some (hreads i k hi hkC) (toInt32_bounds _).2
    obtain ⟨eidx, hstart⟩ := sampleIndex_of_reads c.bitDepth c.numChannels (addInt d 8)
      (Int.tdiv size (Int.tdiv (c.numChannels * c.bitDepth) 8)).toNat i k hbd hch
      (toInt32_bounds _).1 (toInt32_bounds _).2 hfit hi hkC r00.1 ri0.1 ric.1
    have estart : addInt d 8 = d + 8 := by
      clear * - hstart hd1
      unfold addInt toInt32 at hstart ⊢
      omega
    have eoff : d + 8 + (i : Int) * c.numBytesPerBlock + (k : Int) * Int.tdiv c.bitDepth 8
        = sampleIndex (addInt d 8) (c.numChannels * Int.tdiv c.bitDepth 8)
            (Int.tdiv c.bitDepth 8) i k := by
      rw [eidx, estart, hblock]; ring
    rw [eoff]
    exact ⟨ric.2.1, _, sampleAt_of_map w' _ _ _ hsamples k i hkC hi, ric.2.2⟩

end WavFile

/-- A loop whose body takes each state of a sequence to the next one ends in the last
state of the sequence. -/
theorem forLoop_chain {σ : Type} (body : Nat → σ → Except Fault σ) (f : Nat → σ) (n : Nat)
    (h : ∀ m, m < n → body m (f m) = .ok (f (m + 1))) :
    forLoop body 0 n (f 0) = .ok (f n) := by
  induction n with
  | zero => rfl
  | succ n ih =>
    rw [forLoop_succ, ih (fun m hm => h m (by omega))]
    simp only [Nat.zero_add]
    exact h n (by omega)

/-- A counted loop of `a + b` iterations is the loop of the first `a` followed by the
loop of the remaining `b`. -/
theorem forLoop_add {σ : Type} (body : Nat → σ → Except Fault σ) (i a b : Nat) (s : σ) :
    forLoop body i (a + b) s
      = match forLoop body i a s with
        | .ok s' => forLoop body (i + a) b s'
        | .error e => .error e := by
  induction a generalizing i s with
  | zero => simp [forLoop]
  | succ a ih =>
    have e : a + 1 + b = (a + b) + 1 := by omega
    rw [e, forLoop, forLoop]
    cases body i s with
    | error e => rfl
    | ok s' =>
      simp only
      rw [ih (i + 1) s']
      have e2 : i + 1 + a = i + (a + 1) := by omega
      rw [e2]

/-- A loop whose body takes each state of a sequence to the next one and faults at state
`n`, before the bound of the loop, faults. -/
theorem forLoop_fault_at {σ : Type} (body : Nat → σ → Except Fault σ) (f : Nat → σ)
    (n count : Nat) (e : Fault) (hlt : n < count)
    (h : ∀ m, m < n → body m (f m) = .ok (f (m + 1)))
    (herr : body n (f n) = .error e) :
    forLoop body 0 count (f 0) = .error e := by
  obtain ⟨k, hk⟩ : ∃ k, count = n + (k + 1) := ⟨count - n - 1, by omega⟩
  rw [hk, forLoop_add, forLoop_chain body f n h]
  simp only [Nat.zero_add]
  rw [forLoop, herr]

/-- A loop of one iteration is its body. -/
theorem forLoop_one {σ : Type} (body : Nat → σ → Except Fault σ) (i : Nat) (s : σ) :
    forLoop body i 1 s = body i s := by
  rw [forLoop]
  cases body i s <;> rfl

namespace WavFile

theorem mapUpTo_zero {α : Type} (g : α → α) (l : List α) : mapUpTo g 0 l = l := by
  simp [mapUpTo]

theorem mapUpTo_length_eq {α : Type} (g : α → α) (l : List α) :
    mapUpTo g l.length l = l.map g := by
  simp [mapUpTo]

theorem length_mapUpTo {α : Type} (g : α → α) (m : Nat) (l : List α) :
    (mapUpTo g m l).length = l.length := by
  simp [mapUpTo]
  omega

theorem getElem?_mapUpTo {α : Type} (g : α → α) (m : Nat) (l : List α) :
    (mapUpTo g m l)[m]? = l[m]? := by
  unfold mapUpTo
  by_cases h : m ≤ l.length
  · rw [List.getElem?_append_right (by simp [h])]
    simp [h]
  · rw [List.getElem?_eq_none (by simp; omega), List.getElem?_eq_none (by omega)]

theorem mapUpTo_succ {α : Type} (g : α → α) (m : Nat) (l : List α) (x : α)
    (h : l[m]? = some x) : (mapUpTo g m l).set m (g x) = mapUpTo g (m + 1) l := by
  induction l generalizing m with
  | nil => simp at h
  | cons a t ih =>
    cases m with
    | zero =>
      simp at h
      subst h
      simp [mapUpTo]
    | succ k =>
      simp only [List.getElem?_cons_succ] at h
      show (g a :: mapUpTo g k t).set (k + 1) (g x) = g a :: mapUpTo g (k + 1) t
      rw [List.set_cons_succ, ih k h]

theorem mem_mapUpTo_length {α : Type} (g : List α → List α) (n : Nat)
    (hg : ∀ l, (g l).length = l.length) (m : Nat) (l : List (List α))
    (heq : ∀ ch ∈ l, ch.length = n) : ∀ ch ∈ mapUpTo g m l, ch.length = n := by
  intro ch hch
  unfold mapUpTo at hch
  rw [List.mem_append, List.mem_map] at hch
  rcases hch with ⟨x, hx, rfl⟩ | hch
  · rw [hg]; exact heq x (List.mem_of_mem_take hx)
  · exact heq ch (List.mem_of_mem_drop hch)

end WavFile

namespace WavFile

theorem volumeStep_ok (g : ℚ → ℚ) (i m : Nat) (st : List (List ℚ)) (ch : List ℚ) (x : ℚ)
    (hst : st[i]? = some (mapUpTo g m ch)) (hx : ch[m]? = some x) :
    volumeStep g i m st = .ok (st.set i (mapUpTo g (m + 1) ch)) := by
  unfold volumeStep
  rw [hst]
  simp only
  rw [getElem?_mapUpTo, hx]
  simp only
  rw [mapUpTo_succ g m ch x hx]

theorem volumeStep_fault (g : ℚ → ℚ) (i m : Nat) (st : List (List ℚ)) (l : List ℚ)
    (hst : st[i]? = some l) (hm : l.length ≤ m) :
    volumeStep g i m st = .error Fault.outOfBounds := by
  unfold volumeStep
  rw [hst]
  simp only
  rw [List.getElem?_eq_none hm]

theorem set_of_getElem? {α : Type} (st : List α) (i : Nat) (x : α) (h : st[i]? = some x) :
    st.set i x = st := by
  apply List.ext_getElem?
  intro j
  rw [List.getElem?_set]
  split
  · rename_i hij
    subst hij
    have hlt := (List.getElem?_eq_some_iff.mp h).1
    simp [hlt, h]
  · rfl

/-- The inner loop of `IncVol` and `DecVol` over a whole channel replaces its elements by
their new values. -/
theorem volume_inner (g : ℚ → ℚ) (i : Nat) (st : List (List ℚ)) (ch : List ℚ)
    (hst : st[i]? = some ch) :
    forLoop (fun j samples => volumeStep g i j samples) 0 ch.length st
      = .ok (st.set i (ch.map g)) := by
  have hi := (List.getElem?_eq_some_iff.mp hst).1
  have h := forLoop_chain (fun j samples => volumeStep g i j samples)
    (fun m => st.set i (mapUpTo g m ch)) ch.length (by
      intro m hm
      simp only
      rw [volumeStep_ok g i m _ ch ch[m] (by simp [hi]) (List.getElem?_eq_getElem hm),
        List.set_set])
  simp only [mapUpTo_zero, mapUpTo_length_eq] at h
  rw [set_of_getElem? st i ch hst] at h
  exact h

/-- The inner loop of `IncVol` and `DecVol` with a bound beyond the length of the
channel reads past its end. -/
theorem volume_inner_fault (g : ℚ → ℚ) (i count : Nat) (st : List (List ℚ)) (ch : List ℚ)
    (hst : st[i]? = some ch) (hcount : ch.length < count) :
    forLoop (fun j samples => volumeStep g i j samples) 0 count st
      = .error Fault.outOfBounds := by
  have hi := (List.getElem?_eq_some_iff.mp hst).1
  have h := forLoop_fault_at (fun j samples => volumeStep g i j samples)
    (fun m => st.set i (mapUpTo g m ch)) ch.length count Fault.outOfBounds hcount (by
      intro m hm
      simp only
      rw [volumeStep_ok g i m _ ch ch[m] (by simp [hi]) (List.getElem?_eq_getElem hm),
        List.set_set]) (by
      simp only
      exact volumeStep_fault g i ch.length _ (mapUpTo g ch.length ch) (by simp [hi])
        (by rw [length_mapUpTo]))
  simp only [mapUpTo_zero] at h
  rw [set_of_getElem? st i ch hst] at h
  exact h

theorem toSizeT_toInt32_of_lt (n : Nat) (h : n < 2147483648) : toSizeT (toInt32 n) = n := by
  unfold toSizeT toInt32
  omega

theorem toSizeT_wrapped : toSizeT (toInt32 (2147483648 : Nat)) = 18446744071562067968 := by
  unfold toSizeT toInt32
  omega

/-- The loops of `IncVol` and `DecVol` on channels of one common length below 2^31
replace every sample by its new value. -/
theorem volumeLoop_eq (g : ℚ → ℚ) (w : WavFile) (n : Nat)
    (heq : ∀ ch ∈ w.samples, ch.length = n) (hn : n < 2147483648) :
    volumeLoop g w = .ok (w.samples.map (List.map g)) := by
  unfold volumeLoop
  have h := forLoop_chain (fun i samples =>
      forLoop (fun j samples => volumeStep g i j samples)
        0 (toSizeT (getNumSamplesPerChannel { w with samples := samples })) samples)
    (fun a => mapUpTo (List.map g) a w.samples) w.samples.length (by
      intro a ha
      simp only
      have hmem := mem_mapUpTo_length (List.map g) n (fun l => List.length_map l g) a
        w.samples heq
      have hne : mapUpTo (List.map g) a w.samples ≠ [] := by
        intro h0
        have := length_mapUpTo (List.map g) a w.samples
        rw [h0] at this
        simp at this
        omega
      rw [getNumSamplesPerChannel_eq { w with samples := mapUpTo (List.map g) a w.samples } n
        hmem hne, toSizeT_toInt32_of_lt n hn]
      have hch : (mapUpTo (List.map g) a w.samples)[a]? = some w.samples[a] := by
        rw [getElem?_mapUpTo, List.getElem?_eq_getElem ha]
      have hl : w.samples[a].length = n := heq _ (List.getElem_mem ha)
      rw [← hl, volume_inner g a _ _ hch,
        mapUpTo_succ (List.map g) a w.samples w.samples[a] (List.getElem?_eq_getElem ha)])
  simp only [mapUpTo_zero, mapUpTo_length_eq] at h
  exact h

/-- The loops of `IncVol` and `DecVol` on a single channel of 2^31 samples: the bound of
the inner loop is -2^31 converted to `size_t`, and the loop reads past the end of the
channel. -/
theorem volumeLoop_of_wrapped_count (g : ℚ → ℚ) (w : WavFile) (ch : List ℚ)
    (hs : w.samples = [ch]) (hlen : ch.length = 2147483648) :
    volumeLoop g w = .error Fault.outOfBounds := by
  unfold volumeLoop
  rw [hs, List.length_singleton, forLoop_one]
  have hN : getNumSamplesPerChannel { w with samples := [ch] } = toInt32 (2147483648 : Nat) := by
    unfold getNumSamplesPerChannel
    simp only
    rw [hlen]
  rw [hN, toSizeT_wrapped,
    volume_inner_fault g 0 18446744071562067968 [ch] ch rfl (by rw [hlen]; omega)]

theorem IncVol_eq (w : WavFile) (times : ℚ) :
    IncVol w times
      = match volumeLoop (fun s => s + s * times) w with
        | .ok samples => .ok { w with samples := samples }
        | .error e => .error e := rfl

theorem DecVol_eq (w : WavFile) (times : ℚ) :
    DecVol w times
      = match volumeLoop (fun s => s - s * times) w with
        | .ok samples => .ok { w with samples := samples }
        | .error e => .error e := rfl

end WavFile

namespace WavFile

/-- The result of `IncVol` on channels of one common length below 2^31. -/
theorem IncVol_ok (w : WavFile) (f : ℚ) (n : Nat)
    (heq : ∀ ch ∈ w.samples, ch.length = n) (hn : n < 2147483648) :
    IncVol w f = .ok { w with samples := w.samples.map (List.map (fun s => s * (1 + f))) } := by
  have e : (fun s : ℚ => s + s * f) = (fun s => s * (1 + f)) := by
    funext s; ring
  rw [IncVol_eq, volumeLoop_eq _ w n heq hn, e]

/-- The result of `DecVol` on channels of one common length below 2^31. -/
theorem DecVol_ok (w : WavFile) (f : ℚ) (n : Nat)
    (heq : ∀ ch ∈ w.samples, ch.length = n) (hn : n < 2147483648) :
    DecVol w f = .ok { w with samples := w.samples.map (List.map (fun s => s * (1 - f))) } := by
  have e : (fun s : ℚ => s - s * f) = (fun s => s * (1 - f)) := by
    funext s; ring
  rw [DecVol_eq, volumeLoop_eq _ w n heq hn, e]

/-- Replacing the samples elementwise changes none of the values that the getters of the
shape and of the format return. -/
theorem getters_of_map (w : WavFile) (g : ℚ → ℚ) :
    getNumChannels { w with samples := w.samples.map (List.map g) } = getNumChannels w
      ∧ getNumSamplesPerChannel { w with samples := w.samples.map (List.map g) }
          = getNumSamplesPerChannel w
      ∧ getSampleRate { w with samples := w.samples.map (List.map g) } = getSampleRate w
      ∧ getBitDepth { w with samples := w.samples.map (List.map g) } = getBitDepth w := by
  refine ⟨?_, ?_, rfl, rfl⟩
  · unfold getNumChannels
    simp
  · unfold getNumSamplesPerChannel
    cases w.samples with
    | nil => rfl
    | cons c0 rest => simp

/-- C16, counterexample: for the object with one channel of 2^31 samples the frame count
returned as `int` is -2^31; converted to `size_t` in the loop condition it is
2^64 - 2^31, and `IncVol` and `DecVol` read and write past the end of the channel. -/
theorem c16_volume_reads_past_end_for_wrapped_frame_count :
    (∀ ch ∈ tooManyFrames.samples, ch.length = 2147483648)
      ∧ getNumSamplesPerChannel tooManyFrames = -2147483648
      ∧ toSizeT (getNumSamplesPerChannel tooManyFrames) = 18446744071562067968
      ∧ IncVol tooManyFrames 1 = .error Fault.outOfBounds
      ∧ DecVol tooManyFrames 1 = .error Fault.outOfBounds := by
  have hN : getNumSamplesPerChannel tooManyFrames = -2147483648 := by
    show toInt32 ((List.replicate 2147483648 (0 : ℚ)).length : Nat) = _
    rw [List.length_replicate]; decide
  refine ⟨?_, hN, by rw [hN]; decide, ?_, ?_⟩
  · intro ch hch
    have : ch = List.replicate 2147483648 (0 : ℚ) := List.mem_singleton.mp hch
    rw [this, List.length_replicate]
  · rw [IncVol_eq, volumeLoop_of_wrapped_count _ tooManyFrames
      (List.replicate 2147483648 (0 : ℚ)) rfl (List.length_replicate _ _)]
  · rw [DecVol_eq, volumeLoop_of_wrapped_count _ tooManyFrames
      (List.replicate 2147483648 (0 : ℚ)) rfl (List.length_replicate _ _)]

/-- C16, amended: for every object with equal-length channels of fewer than 2^31 frames
and every factor `f`, `IncVol(f)` replaces each sample `s` by `s × (1 + f)` and
`DecVol(f)` replaces each `s` by `s × (1 - f)`, with no clamping; `IncVol(f)` followed by
`DecVol(f)` leaves each sample equal to `s × (1 + f) × (1 - f)`; and neither operation
changes the channel count, the frame count, the sample rate or the bit depth (exact
arithmetic over the rationals). -/
theorem c16_volume_scales_samples (w : WavFile) (f : ℚ) (n : Nat)
    (heq : ∀ ch ∈ w.samples, ch.length = n) (hn : n < 2147483648) :
    IncVol w f = .ok { w with samples := w.samples.map (List.map (fun s => s * (1 + f))) }
      ∧ DecVol w f
          = .ok { w with samples := w.samples.map (List.map (fun s => s * (1 - f))) }
      ∧ (IncVol w f).bind (fun w1 => DecVol w1 f)
          = .ok { w with samples :=
              w.samples.map (List.map (fun s => s * (1 + f) * (1 - f))) }
      ∧ ∀ w1, (IncVol w f = .ok w1 ∨ DecVol w f = .ok w1) →
          getNumChannels w1 = getNumChannels w
            ∧ getNumSamplesPerChannel w1 = getNumSamplesPerChannel w
            ∧ getSampleRate w1 = getSampleRate w ∧ getBitDepth w1 = getBitDepth w := by
  have hinc := IncVol_ok w f n heq hn
  have hdec := DecVol_ok w f n heq hn
  refine ⟨hinc, hdec, ?_, ?_⟩
  · rw [hinc]
    show DecVol { w with samples := w.samples.map (List.map (fun s => s * (1 + f))) } f = _
    have heq1 : ∀ ch ∈ ({ w with samples := w.samples.map (List.map (fun s => s * (1 + f))) }
        : WavFile).samples, ch.length = n := by
      intro ch hch
      simp only [List.mem_map] at hch
      obtain ⟨x, hx, rfl⟩ := hch
      rw [List.length_map]
      exact heq x hx
    rw [DecVol_ok _ f n heq1 hn]
    simp only [List.map_map, List.map_comp_map]
    rfl
  · intro w1 h1
    rcases h1 with h1 | h1
    · rw [hinc] at h1
      cases h1
      exact getters_of_map w _
    · rw [hdec] at h1
      cases h1
      exact getters_of_map w _

/-- C16, witness: on the channel 0, 1/2 the factor 1/2 gives 0, 3/4 after `IncVol` and
0, 3/8 after `DecVol` of the result. -/
theorem c16_volume_scales_samples_witness :
    IncVol twoFrames (1 / 2) = .ok { twoFrames with samples := [[0, 3 / 4]] }
      ∧ (IncVol twoFrames (1 / 2)).bind (fun w1 => DecVol w1 (1 / 2))
          = .ok { twoFrames with samples := [[0, 3 / 8]] } := by
  have h := c16_volume_scales_samples twoFrames (1 / 2) 2 (by decide) (by decide)
  refine ⟨?_, ?_⟩
  · rw [h.1]
    exact congrArg Except.ok (by decide!)
  · rw [h.2.2.1]
    exact congrArg Except.ok (by decide!)

end WavFile

namespace WavFile

end WavFile

namespace WavFile

end WavFile

namespace WavFile

/-- The chunk search returns the first offset of the tag below its bound, cast to `int`. -/
theorem getIndexOfString_of_first (source s : List Byte) (i : Nat)
    (hi : i + s.length < source.length) (hp : slice source i s.length = s)
    (hfirst : ∀ j, j < i → slice source j s.length ≠ s) :
    getIndexOfString source s = some (toInt32 i) := by
  unfold getIndexOfString
  simp only
  rw [if_neg (by omega)]
  have hfind : (List.range (source.length - s.length)).find?
      (fun i => (source.drop i).take s.length == s) = some i := by
    rw [List.find?_range_eq_some]
    refine ⟨by simpa [slice] using hp, List.mem_range.mpr (by omega), ?_⟩
    intro j hj
    have := hfirst j hj
    simpa [slice] using this
  rw [hfind]

/-- A section that starts with a byte does not stand where another byte stands. -/
theorem slice_ne_of_head (l : List Byte) (j : Nat) (b : Byte) (t : List Byte)
    (h : ∀ x, l[j]? = some x → x ≠ b) : slice l j (b :: t).length ≠ b :: t := by
  intro hs
  have h0 := getElem?_slice l j (b :: t).length 0 (by simp)
  rw [hs] at h0
  simp only [List.getElem?_cons_zero, Nat.add_zero] at h0
  exact h b h0.symm rfl

theorem byteAt_append_left (l1 l2 : List Byte) (i : Int) (h : i < l1.length) :
    byteAt (l1 ++ l2) i = byteAt l1 i := by
  unfold byteAt
  split
  · rw [List.getElem?_append_left (by omega)]
  · rfl

theorem twoBytesToInt_append_left (l1 l2 : List Byte) (i : Int) (h : i + 2 ≤ l1.length)
    (hlen : l1.length < 2147483648) (h0 : 0 ≤ i) :
    twoBytesToInt (l1 ++ l2) i = twoBytesToInt l1 i := by
  unfold twoBytesToInt
  have e1 : addInt i 1 = i + 1 := addInt_of_range (by omega) (by omega)
  rw [e1, byteAt_append_left l1 l2 (i + 1) (by omega), byteAt_append_left l1 l2 i (by omega)]

theorem fourBytesToInt_append_left (l1 l2 : List Byte) (i : Int) (h : i + 4 ≤ l1.length)
    (hlen : l1.length < 2147483648) (h0 : 0 ≤ i) :
    fourBytesToInt (l1 ++ l2) i = fourBytesToInt l1 i := by
  unfold fourBytesToInt
  have e1 : addInt i 1 = i + 1 := addInt_of_range (by omega) (by omega)
  have e2 : addInt i 2 = i + 2 := addInt_of_range (by omega) (by omega)
  have e3 : addInt i 3 = i + 3 := addInt_of_range (by omega) (by omega)
  rw [e1, e2, e3, byteAt_append_left l1 l2 (i + 3) (by omega),
    byteAt_append_left l1 l2 (i + 2) (by omega), byteAt_append_left l1 l2 (i + 1) (by omega),
    byteAt_append_left l1 l2 i (by omega)]

theorem readString_append_left (l1 l2 : List Byte) (start : Int) (len : Nat)
    (h0 : 0 ≤ start) (h : start + len ≤ l1.length) :
    readString (l1 ++ l2) start len = readString l1 start len := by
  rw [readString_isSome l1 start len h0 h,
    readString_isSome (l1 ++ l2) start len h0 (by rw [List.length_append]; push_cast; omega),
    slice_append_left l1 l2 start.toNat len (by omega)]

theorem readFormatChunk_append_left (l1 l2 : List Byte) (f : Int) (h0 : 0 ≤ f)
    (h : f + 24 ≤ l1.length) (hlen : l1.length < 2147483648) :
    readFormatChunk (l1 ++ l2) f = readFormatChunk l1 f := by
  unfold readFormatChunk
  have e8 : addInt f 8 = f + 8 := addInt_of_range (by omega) (by omega)
  have e10 : addInt f 10 = f + 10 := addInt_of_range (by omega) (by omega)
  have e12 : addInt f 12 = f + 12 := addInt_of_range (by omega) (by omega)
  have e16 : addInt f 16 = f + 16 := addInt_of_range (by omega) (by omega)
  have e20 : addInt f 20 = f + 20 := addInt_of_range (by omega) (by omega)
  have e22 : addInt f 22 = f + 22 := addInt_of_range (by omega) (by omega)
  rw [e8, e10, e12, e16, e20, e22, readString_append_left l1 l2 f 4 h0 (by push_cast; omega),
    twoBytesToInt_append_left l1 l2 (f + 8) (by omega) hlen (by omega),
    twoBytesToInt_append_left l1 l2 (f + 10) (by omega) hlen (by omega),
    fourBytesToInt_append_left l1 l2 (f + 12) (by omega) hlen (by omega),
    fourBytesToInt_append_left l1 l2 (f + 16) (by omega) hlen (by omega),
    twoBytesToInt_append_left l1 l2 (f + 20) (by omega) hlen (by omega),
    twoBytesToInt_append_left l1 l2 (f + 22) (by omega) hlen (by omega)]

end WavFile

namespace WavFile

theorem hugeFile_split_header :
    hugeFile = upperCaseHeader
      ++ (List.replicate 4294967264 0 ++ (stereoFormatChunk ++ emptyDataChunk)) := by
  unfold hugeFile
  simp only [List.append_assoc]

theorem hugeFile_split_format :
    hugeFile = (upperCaseHeader ++ List.replicate 4294967264 0)
      ++ (stereoFormatChunk ++ emptyDataChunk) := by
  unfold hugeFile
  simp only [List.append_assoc]

theorem hugeFile_prefix_length :
    (upperCaseHeader ++ List.replicate 4294967264 (0 : Byte)).length = 4294967308 := by
  rw [List.length_append, List.length_replicate, show upperCaseHeader.length = 44 from rfl]

theorem hugeFile_format_prefix_length :
    (upperCaseHeader ++ List.replicate 4294967264 (0 : Byte) ++ stereoFormatChunk).length
      = 4294967332 := by
  rw [List.length_append, hugeFile_prefix_length, show stereoFormatChunk.length = 24 from rfl]

theorem hugeFile_split_data :
    hugeFile = (upperCaseHeader ++ List.replicate 4294967264 0 ++ stereoFormatChunk)
      ++ emptyDataChunk := by
  unfold hugeFile
  simp only [List.append_assoc]

theorem hugeFile_length : hugeFile.length = 4294967340 := by
  rw [hugeFile_split_data, List.length_append, hugeFile_format_prefix_length,
    show emptyDataChunk.length = 8 from rfl]

/-- The tag "fmt" stands first at offset 2^32 + 12 of `hugeFile`. -/
theorem hugeFile_first_fmt : IsFirstOffset hugeFile (stringBytes "fmt") 4294967308 := by
  have e : stringBytes "fmt" = [102, 109, 116] := by decide
  rw [e]
  constructor
  · have h := slice_append_right (upperCaseHeader ++ List.replicate 4294967264 0)
      (stereoFormatChunk ++ emptyDataChunk) 0 3
    rw [hugeFile_prefix_length, ← hugeFile_split_format] at h
    rw [show ([102, 109, 116] : List Byte).length = 3 from rfl, h]
    decide
  · intro j hj
    apply slice_ne_of_head
    intro x hx
    rw [hugeFile_split_format,
      List.getElem?_append_left (by rw [hugeFile_prefix_length]; exact hj)] at hx
    have hmem := List.getElem?_mem hx
    rw [List.mem_append] at hmem
    rcases hmem with hm | hm
    · have hall : ∀ y ∈ upperCaseHeader, y ≠ (102 : Byte) := by decide!
      exact hall x hm
    · rw [(List.mem_replicate.mp hm).2]
      decide

/-- The tag "data" stands first at offset 2^32 + 36 of `hugeFile`. -/
theorem hugeFile_first_data : IsFirstOffset hugeFile (stringBytes "data") 4294967332 := by
  have e : stringBytes "data" = [100, 97, 116, 97] := by decide
  rw [e]
  constructor
  · have h := slice_append_right
      (upperCaseHeader ++ List.replicate 4294967264 0 ++ stereoFormatChunk) emptyDataChunk 0 4
    rw [hugeFile_format_prefix_length] at h
    rw [show ([100, 97, 116, 97] : List Byte).length = 4 from rfl, hugeFile_split_data, h]
    decide
  · intro j hj
    apply slice_ne_of_head
    intro x hx
    rw [hugeFile_split_data,
      List.getElem?_append_left (by rw [hugeFile_format_prefix_length]; exact hj)] at hx
    have hmem := List.getElem?_mem hx
    rw [List.mem_append, List.mem_append] at hmem
    rcases hmem with (hm | hm) | hm
    · have hall : ∀ y ∈ upperCaseHeader, y ≠ (100 : Byte) := by decide!
      exact hall x hm
    · rw [(List.mem_replicate.mp hm).2]
      decide
    · have hall : ∀ y ∈ stereoFormatChunk, y ≠ (100 : Byte) := by decide!
      exact hall x hm

/-- The chunk search on `hugeFile` returns the first offsets cast to `int`: 12 and 36. -/
theorem hugeFile_search :
    getIndexOfString hugeFile (stringBytes "fmt") = some 12
      ∧ getIndexOfString hugeFile (stringBytes "data") = some 36 := by
  constructor
  · rw [getIndexOfString_of_first hugeFile (stringBytes "fmt") 4294967308
      (by rw [hugeFile_length]; decide) hugeFile_first_fmt.1 hugeFile_first_fmt.2]
    decide
  · rw [getIndexOfString_of_first hugeFile (stringBytes "data") 4294967332
      (by rw [hugeFile_length]; decide) hugeFile_first_data.1 hugeFile_first_data.2]
    decide

/-- Decoding `hugeFile` reads the header fields at the offsets 12 and 36 and succeeds. -/
theorem hugeFile_decoded : decodeWaveFile new hugeFile = Decoded.ok hugeDecoded := by
  have hl : upperCaseHeader.length = 44 := rfl
  have hriff : readString hugeFile 0 4 = some (stringBytes "RIFF") := by
    rw [hugeFile_split_header, readString_append_left _ _ 0 4 (by decide) (by rw [hl]; decide)]
    decide
  have hwave : readString hugeFile 8 4 = some (stringBytes "WAVE") := by
    rw [hugeFile_split_header, readString_append_left _ _ 8 4 (by decide) (by rw [hl]; decide)]
    decide
  have hc : readFormatChunk hugeFile 12 = some upperCaseChunk := by
    rw [hugeFile_split_header, readFormatChunk_append_left _ _ 12 (by decide)
      (by rw [hl]; decide) (by rw [hl]; decide)]
    decide
  have hid : readString hugeFile 36 4 = some (stringBytes "DATA") := by
    rw [hugeFile_split_header,
      readString_append_left _ _ 36 4 (by decide) (by rw [hl]; decide)]
    decide
  have hsize : fourBytesToInt hugeFile (addInt 36 4) = some 0 := by
    rw [hugeFile_split_header, show addInt 36 4 = 40 from by decide,
      fourBytesToInt_append_left _ _ 40 (by rw [hl]; decide) (by rw [hl]; decide) (by decide)]
    decide
  exact decodeWaveFile_of_steps new hugeFile 12 36 0 upperCaseChunk (stringBytes "DATA") [[]]
    hugeFile_search.1 hugeFile_search.2 (by decide) (by decide) hriff hwave hc rfl
    (Or.inl rfl) (by decide) (Or.inl rfl) hid hsize rfl

end WavFile

namespace WavFile

/-- On a buffer below 2^32 bytes on which decode succeeds, the offsets returned by the
chunk search are the first offsets of the tags. -/
theorem search_of_first_offset (source tag : List Byte) (i : Nat) (r : Int)
    (hlen : source.length < 4294967296) (hfirst : IsFirstOffset source tag i)
    (hsearch : getIndexOfString source tag = some r) (hr : r ≠ -1) (h0 : 0 ≤ r) :
    r = (i : Int) := by
  rcases (getIndexOfString_eq_some hsearch).2 with ⟨h1, _⟩ | ⟨j, h1, h2, h3, h4⟩
  · exact absurd h1 hr
  · have hij : i = j := by
      rcases Nat.lt_trichotomy i j with h | h | h
      · exact absurd hfirst.1 (h4 i h)
      · exact h
      · exact absurd h3 (hfirst.2 j h)
    subst hij
    rw [h1] at h0 ⊢
    clear * - h0 h2 hlen
    unfold toInt32 at h0 ⊢
    omega

/-- C17, counterexample: in `hugeFile` (2^32 + 44 bytes) the first "fmt" tag stands at
offset 2^32 + 12 and the first "data" tag at 2^32 + 36; the chunk search casts these
offsets to `int`, 12 and 36, decode succeeds with the header fields read there, and the
decoded object has one channel although the 16-bit value at (2^32 + 12) + 10 is 2. -/
theorem c17_first_tags_beyond_int_range :
    hugeFile.length = 4294967340
      ∧ IsFirstOffset hugeFile (stringBytes "fmt") 4294967308
      ∧ IsFirstOffset hugeFile (stringBytes "data") 4294967332
      ∧ getIndexOfString hugeFile (stringBytes "fmt") = some 12
      ∧ getIndexOfString hugeFile (stringBytes "data") = some 36
      ∧ decodeWaveFile new hugeFile = Decoded.ok hugeDecoded
      ∧ getNumChannels hugeDecoded = 1
      ∧ toInt16 (unsignedLE (slice hugeFile (4294967308 + 10) 2)) = 2 := by
  refine ⟨hugeFile_length, hugeFile_first_fmt, hugeFile_first_data, hugeFile_search.1,
    hugeFile_search.2, hugeFile_decoded, by decide, ?_⟩
  have h := slice_append_right (upperCaseHeader ++ List.replicate 4294967264 0)
    (stereoFormatChunk ++ emptyDataChunk) 10 2
  rw [hugeFile_prefix_length, ← hugeFile_split_format] at h
  rw [h]
  decide

/-- C17, amended: for every byte buffer shorter than 2^32 bytes on which decode succeeds,
with `f` and `d` the offsets of the first "fmt" and "data" tags: the channel count is the
16-bit little-endian value at `f + 10`, the sample rate the 32-bit little-endian value
at `f + 12`, the bit depth the 16-bit little-endian value at `f + 22`; every channel holds
`dataChunkSize / (channelCount × bitDepth / 8)` frames, where `dataChunkSize` is the
32-bit little-endian value at `d + 4` as a signed integer (no frames when it is
negative); and `samples[c][i]` is the converter's decoding of the `bitDepth / 8` bytes
at offset `d + 8 + i × blockSize + c × (bitDepth / 8)`, which lie in the buffer, with
`blockSize` the 16-bit value at `f + 20`, equal to `channelCount × (bitDepth / 8)`. -/
theorem c17_decoded_fields_and_sample_positions (w w' : WavFile) (fileData : List Byte)
    (f d : Nat) (hok : decodeWaveFile w fileData = Decoded.ok w')
    (hlen : fileData.length < 4294967296)
    (hf : IsFirstOffset fileData (stringBytes "fmt") f)
    (hd : IsFirstOffset fileData (stringBytes "data") d) :
    ∃ (channelCount depth blockSize dataChunkSize : Int) (frameCount : Nat),
      (f + 24 ≤ fileData.length ∧ d + 8 ≤ fileData.length)
      ∧ channelCount = toInt16 (unsignedLE (slice fileData (f + 10) 2))
      ∧ depth = toInt16 (unsignedLE (slice fileData (f + 22) 2))
      ∧ blockSize = toInt16 (unsignedLE (slice fileData (f + 20) 2))
      ∧ dataChunkSize = toInt32 (unsignedLE (slice fileData (d + 4) 4))
      ∧ getNumChannels w' = channelCount ∧ (w'.samples.length : Int) = channelCount
      ∧ getSampleRate w' = unsignedLE (slice fileData (f + 12) 4)
      ∧ getBitDepth w' = depth
      ∧ blockSize = channelCount * Int.tdiv depth 8
      ∧ frameCount = (Int.tdiv dataChunkSize (Int.tdiv (channelCount * depth) 8)).toNat
      ∧ (0 ≤ dataChunkSize →
          (frameCount : Int) = Int.tdiv dataChunkSize (Int.tdiv (channelCount * depth) 8))
      ∧ (∀ ch ∈ w'.samples, ch.length = frameCount)
      ∧ getNumSamplesPerChannel w' = frameCount
      ∧ ∀ (c i : Nat), c < w'.samples.length → i < frameCount →
          d + 8 + i * blockSize + c * Int.tdiv depth 8 + Int.tdiv depth 8 ≤ fileData.length
          ∧ ∃ s, sampleAt w' c i = some s
            ∧ decodeSample
                (slice fileData (d + 8 + i * blockSize + c * Int.tdiv depth 8).toNat
                  (Int.tdiv depth 8).toNat) depth 0 = .ok s := by
  obtain ⟨f', d', size, c, hfmt, hdata, hfne, hdne, _, _, hc, _, _, _, _, ⟨id, hid⟩, _⟩ :=
    decodeWaveFile_ok_inv w w' fileData hok
  obtain ⟨⟨fid, hfid⟩, _⟩ := readFormatChunk_fields hc
  obtain ⟨hf0, _⟩ := readString_some hfid
  obtain ⟨hd0, _⟩ := readString_some hid
  have ef := search_of_first_offset fileData _ f f' hlen hf hfmt hfne hf0
  have ed := search_of_first_offset fileData _ d d' hlen hd hdata hdne hd0
  rw [ef] at hfmt
  rw [ed] at hdata
  exact decodeWaveFile_layout w w' fileData f d hok hfmt hdata

/-- C17, witness: in `stereoFile` the first "fmt" tag stands at 12 and the first "data"
tag at 36; it decodes to two channels of two frames whose samples are the decodings of
the bytes at 44, 45, 46 and 47. -/
theorem c17_decoded_fields_and_sample_positions_witness :
    decodeWaveFile new stereoFile = Decoded.ok stereoDecoded
      ∧ ∃ (channelCount depth blockSize dataChunkSize : Int) (frameCount : Nat),
      (12 + 24 ≤ stereoFile.length ∧ 36 + 8 ≤ stereoFile.length)
      ∧ channelCount = toInt16 (unsignedLE (slice stereoFile (12 + 10) 2))
      ∧ depth = toInt16 (unsignedLE (slice stereoFile (12 + 22) 2))
      ∧ blockSize = toInt16 (unsignedLE (slice stereoFile (12 + 20) 2))
      ∧ dataChunkSize = toInt32 (unsignedLE (slice stereoFile (36 + 4) 4))
      ∧ getNumChannels stereoDecoded = channelCount
      ∧ (stereoDecoded.samples.length : Int) = channelCount
      ∧ getSampleRate stereoDecoded = unsignedLE (slice stereoFile (12 + 12) 4)
      ∧ getBitDepth stereoDecoded = depth
      ∧ blockSize = channelCount * Int.tdiv depth 8
      ∧ frameCount = (Int.tdiv dataChunkSize (Int.tdiv (channelCount * depth) 8)).toNat
      ∧ (0 ≤ dataChunkSize →
          (frameCount : Int) = Int.tdiv dataChunkSize (Int.tdiv (channelCount * depth) 8))
      ∧ (∀ ch ∈ stereoDecoded.samples, ch.length = frameCount)
      ∧ getNumSamplesPerChannel stereoDecoded = frameCount
      ∧ ∀ (c i : Nat), c < stereoDecoded.samples.length → i < frameCount →
          ((36 : Nat) : Int) + 8 + i * blockSize + c * Int.tdiv depth 8 + Int.tdiv depth 8
            ≤ stereoFile.length
          ∧ ∃ s, sampleAt stereoDecoded c i = some s
            ∧ decodeSample
                (slice stereoFile
                  (((36 : Nat) : Int) + 8 + i * blockSize + c * Int.tdiv depth 8).toNat
                  (Int.tdiv depth 8).toNat) depth 0 = .ok s :=
  ⟨by decide!, c17_decoded_fields_and_sample_positions new stereoDecoded stereoFile 12 36
    (by decide!) (by decide) (by unfold IsFirstOffset; decide)
    (by unfold IsFirstOffset; decide)⟩

end WavFile
